import Mathlib

/-!
VOX4U voxel meshing: a shallow embedding of `FVoxel.cpp`.

The embedding follows `Source/VOX4UEditor/Private/FVoxel.cpp`.

Modelling conventions
* `int32` coordinates and sizes are `Int`, array indices and `uint32` values are `Nat`;
  signed arithmetic is taken without overflow (overflow of `int32` is undefined in the
  source language).  The only wrap-around the source relies on,
  `uint8 ColorIndex = Cell.Value - 1`, is written out as a reduction modulo `2 ^ 8`.
* A `float` value is the rational number it denotes.  Every `float` operation of the
  meshers (the conversion of an `int32`, `+`, `-`, `*`) rounds its exact result to the
  nearest IEEE binary32 value, ties to even (`roundFloat`).  The texture coordinates
  `(2 k + 1) / 512` (`k < 256`) and `1 / 2` are exact both in `double`, where they are
  computed, and in `float`, where they are stored.  The definitions with `exact` in
  their name are the same operations without rounding; they state what a claim of the
  specification says in real arithmetic.
* A checked array read (`TArray::operator[]`), a read past the end of a `std::vector` and a
  failed `check(...)` abort the call: the operations return `Option`, with `none` for abort.
* `TMap` iterates in insertion order; it is an association list with pairwise distinct keys.
-/

namespace VOX4U

/-! ## Engine value types -/

/-- Engine `FIntVector`: three `int32` components. -/
structure FIntVector where
  X : Int
  Y : Int
  Z : Int
deriving DecidableEq, Repr

/-- Componentwise `FIntVector::operator+`. -/
def FIntVector.add (a b : FIntVector) : FIntVector := ⟨a.X + b.X, a.Y + b.Y, a.Z + b.Z⟩

instance : Add FIntVector := ⟨FIntVector.add⟩

/-! ## Rounding to `float` -/

/-- The number of times `n` can be halved before it drops below 2, with a bound on the
number of steps. -/
def halvings : Nat → Nat → Nat
  | 0, _ => 0
  | fuel + 1, n => if 2 ≤ n then halvings fuel (n / 2) + 1 else 0

/-- The integer part `floor (log2 n)` of the binary logarithm of a positive natural
number. -/
def floorLog2 (n : Nat) : Nat := halvings n n

/-- The binary exponent `floor (log2 |q|)` of a non-zero rational `q`. -/
def binaryExponent (q : ℚ) : Int :=
  if 2 ^ floorLog2 q.num.natAbs * q.den ≤ q.num.natAbs * 2 ^ floorLog2 q.den then
    (floorLog2 q.num.natAbs : Int) - (floorLog2 q.den : Int)
  else (floorLog2 q.num.natAbs : Int) - (floorLog2 q.den : Int) - 1

/-- The power `2 ^ e` of an integer exponent as a rational. -/
def twoPow (e : Int) : ℚ :=
  if 0 ≤ e then ((2 ^ e.toNat : Nat) : ℚ) else 1 / ((2 ^ (-e).toNat : Nat) : ℚ)

/-- Rounding to the nearest integer, a tie going to the even one. -/
def roundHalfEven (x : ℚ) : Int :=
  if x - ((x.num / (x.den : Int) : Int) : ℚ) < 1 / 2 then x.num / (x.den : Int)
  else if 1 / 2 < x - ((x.num / (x.den : Int) : Int) : ℚ) then x.num / (x.den : Int) + 1
  else if (x.num / (x.den : Int)) % 2 = 0 then x.num / (x.den : Int)
  else x.num / (x.den : Int) + 1

/-- Rounding of a real value to the engine's 32-bit `float` (IEEE binary32: 24-bit
significand, round to nearest, ties to even, subnormals below `2 ^ -126`).  Overflow to
infinity is left out: every magnitude this program computes is below `2 ^ 33`. -/
def roundFloat (q : ℚ) : ℚ :=
  if q = 0 then 0
  else (roundHalfEven (q / twoPow (max (binaryExponent q) (-126) - 23)) : ℚ)
    * twoPow (max (binaryExponent q) (-126) - 23)

/-- Engine `FVector`: three `float` components, each the rational number it denotes. -/
structure FVector where
  X : ℚ
  Y : ℚ
  Z : ℚ
deriving DecidableEq, Repr

/-- Componentwise `FVector::operator+`: each `float` sum is rounded. -/
def FVector.add (a b : FVector) : FVector :=
  ⟨roundFloat (a.X + b.X), roundFloat (a.Y + b.Y), roundFloat (a.Z + b.Z)⟩

/-- Componentwise `FVector::operator-`: each `float` difference is rounded. -/
def FVector.sub (a b : FVector) : FVector :=
  ⟨roundFloat (a.X - b.X), roundFloat (a.Y - b.Y), roundFloat (a.Z - b.Z)⟩

instance : Add FVector := ⟨FVector.add⟩
instance : Sub FVector := ⟨FVector.sub⟩

/-- Engine `FVector::ZeroVector`. -/
def FVector.ZeroVector : FVector := ⟨0, 0, 0⟩

/-- The conversion `FVector(Key.X, Key.Y, Key.Z)` of integer components: each `int32` is
converted to the nearest `float`. -/
def FVector.ofInts (x y z : Int) : FVector :=
  ⟨roundFloat (x : ℚ), roundFloat (y : ℚ), roundFloat (z : ℚ)⟩

/-- Engine `FVector2D`. -/
structure FVector2D where
  X : ℚ
  Y : ℚ
deriving DecidableEq, Repr

/-- Engine `FColor`, four 8-bit channels. -/
structure FColor where
  R : Nat
  G : Nat
  B : Nat
  A : Nat
deriving DecidableEq, Repr

/-- The constructor `FColor(uint32)`: the engine stores the word over the channels
in the order B, G, R, A from the low byte up. -/
def FColor.ofDWord (d : Nat) : FColor :=
  ⟨d / 65536 % 256, d / 256 % 256, d % 256, d / 16777216 % 256⟩

/-! ## The sparse cell map -/

/-- Engine `TMap<FIntVector, uint8>` as the list of its pairs in iteration
order, with pairwise distinct keys. -/
structure TMap where
  entries : List (FIntVector × Nat)
  nodup : (entries.map Prod.fst).Nodup

/-- The keys of the map in iteration order. -/
def TMap.keys (m : TMap) : List FIntVector := m.entries.map Prod.fst

/-- The map of a default-constructed `FVoxel`. -/
def TMap.empty : TMap := ⟨[], List.nodup_nil⟩

/-- Replace the value stored under `k` in a list of pairs. -/
def replaceValue (k : FIntVector) (v : Nat) (e : FIntVector × Nat) : FIntVector × Nat :=
  if e.1 = k then (k, v) else e

/-- Engine `TMap::Add`: overwrite the value of an existing key in place, else append the pair. -/
def TMap.Add (m : TMap) (k : FIntVector) (v : Nat) : TMap :=
  if h : k ∈ m.entries.map Prod.fst then
    ⟨m.entries.map (replaceValue k v), by
      have e : (m.entries.map (replaceValue k v)).map Prod.fst = m.entries.map Prod.fst := by
        rw [List.map_map]
        refine List.map_congr_left ?_
        intro a _
        show (replaceValue k v a).1 = a.1
        unfold replaceValue
        split
        · next h => exact h.symm
        · rfl
      rw [e]; exact m.nodup⟩
  else
    ⟨m.entries ++ [(k, v)], by
      rw [List.map_append, List.map_singleton]
      refine List.Nodup.append m.nodup (List.nodup_singleton _) ?_
      intro a ha hk
      rw [List.mem_singleton] at hk
      subst hk
      exact h ha⟩

/-- Engine `TMap::Find`: the value stored under `k`, if any. -/
def TMap.Find (m : TMap) (k : FIntVector) : Option Nat :=
  (m.entries.find? (fun e => decide (e.1 = k))).map Prod.snd

/-! ## The decoded scene and the volume -/

/-- One decoded voxel record of `vox.h`. -/
structure VoxCell where
  x : Int
  y : Int
  z : Int
  i : Nat
deriving DecidableEq, Repr

/-- One decoded palette record of `vox.h`. -/
structure VoxColor where
  r : Nat
  g : Nat
  b : Nat
  a : Nat
deriving DecidableEq, Repr

/-- Modelled from the spec: the result of `vox::read` (`vox.h` is not part of the
sources): the native size `vox.size[0]`, the cells `vox.voxel[0].voxels` and the palette
records `vox.palette.palettes`. -/
structure DecodedScene where
  size : FIntVector
  voxels : List VoxCell
  palettes : List VoxColor

/-- The two import options `FVoxel.cpp` reads. -/
structure UVoxImportOption where
  bImportXForward : Bool
  bImportXYCenter : Bool
deriving DecidableEq, Repr

/-- The data members of `FVoxel` that the meshers read. -/
structure FVoxel where
  Size : FIntVector
  Voxel : TMap
  Palette : List FColor
  ImportOption : UVoxImportOption

/-- Lines 32-34: the stored size. -/
def ctorSize (xForward : Bool) (size : FIntVector) : FIntVector :=
  ⟨if xForward then size.Y else size.X, if xForward then size.X else size.Y, size.Z⟩

/-- Lines 39-41: the stored coordinate of a decoded cell, from the stored size. -/
def ctorVector (xForward : Bool) (Size : FIntVector) (cell : VoxCell) : FIntVector :=
  if xForward then ⟨Size.X - cell.y - 1, Size.Y - cell.x - 1, cell.z⟩
  else ⟨Size.X - cell.x - 1, cell.y, cell.z⟩

/-- Lines 36-43: the cell loop, adding each decoded cell to the map in order. -/
def ctorVoxel (xForward : Bool) (Size : FIntVector) (voxels : List VoxCell) (m : TMap) : TMap :=
  voxels.foldl (fun acc cell => acc.Add (ctorVector xForward Size cell) cell.i) m

/-- Lines 44-54: the palette, 256 colours read from the scene when it has any, else
from the built-in table `vox::vox::default_palette` (a parameter here). -/
def ctorPalette (default_palette : Fin 256 → Nat) (palettes : List VoxColor) :
    Option (List FColor) :=
  if palettes.length ≠ 0 then
    (List.range 256).mapM (fun i => (palettes[i]?).map (fun c => FColor.mk c.r c.g c.b c.a))
  else
    some ((List.finRange 256).map (fun i => FColor.ofDWord (default_palette i)))

/-- Constructor `FVoxel::FVoxel(Filename, Data, Size, ImportOption)`, after `vox::read`;
it aborts when the scene has some but fewer than 256 palette records. -/
def FVoxel.ctor (default_palette : Fin 256 → Nat) (vox : DecodedScene)
    (ImportOption : UVoxImportOption) : Option FVoxel :=
  let Size := ctorSize ImportOption.bImportXForward vox.size
  let Voxel := ctorVoxel ImportOption.bImportXForward Size vox.voxels TMap.empty
  (ctorPalette default_palette vox.palettes).map
    (fun Palette => ⟨Size, Voxel, Palette, ImportOption⟩)

/-- Constructor `FVoxel::FVoxel()`: the empty volume. -/
def FVoxel.default (ImportOption : UVoxImportOption) : FVoxel :=
  ⟨⟨0, 0, 0⟩, TMap.empty, [], ImportOption⟩

/-! ## The constant tables -/

/-- Lines 80-87: the six face directions. -/
def Vectors : Fin 6 → FIntVector :=
  ![⟨0, 0, 1⟩, ⟨0, 0, -1⟩, ⟨1, 0, 0⟩, ⟨-1, 0, 0⟩, ⟨0, 1, 0⟩, ⟨0, -1, 0⟩]

/-- Lines 97-106: the eight corners of the unit cube. -/
def Vertexes : Fin 8 → FVector :=
  ![⟨0, 0, 0⟩, ⟨1, 0, 0⟩, ⟨1, 1, 0⟩, ⟨0, 1, 0⟩, ⟨0, 0, 1⟩, ⟨1, 0, 1⟩, ⟨1, 1, 1⟩, ⟨0, 1, 1⟩]

/-- Lines 117-124: the four corner numbers of each face. -/
def Faces : Fin 6 → Fin 4 → Fin 8 :=
  ![![5, 4, 7, 6], ![0, 1, 2, 3], ![5, 6, 2, 1], ![7, 4, 0, 3], ![6, 7, 3, 2], ![4, 5, 1, 0]]

/-- Lines 132-135: the two triangles of a quad. -/
def Polygons : Fin 2 → Fin 3 → Fin 4 :=
  ![![0, 1, 2], ![2, 3, 0]]

/-- Lines 143-146: the texture coordinates of the two triangles. -/
def TextureCoord : Fin 2 → Fin 3 → FVector2D :=
  ![![⟨1, 1⟩, ⟨1, 0⟩, ⟨0, 0⟩], ![⟨0, 0⟩, ⟨0, 1⟩, ⟨1, 1⟩]]

/-! ## Mesh buffers -/

/-- Engine `FRawMesh`, with the one texture channel `WedgeTexCoords[0]` the code writes. -/
structure FRawMesh where
  FaceMaterialIndices : List Int
  FaceSmoothingMasks : List Nat
  VertexPositions : List FVector
  WedgeIndices : List Nat
  WedgeColors : List FColor
  WedgeTexCoords : List FVector2D
deriving DecidableEq, Repr

/-- A freshly constructed `FRawMesh`. -/
def FRawMesh.empty : FRawMesh := ⟨[], [], [], [], [], []⟩

/-- The section 3 invariant of a mesh buffer, with the triangle count taken from the
per-face arrays. -/
def MeshInvariant (M : FRawMesh) : Prop :=
  M.WedgeIndices.length = 3 * M.FaceMaterialIndices.length ∧
  M.WedgeColors.length = 3 * M.FaceMaterialIndices.length ∧
  M.WedgeTexCoords.length = 3 * M.FaceMaterialIndices.length ∧
  M.FaceSmoothingMasks.length = M.FaceMaterialIndices.length ∧
  ∀ i ∈ M.WedgeIndices, i < M.VertexPositions.length

instance (M : FRawMesh) : Decidable (MeshInvariant M) := by
  unfold MeshInvariant; infer_instance

/-- Modelled from the spec: the engine's `FRawMesh::IsValidOrFixable` (not part of the
sources), "the valid or fixable structural check (consistent buffer-length invariants
from section 3)". -/
def IsValidOrFixable (M : FRawMesh) : Bool := decide (MeshInvariant M)

/-- The rank of a material index among the indices in use. -/
def materialRank (used : List Int) (m : Int) : Int :=
  (((used.dedup).filter (fun k => decide (k < m))).length : Int)

/-- Modelled from the spec: the engine's `FRawMesh::CompactMaterialIndices` (not part of
the sources), "compact/deduplicate material-index usage": every face's material index
becomes its rank among the indices in use; no other array changes. -/
def CompactMaterialIndices (M : FRawMesh) : FRawMesh :=
  { M with FaceMaterialIndices := M.FaceMaterialIndices.map (materialRank M.FaceMaterialIndices) }

/-- Engine `TArray::AddUnique`: the index of the first equal element, else append and return
the new index. -/
def AddUnique (xs : List FVector) (v : FVector) : List FVector × Nat :=
  if v ∈ xs then (xs, xs.indexOf v) else (xs ++ [v], xs.length)

/-- The loop counters `0 .. 5` of the face loops. -/
def faceIndices : List (Fin 6) := [0, 1, 2, 3, 4, 5]

/-- The loop counters `0 .. 3` of the corner loop. -/
def vertexIndices : List (Fin 4) := [0, 1, 2, 3]

/-- The loop counters `0 .. 1` of the triangle loops. -/
def polygonIndices : List (Fin 2) := [0, 1]

/-- The loop counters `0 .. 7` of the cube-corner loops. -/
def cornerIndices : List (Fin 8) := [0, 1, 2, 3, 4, 5, 6, 7]

/-- Lines 168 and 223, `uint8 ColorIndex = Cell.Value - 1`: the difference is reduced
modulo `2 ^ 8`. -/
def ColorIndex (Value : Nat) : Nat := (((Value : Int) - 1) % 256).toNat

/-- The wedge UV `FVector2D(((double)ColorIndex + 0.5) / 256.0, 0.5)`. -/
def wedgeUV (ci : Nat) : FVector2D := ⟨((ci : ℚ) + 1 / 2) / 256, 1 / 2⟩

/-- The centering offset of lines 185 and 241. -/
def centerOffset (V : FVoxel) : FVector :=
  if V.ImportOption.bImportXYCenter then
    ⟨roundFloat (roundFloat (V.Size.X : ℚ) * (1 / 2)),
     roundFloat (roundFloat (V.Size.Y : ℚ) * (1 / 2)), 0⟩
  else FVector.ZeroVector

/-! ## `FVoxel::CreateRawMesh` -/

/-- Lines 161-166: one corner of a face goes through `AddUnique`; its index is appended
to `VertexPositionIndex`. -/
def addCorner (Origin : FVector) (FaceIndex : Fin 6) (st : List FVector × List Nat)
    (VertexIndex : Fin 4) : List FVector × List Nat :=
  let v := Origin + Vertexes (Faces FaceIndex VertexIndex)
  let r := AddUnique st.1 v
  (r.1, st.2 ++ [r.2])

/-- Lines 169-181: one triangle of a face. -/
def addPolygon (Palette : List FColor) (VertexPositionIndex : List Nat) (ci : Nat)
    (Out : FRawMesh) (PolygonIndex : Fin 2) : Option FRawMesh := do
  let i0 ← VertexPositionIndex[(Polygons PolygonIndex 0).val]?
  let i1 ← VertexPositionIndex[(Polygons PolygonIndex 1).val]?
  let i2 ← VertexPositionIndex[(Polygons PolygonIndex 2).val]?
  let c ← Palette[ci]?
  some { Out with
    WedgeIndices := Out.WedgeIndices ++ [i0, i1, i2]
    WedgeColors := Out.WedgeColors ++ [c, c, c]
    WedgeTexCoords := Out.WedgeTexCoords ++ [wedgeUV ci, wedgeUV ci, wedgeUV ci]
    FaceMaterialIndices := Out.FaceMaterialIndices ++ [0]
    FaceSmoothingMasks := Out.FaceSmoothingMasks ++ [0] }

/-- Lines 157-182: one face of one cell; skipped when the neighbour is occupied. -/
def addFace (V : FVoxel) (Cell : FIntVector × Nat) (Out : FRawMesh) (FaceIndex : Fin 6) :
    Option FRawMesh :=
  if (V.Voxel.Find (Cell.1 + Vectors FaceIndex)).isSome then some Out
  else
    let Origin := FVector.ofInts Cell.1.X Cell.1.Y Cell.1.Z
    let st := vertexIndices.foldl (addCorner Origin FaceIndex) (Out.VertexPositions, [])
    polygonIndices.foldlM (addPolygon V.Palette st.2 (ColorIndex Cell.2))
      { Out with VertexPositions := st.1 }

/-- Lines 155-183: all faces of one cell. -/
def addCell (V : FVoxel) (Out : FRawMesh) (Cell : FIntVector × Nat) : Option FRawMesh :=
  faceIndices.foldlM (addFace V Cell) Out

/-- Lines 185-192: the centering pass, the compaction and the final check. -/
def finishMesh (V : FVoxel) (Out : FRawMesh) : Option FRawMesh :=
  let R := CompactMaterialIndices
    { Out with VertexPositions := Out.VertexPositions.map (fun p => p - centerOffset V) }
  if IsValidOrFixable R then some R else none

/-- Method `FVoxel::CreateRawMesh`: the buffer left in `OutRawMesh` (the function itself
returns `true`). -/
def FVoxel.CreateRawMesh (V : FVoxel) (OutRawMesh : FRawMesh) : Option FRawMesh := do
  let Out ← V.Voxel.entries.foldlM (addCell V) OutRawMesh
  finishMesh V Out

/-! ## `FVoxel::CreateRawMeshes` -/

/-- Lines 224-236: one triangle of one face of a per-cell cube. -/
def cubePolygon (Palette : List FColor) (ci : Nat) (FaceIndex : Fin 6) (Out : FRawMesh)
    (PolygonIndex : Fin 2) : Option FRawMesh := do
  let c ← Palette[ci]?
  some { Out with
    WedgeIndices := Out.WedgeIndices ++
      [(Faces FaceIndex (Polygons PolygonIndex 0)).val,
       (Faces FaceIndex (Polygons PolygonIndex 1)).val,
       (Faces FaceIndex (Polygons PolygonIndex 2)).val]
    WedgeColors := Out.WedgeColors ++ [c, c, c]
    WedgeTexCoords := Out.WedgeTexCoords ++ [wedgeUV ci, wedgeUV ci, wedgeUV ci]
    FaceMaterialIndices := Out.FaceMaterialIndices ++ [0]
    FaceSmoothingMasks := Out.FaceSmoothingMasks ++ [0] }

/-- Lines 222-237: one face of a per-cell cube. -/
def cubeFace (Palette : List FColor) (Value : Nat) (Out : FRawMesh) (FaceIndex : Fin 6) :
    Option FRawMesh :=
  polygonIndices.foldlM (cubePolygon Palette (ColorIndex Value) FaceIndex) Out

/-- Lines 216-237: the mesh of one cell, before centering. -/
def cellMesh (V : FVoxel) (Cell : FIntVector × Nat) : Option FRawMesh :=
  let Origin := FVector.ofInts Cell.1.X Cell.1.Y Cell.1.Z
  let Out : FRawMesh :=
    { FRawMesh.empty with VertexPositions := cornerIndices.map (fun i => Origin + Vertexes i) }
  faceIndices.foldlM (cubeFace V.Palette Cell.2) Out

/-- Lines 215-239: one mesh per cell is appended to `OutRawMeshes`. -/
def addCellMesh (V : FVoxel) (Outs : List FRawMesh) (Cell : FIntVector × Nat) :
    Option (List FRawMesh) :=
  (cellMesh V Cell).map (fun M => Outs ++ [M])

/-- Method `FVoxel::CreateRawMeshes`: the list left in `OutRawMeshes`. -/
def FVoxel.CreateRawMeshes (V : FVoxel) (OutRawMeshes : List FRawMesh) :
    Option (List FRawMesh) := do
  let Outs ← V.Voxel.entries.foldlM (addCellMesh V) OutRawMeshes
  Outs.mapM (finishMesh V)

/-! ## `FVoxel::CreateMesh` -/

/-- Lines 274-283: one triangle of the unit-cube template. -/
def templatePolygon (FaceIndex : Fin 6) (Out : FRawMesh) (PolygonIndex : Fin 2) : FRawMesh :=
  { Out with
    WedgeIndices := Out.WedgeIndices ++
      [(Faces FaceIndex (Polygons PolygonIndex 0)).val,
       (Faces FaceIndex (Polygons PolygonIndex 1)).val,
       (Faces FaceIndex (Polygons PolygonIndex 2)).val]
    WedgeTexCoords := Out.WedgeTexCoords ++
      [TextureCoord PolygonIndex 0, TextureCoord PolygonIndex 1, TextureCoord PolygonIndex 2]
    FaceMaterialIndices := Out.FaceMaterialIndices ++ [0]
    FaceSmoothingMasks := Out.FaceSmoothingMasks ++ [0] }

/-- The static `FVoxel::CreateMesh`: the buffer left in `OutRawMesh` and the value
returned. -/
def FVoxel.CreateMesh (OutRawMesh : FRawMesh) : FRawMesh × Bool :=
  let Out1 : FRawMesh :=
    { OutRawMesh with VertexPositions := OutRawMesh.VertexPositions ++
        cornerIndices.map (fun i => Vertexes i - ⟨1 / 2, 1 / 2, 1 / 2⟩) }
  let Out2 := faceIndices.foldl
    (fun Out f => polygonIndices.foldl (templatePolygon f) Out) Out1
  (Out2, IsValidOrFixable Out2)

/-! ## The emitted faces, as pure data -/

/-- The faces `CreateRawMesh` emits, in emission order: each cell of the map with each
direction whose neighbour is not in the map. -/
def exposedFaces (V : FVoxel) : List ((FIntVector × Nat) × Fin 6) :=
  V.Voxel.entries.flatMap (fun Cell =>
    (faceIndices.filter (fun f => (V.Voxel.Find (Cell.1 + Vectors f)).isNone)).map
      (fun f => (Cell, f)))

/-- The position `Origin + Vertexes[Faces[f][k]]` of corner `k` of face `f` of a cell. -/
def faceCorner (Key : FIntVector) (f : Fin 6) (k : Fin 4) : FVector :=
  FVector.ofInts Key.X Key.Y Key.Z + Vertexes (Faces f k)

/-- The six wedge positions of a face: triangle `p`, corner `k`, in emission order. -/
def quadWedges (Key : FIntVector) (f : Fin 6) : List FVector :=
  polygonIndices.flatMap (fun p =>
    [faceCorner Key f (Polygons p 0), faceCorner Key f (Polygons p 1),
     faceCorner Key f (Polygons p 2)])

/-- The positions found through the wedge indices of a buffer. -/
def wedgePositions (M : FRawMesh) : List (Option FVector) :=
  M.WedgeIndices.map (fun i => M.VertexPositions[i]?)

/-- The effect of lines 161-181 on the buffer for one exposed face, written without
the failure cases. -/
def emitFace (Palette : List FColor) (Out : FRawMesh) (x : (FIntVector × Nat) × Fin 6) :
    FRawMesh :=
  let st := vertexIndices.foldl (addCorner (FVector.ofInts x.1.1.X x.1.1.Y x.1.1.Z) x.2)
    (Out.VertexPositions, [])
  let c := Palette.getD (ColorIndex x.1.2) ⟨0, 0, 0, 0⟩
  let uv := wedgeUV (ColorIndex x.1.2)
  { FaceMaterialIndices := Out.FaceMaterialIndices ++ [0, 0]
    FaceSmoothingMasks := Out.FaceSmoothingMasks ++ [0, 0]
    VertexPositions := st.1
    WedgeIndices := Out.WedgeIndices ++
      [st.2.getD 0 0, st.2.getD 1 0, st.2.getD 2 0, st.2.getD 2 0, st.2.getD 3 0, st.2.getD 0 0]
    WedgeColors := Out.WedgeColors ++ [c, c, c, c, c, c]
    WedgeTexCoords := Out.WedgeTexCoords ++ [uv, uv, uv, uv, uv, uv] }

/-- The buffer after the centering pass. -/
def centered (V : FVoxel) (Out : FRawMesh) : FRawMesh :=
  { Out with VertexPositions := Out.VertexPositions.map (fun p => p - centerOffset V) }

/-- The volumes the two constructors build: no cell at all, or a palette of 256 colours. -/
def FVoxel.Built (V : FVoxel) : Prop := V.Voxel.entries = [] ∨ V.Palette.length = 256

/-- The 36 wedge indices of a per-cell cube: `Faces[f][Polygons[p][k]]` for `f`, `p`,
`k` in loop order. -/
def cubeWedgeIndices : List Nat :=
  faceIndices.flatMap (fun f => polygonIndices.flatMap (fun p =>
    [(Faces f (Polygons p 0)).val, (Faces f (Polygons p 1)).val,
     (Faces f (Polygons p 2)).val]))

/-- The buffer lines 216-237 build for one cell, written without the failure cases. -/
def cubeMesh (Palette : List FColor) (Cell : FIntVector × Nat) : FRawMesh :=
  { FaceMaterialIndices := List.replicate 12 0
    FaceSmoothingMasks := List.replicate 12 0
    VertexPositions :=
      cornerIndices.map (fun i => FVector.ofInts Cell.1.X Cell.1.Y Cell.1.Z + Vertexes i)
    WedgeIndices := cubeWedgeIndices
    WedgeColors := List.replicate 36 (Palette.getD (ColorIndex Cell.2) ⟨0, 0, 0, 0⟩)
    WedgeTexCoords := List.replicate 36 (wedgeUV (ColorIndex Cell.2)) }

/-- The set of positions found through wedges `6 j .. 6 j + 5` of a buffer: the corners
of its `j`-th quad. -/
def quadCornerSet (M : FRawMesh) (j : Nat) : Finset (Option FVector) :=
  (((wedgePositions M).drop (6 * j)).take 6).toFinset

/-- The four corners, after centering, of the unit face of cell `v` on its side `f`. -/
def faceCornerSet (V : FVoxel) (v : FIntVector) (f : Fin 6) : Finset (Option FVector) :=
  (vertexIndices.map (fun k => some (faceCorner v f k - centerOffset V))).toFinset

/-- Each of the first `n` quads of a buffer has a corner off the plane `x = a`. -/
def QuadsOffPlaneX (M : FRawMesh) (n : Nat) (a : ℚ) : Prop :=
  ∀ j < n, ∃ q ∈ ((wedgePositions M).drop (6 * j)).take 6, q.map FVector.X ≠ some a

instance (M : FRawMesh) (n : Nat) (a : ℚ) : Decidable (QuadsOffPlaneX M n a) := by
  unfold QuadsOffPlaneX; infer_instance

/-- The vertex positions and wedge indices after one emitted face: they depend on the
cell coordinate and the direction only, not on the material or the palette. -/
def emitGeometry (st : List FVector × List Nat) (y : FIntVector × Fin 6) :
    List FVector × List Nat :=
  let r := vertexIndices.foldl (addCorner (FVector.ofInts y.1.X y.1.Y y.1.Z) y.2) (st.1, [])
  (r.1, st.2 ++
    [r.2.getD 0 0, r.2.getD 1 0, r.2.getD 2 0, r.2.getD 2 0, r.2.getD 3 0, r.2.getD 0 0])

/-- The exposed faces as a set: the pairs of an occupied cell and a direction index
whose neighbour cell is not occupied. -/
def exposedFaceSet (V : FVoxel) : Finset (FIntVector × Fin 6) :=
  (V.Voxel.keys.toFinset ×ˢ (Finset.univ : Finset (Fin 6))).filter
    (fun p => p.1 + Vectors p.2 ∉ V.Voxel.keys)

/-! ## Concrete volumes used in the examples -/

/-- A palette of 256 colours, entry `i` being `(i, 0, 0, 255)`. -/
def rampPalette : List FColor := (List.range 256).map (fun i => ⟨i, 0, 0, 255⟩)

/-- The volume with the given cells added in order to an empty map. -/
def volumeOf (Size : FIntVector) (cells : List (FIntVector × Nat)) (opt : UVoxImportOption) :
    FVoxel :=
  ⟨Size, cells.foldl (fun m c => m.Add c.1 c.2) TMap.empty, rampPalette, opt⟩

/-- The scene of the literal example: one cell at the origin of a 4 x 3 x 2 volume, no
palette. -/
def exampleScene : DecodedScene := ⟨⟨4, 3, 2⟩, [⟨0, 0, 0, 1⟩], []⟩

/-- The native box of a decoded scene. -/
def inNativeBox (size : FIntVector) (cell : VoxCell) : Prop :=
  (0 ≤ cell.x ∧ cell.x < size.X) ∧ (0 ≤ cell.y ∧ cell.y < size.Y) ∧
    (0 ≤ cell.z ∧ cell.z < size.Z)

/-- The box of a stored size. -/
def inBox (Size : FIntVector) (q : FIntVector) : Prop :=
  (0 ≤ q.X ∧ q.X < Size.X) ∧ (0 ≤ q.Y ∧ q.Y < Size.Y) ∧ (0 ≤ q.Z ∧ q.Z < Size.Z)

/-- Two adjacent cells `(0,0,0)` and `(1,0,0)` of material 3, centering off. -/
def twoCells : FVoxel :=
  volumeOf ⟨2, 1, 1⟩ [(⟨0, 0, 0⟩, 3), (⟨1, 0, 0⟩, 3)] ⟨false, false⟩

/-- One cell `(0,0,0)` of material 3, centering off. -/
def oneCell : FVoxel := volumeOf ⟨1, 1, 1⟩ [(⟨0, 0, 0⟩, 3)] ⟨false, false⟩



/-- The volume with the XY-centering option set to `b` and nothing else changed. -/
def FVoxel.withCenter (V : FVoxel) (b : Bool) : FVoxel :=
  { V with ImportOption := { V.ImportOption with bImportXYCenter := b } }

/-- The translation `(-Size.X / 2, -Size.Y / 2, 0)`, in exact arithmetic. -/
def centerShift (V : FVoxel) : FVector := ⟨-((V.Size.X : ℚ) / 2), -((V.Size.Y : ℚ) / 2), 0⟩

/-- Two buffers agree in everything but the vertex positions. -/
def SameButPositions (A B : FRawMesh) : Prop :=
  A.WedgeIndices = B.WedgeIndices ∧ A.WedgeColors = B.WedgeColors ∧
  A.WedgeTexCoords = B.WedgeTexCoords ∧ A.FaceMaterialIndices = B.FaceMaterialIndices ∧
  A.FaceSmoothingMasks = B.FaceSmoothingMasks

/-- The vector product of two `FVector`s (right-handed formula). -/
def FVector.cross (a b : FVector) : FVector :=
  ⟨a.Y * b.Z - a.Z * b.Y, a.Z * b.X - a.X * b.Z, a.X * b.Y - a.Y * b.X⟩

/-- The number of coordinates in which two positions differ. -/
def coordDiffCount (a b : FVector) : Nat :=
  (if a.X = b.X then 0 else 1) + (if a.Y = b.Y then 0 else 1) + (if a.Z = b.Z then 0 else 1)

/-- Position `c` lies on the side `d` of the unit cube: along the axis of `d` its
coordinate is 1 when `d` is positive and 0 when `d` is negative. -/
def onCubeSide (d : FIntVector) (c : FVector) : Prop :=
  (d.X = 1 → c.X = 1) ∧ (d.X = -1 → c.X = 0) ∧ (d.Y = 1 → c.Y = 1) ∧ (d.Y = -1 → c.Y = 0) ∧
  (d.Z = 1 → c.Z = 1) ∧ (d.Z = -1 → c.Z = 0)

instance (d : FIntVector) (c : FVector) : Decidable (onCubeSide d c) := by
  unfold onCubeSide; infer_instance

/-- Corner `k` of triangle `p` of face `f` of the unit cube. -/
def triangleCorner (f : Fin 6) (p : Fin 2) (k : Fin 3) : FVector :=
  Vertexes (Faces f (Polygons p k))

/-- The normal of triangle `p` of face `f` in the engine's winding convention,
`(P1 - P2) x (P0 - P2)`. -/
def engineNormal (f : Fin 6) (p : Fin 2) : FVector :=
  FVector.cross (triangleCorner f p 1 - triangleCorner f p 2)
    (triangleCorner f p 0 - triangleCorner f p 2)

/-- The right-handed product `(P1 - P0) x (P2 - P0)` of triangle `p` of face `f`. -/
def rightHandedNormal (f : Fin 6) (p : Fin 2) : FVector :=
  FVector.cross (triangleCorner f p 1 - triangleCorner f p 0)
    (triangleCorner f p 2 - triangleCorner f p 0)

/-- The buffer the static `FVoxel::CreateMesh` leaves when it starts from an empty one. -/
def templateMesh : FRawMesh := (FVoxel.CreateMesh FRawMesh.empty).1

/-- A scene with 256 palette records, record `i` being `(i, 1, 2, 3)`, and no cell. -/
def paletteScene : DecodedScene :=
  ⟨⟨1, 1, 1⟩, [], (List.range 256).map (fun i => ⟨i, 1, 2, 3⟩)⟩

/-- A malformed scene: native size `(1, 1, 1)`, one cell at `(5, 0, 0)` with material
index 0, no palette. -/
def badScene : DecodedScene := ⟨⟨1, 1, 1⟩, [⟨5, 0, 0, 0⟩], []⟩

/-- A volume of size `(3, 3, 3)` with a palette and no cell. -/
def emptyVolume : FVoxel := volumeOf ⟨3, 3, 3⟩ [] ⟨true, true⟩

/-- The coordinate of a decoded cell. -/
def VoxCell.coord (c : VoxCell) : FIntVector := ⟨c.x, c.y, c.z⟩

/-- Two cells are 6-neighbours: the second is the first plus one of the six directions. -/
def adjacent (a b : FIntVector) : Prop := ∃ f : Fin 6, b = a + Vectors f

/-- A scene of native size `(4, 3, 2)` with the two neighbouring cells `(0, 0, 0)` and
`(1, 0, 0)`. -/
def pairScene : DecodedScene := ⟨⟨4, 3, 2⟩, [⟨0, 0, 0, 1⟩, ⟨1, 0, 0, 2⟩], []⟩

/-- The components of an `FIntVector` as a column vector. -/
def FIntVector.toVec (v : FIntVector) : Fin 3 → Int := ![v.X, v.Y, v.Z]

/-- The linear part of the remap of lines 39-41: `(x, y, z) -> (-x, y, z)` with `xForward`
off and `(x, y, z) -> (-y, -x, z)` with it on. -/
def remapLinear (xf : Bool) : Matrix (Fin 3) (Fin 3) Int :=
  if xf then !![0, -1, 0; -1, 0, 0; 0, 0, 1] else !![-1, 0, 0; 0, 1, 0; 0, 0, 1]

/-- The constant part of the remap of lines 39-41, from the stored size. -/
def remapOffset (xf : Bool) (Size : FIntVector) : Fin 3 → Int :=
  if xf then ![Size.X - 1, Size.Y - 1, 0] else ![Size.X - 1, 0, 0]

/-- The quarter turn about Z, `(a, b, c) -> (-b, a, c)`. -/
def quarterTurn : Matrix (Fin 3) (Fin 3) Int := !![0, -1, 0; 1, 0, 0; 0, 0, 1]

/-! ## The greedy mesher, modelled from the spec -/

/-- Modelled from the spec: the implementation of `MonotoneMesh` is not part of the
sources.  A rectangle of one layer (section 4.5, step 3): its first cell `(u, v)` in scan
order, its width `w` along the first in-layer axis, its height `h` along the second, and
its uniform material `m`. -/
structure Rect where
  u : Nat
  v : Nat
  w : Nat
  h : Nat
  m : Nat
deriving DecidableEq, Repr

/-- Modelled from the spec: the rectangle covers the in-layer cell `p`. -/
def Rect.covers (r : Rect) (p : Nat × Nat) : Prop :=
  r.u ≤ p.1 ∧ p.1 < r.u + r.w ∧ r.v ≤ p.2 ∧ p.2 < r.v + r.h

instance (r : Rect) (p : Nat × Nat) : Decidable (r.covers p) := by
  unfold Rect.covers; infer_instance

/-- Modelled from the spec: the unit cells a rectangle decomposes into, row by row. -/
def Rect.cells (r : Rect) : List (Nat × Nat) :=
  (List.range r.h).flatMap (fun j => (List.range r.w).map (fun i => (r.u + i, r.v + j)))

/-- Modelled from the spec: a cell is visited when a rectangle emitted so far covers it
(step 3, "mark all covered cells visited"). -/
def isVisited (rs : List Rect) (p : Nat × Nat) : Bool :=
  rs.any (fun r => decide (r.covers p))

/-- Modelled from the spec: the cell can join a rectangle of material `m`: "the mask value
matches and is unvisited". -/
def isFree (mask : Nat × Nat → Option Nat) (rs : List Rect) (m : Nat) (p : Nat × Nat) : Bool :=
  decide (mask p = some m) && !isVisited rs p

/-- Modelled from the spec: "extend while": the number of consecutive positions from `s`
on, at most `n`, that satisfy `ok`. -/
def runLength (ok : Nat → Bool) : Nat → Nat → Nat
  | _, 0 => 0
  | s, n + 1 => if ok s then runLength ok (s + 1) n + 1 else 0

/-- Modelled from the spec: step 3 at one cell of the scan.  An empty or visited cell is
skipped; otherwise the rectangle starting there grows in width along the first axis while
the cells are free, then in height while every cell of the full-width row is free, and is
appended to the output. -/
def scanCell (W H : Nat) (mask : Nat × Nat → Option Nat) (rs : List Rect) (p : Nat × Nat) :
    List Rect :=
  match mask p with
  | none => rs
  | some m =>
    if isVisited rs p then rs
    else
      let w := runLength (fun i => isFree mask rs m (i, p.2)) p.1 (W - p.1)
      let h := runLength
        (fun j => (List.range w).all (fun i => isFree mask rs m (p.1 + i, j))) p.2 (H - p.2)
      rs ++ [⟨p.1, p.2, w, h, m⟩]

/-- Modelled from the spec: the cells of a `W` by `H` layer in row-major order. -/
def gridCells (W H : Nat) : List (Nat × Nat) :=
  (List.range H).flatMap (fun v => (List.range W).map (fun u => (u, v)))

/-- Modelled from the spec: `mergeLayer(mask) -> [Rect]` of section 9, the greedy scan of
one layer in row-major order. -/
def mergeLayer (W H : Nat) (mask : Nat × Nat → Option Nat) : List Rect :=
  (gridCells W H).foldl (scanCell W H mask) []

/-- Every cell a rectangle of the list covers lies in the `W` by `H` layer and carries
the material of the rectangle in the mask. -/
def LayerSound (W H : Nat) (mask : Nat × Nat → Option Nat) (rs : List Rect) : Prop :=
  ∀ r ∈ rs, ∀ p, r.covers p → mask p = some r.m ∧ p.1 < W ∧ p.2 < H

/-- No cell is covered by two rectangles of the list. -/
def LayerDisjoint (rs : List Rect) : Prop :=
  rs.Pairwise (fun r r' => ∀ p, r.covers p → ¬ r'.covers p)

/-- Modelled from the spec: section 4.5, step 1.  The cell at in-layer coordinate `p` of
layer `l` for direction index `f`: the layer index runs along the axis of the direction
(Z for up and down, X for forward and backward, Y for right and left) and the two other
axes, in the order X, Y, Z, are the in-layer axes. -/
def layerCell (f : Fin 6) (l : Nat) (p : Nat × Nat) : FIntVector :=
  if f.val < 2 then ⟨(p.1 : Int), (p.2 : Int), (l : Int)⟩
  else if f.val < 4 then ⟨(l : Int), (p.1 : Int), (p.2 : Int)⟩
  else ⟨(p.1 : Int), (l : Int), (p.2 : Int)⟩

/-- Modelled from the spec: the number of layers of the volume for direction index `f`. -/
def layerCount (S : FIntVector) (f : Fin 6) : Nat :=
  if f.val < 2 then S.Z.toNat else if f.val < 4 then S.X.toNat else S.Y.toNat

/-- Modelled from the spec: the extent of a layer along its first in-layer axis. -/
def layerWidth (S : FIntVector) (f : Fin 6) : Nat :=
  if f.val < 2 then S.X.toNat else if f.val < 4 then S.Y.toNat else S.X.toNat

/-- Modelled from the spec: the extent of a layer along its second in-layer axis. -/
def layerHeight (S : FIntVector) (f : Fin 6) : Nat :=
  if f.val < 2 then S.Y.toNat else S.Z.toNat

/-- Modelled from the spec: section 4.5, step 2.  The emit mask of a layer: the material
of the cell when the cell is occupied and its neighbour in the direction is not, else
empty. -/
def layerMask (V : FVoxel) (f : Fin 6) (l : Nat) (p : Nat × Nat) : Option Nat :=
  match V.Voxel.Find (layerCell f l p) with
  | none => none
  | some m => if (V.Voxel.Find (layerCell f l p + Vectors f)).isSome then none else some m

/-- Modelled from the spec: the quads of `MonotoneMesh::CreateRawMesh`, to which
`FVoxel::CreateOptimizedRawMesh` (lines 202-206) delegates: for each of the 6 directions
and each layer, one quad per rectangle of the merged mask, given by its direction index,
its layer (plane offset) and its rectangle (footprint). -/
def greedyQuads (V : FVoxel) : List (Fin 6 × Nat × Rect) :=
  faceIndices.flatMap (fun f => (List.range (layerCount V.Size f)).flatMap (fun l =>
    (mergeLayer (layerWidth V.Size f) (layerHeight V.Size f) (layerMask V f l)).map
      (fun r => (f, l, r))))

/-- Modelled from the spec: a quad decomposed back into unit faces, each a cell with the
direction index of the quad. -/
def quadUnitFaces (q : Fin 6 × Nat × Rect) : List (FIntVector × Fin 6) :=
  q.2.2.cells.map (fun p => (layerCell q.1 q.2.1 p, q.1))

/-- Modelled from the spec: all quads of the greedy mesher decomposed into unit faces. -/
def greedyUnitFaces (V : FVoxel) : List (FIntVector × Fin 6) :=
  (greedyQuads V).flatMap quadUnitFaces

/-! ## Positions in exact arithmetic -/

/-- The exact sum of two positions, without rounding. -/
def FVector.exactAdd (a b : FVector) : FVector := ⟨a.X + b.X, a.Y + b.Y, a.Z + b.Z⟩

/-- The exact difference of two positions, without rounding. -/
def FVector.exactSub (a b : FVector) : FVector := ⟨a.X - b.X, a.Y - b.Y, a.Z - b.Z⟩

/-- The exact position `Key + c` of the point `c` of the unit cube of cell `Key`. -/
def exactCorner (Key : FIntVector) (c : FVector) : FVector :=
  FVector.exactAdd ⟨(Key.X : ℚ), (Key.Y : ℚ), (Key.Z : ℚ)⟩ c

/-- The exact centering offset `(Size.X / 2, Size.Y / 2, 0)`, zero when the option is
off. -/
def exactOffset (V : FVoxel) : FVector :=
  if V.ImportOption.bImportXYCenter then ⟨(V.Size.X : ℚ) / 2, (V.Size.Y : ℚ) / 2, 0⟩
  else FVector.ZeroVector

/-- The exact position `Key + c - Offset` of the point `c` of the unit cube of cell `Key`
after centering. -/
def exactPosition (V : FVoxel) (Key : FIntVector) (c : FVector) : FVector :=
  FVector.exactSub (exactCorner Key c) (exactOffset V)

/-- The four corners, in exact arithmetic and after centering, of the unit face of cell
`v` on its side `f`. -/
def exactFaceCornerSet (V : FVoxel) (v : FIntVector) (f : Fin 6) : Finset (Option FVector) :=
  (vertexIndices.map (fun k => some (exactPosition V v (Vertexes (Faces f k))))).toFinset

/-- The two horizontal sizes and every coordinate of every cell are below `2 ^ 22` in
absolute value. -/
def FVoxel.SmallCoords (V : FVoxel) : Prop :=
  (V.Size.X.natAbs < 2 ^ 22 ∧ V.Size.Y.natAbs < 2 ^ 22) ∧
  ∀ k ∈ V.Voxel.keys, k.X.natAbs < 2 ^ 22 ∧ k.Y.natAbs < 2 ^ 22 ∧ k.Z.natAbs < 2 ^ 22

instance (V : FVoxel) : Decidable V.SmallCoords := by
  unfold FVoxel.SmallCoords; infer_instance

/-- One cell `(16777217, 0, 0)` of material 3 in a volume of size `(16777218, 1, 1)`,
centering off. -/
def farCell : FVoxel := volumeOf ⟨16777218, 1, 1⟩ [(⟨16777217, 0, 0⟩, 3)] ⟨false, false⟩

/-- One cell `(16777214, 0, 0)` of material 3 in a volume of size `(1, 1, 1)`, centering
on. -/
def edgeCell : FVoxel := volumeOf ⟨1, 1, 1⟩ [(⟨16777214, 0, 0⟩, 3)] ⟨false, true⟩

/-- Two adjacent cells `(16777219, 0, 0)` and `(16777220, 0, 0)` of material 3 in a volume
of size `(16777221, 1, 1)`, centering off. -/
def farPair : FVoxel :=
  volumeOf ⟨16777221, 1, 1⟩ [(⟨16777219, 0, 0⟩, 3), (⟨16777220, 0, 0⟩, 3)] ⟨false, false⟩

/-- One cell `(0, 0, 0)` of material 3 in a volume of size `(16777217, 1, 1)`, centering
on. -/
def wideCell : FVoxel := volumeOf ⟨16777217, 1, 1⟩ [(⟨0, 0, 0⟩, 3)] ⟨false, true⟩

/-! ## The cell map -/

theorem TMap.keys_Add (m : TMap) (k : FIntVector) (v : Nat) :
    (m.Add k v).keys = if k ∈ m.keys then m.keys else m.keys ++ [k] := by
  unfold TMap.Add TMap.keys
  split
  · next h =>
    simp only [List.map_map]
    refine List.map_congr_left ?_
    intro a _
    show (replaceValue k v a).1 = a.1
    unfold replaceValue
    split
    · next h => exact h.symm
    · rfl
  · simp

theorem TMap.mem_keys_Add (m : TMap) (k : FIntVector) (v : Nat) (q : FIntVector) :
    q ∈ (m.Add k v).keys ↔ q ∈ m.keys ∨ q = k := by
  rw [TMap.keys_Add]
  split
  · next h =>
    constructor
    · exact Or.inl
    · rintro (h1 | h1)
      · exact h1
      · exact h1 ▸ h
  · simp

theorem TMap.Find_isSome (m : TMap) (k : FIntVector) :
    (m.Find k).isSome = true ↔ k ∈ m.keys := by
  unfold TMap.Find TMap.keys
  simp only [Option.isSome_map', List.find?_isSome, decide_eq_true_eq, List.mem_map]

theorem mem_keys_ctorVoxel (xf : Bool) (Size : FIntVector) (voxels : List VoxCell) (m : TMap)
    (q : FIntVector) :
    q ∈ (ctorVoxel xf Size voxels m).keys ↔
      q ∈ m.keys ∨ ∃ cell ∈ voxels, q = ctorVector xf Size cell := by
  induction voxels generalizing m with
  | nil => simp [ctorVoxel]
  | cons c cs ih =>
    have step : ctorVoxel xf Size (c :: cs) m
        = ctorVoxel xf Size cs (m.Add (ctorVector xf Size c) c.i) := rfl
    rw [step, ih, TMap.mem_keys_Add]
    simp only [List.mem_cons, exists_eq_or_imp]
    tauto

theorem ctor_eq_some (dp : Fin 256 → Nat) (vox : DecodedScene) (opt : UVoxImportOption)
    (V : FVoxel) (h : FVoxel.ctor dp vox opt = some V) :
    V.Size = ctorSize opt.bImportXForward vox.size ∧
    V.Voxel = ctorVoxel opt.bImportXForward (ctorSize opt.bImportXForward vox.size)
      vox.voxels TMap.empty ∧
    V.ImportOption = opt ∧ ctorPalette dp vox.palettes = some V.Palette := by
  unfold FVoxel.ctor at h
  simp only [Option.map_eq_some'] at h
  obtain ⟨P, hP, rfl⟩ := h
  exact ⟨rfl, rfl, rfl, hP⟩

/-! ## Rounding to `float` -/

theorem halvings_spec : ∀ (fuel n : Nat), n ≤ fuel → 0 < n →
    2 ^ halvings fuel n ≤ n ∧ n < 2 ^ (halvings fuel n + 1) := by
  intro fuel
  induction fuel with
  | zero => intro n h1 h2; omega
  | succ fuel ih =>
    intro n h1 h2
    unfold halvings
    split
    · next h =>
      obtain ⟨a, b⟩ := ih (n / 2) (by omega) (by omega)
      rw [Nat.pow_succ] at b ⊢
      rw [Nat.pow_succ]
      constructor <;> omega
    · next h =>
      have : n = 1 := by omega
      subst this
      exact ⟨by decide, by decide⟩

theorem floorLog2_spec (n : Nat) (h : 0 < n) :
    2 ^ floorLog2 n ≤ n ∧ n < 2 ^ (floorLog2 n + 1) :=
  halvings_spec n n (Nat.le_refl _) h

/-- A rational below `2 ^ N` in absolute value has a binary exponent below `N`. -/
theorem binaryExponent_lt (q : ℚ) (hq : q ≠ 0) (N : Nat)
    (h : q.num.natAbs < 2 ^ N * q.den) : binaryExponent q < (N : Int) := by
  have ha : 0 < q.num.natAbs := Int.natAbs_pos.mpr (Rat.num_ne_zero.mpr hq)
  have hb : 0 < q.den := q.den_pos
  obtain ⟨a1, -⟩ := floorLog2_spec q.num.natAbs ha
  obtain ⟨-, b2⟩ := floorLog2_spec q.den hb
  unfold binaryExponent
  generalize floorLog2 q.num.natAbs = la at a1
  generalize floorLog2 q.den = lb at b2
  generalize q.num.natAbs = a at h ha a1
  generalize q.den = b at h hb b2
  have hpos : 0 < 2 ^ lb := Nat.two_pow_pos _
  split
  · next hc =>
    by_contra hcon
    have hge : lb + N ≤ la := by omega
    have hp : 2 ^ (lb + N) ≤ 2 ^ la := Nat.pow_le_pow_right (by decide) hge
    rw [Nat.pow_add] at hp
    have h1 : 2 ^ lb * 2 ^ N * b ≤ 2 ^ la * b := Nat.mul_le_mul_right b hp
    have h3 : 2 ^ lb * a < 2 ^ lb * (2 ^ N * b) := Nat.mul_lt_mul_of_pos_left h hpos
    rw [← Nat.mul_assoc, Nat.mul_comm (2 ^ lb) a] at h3
    exact absurd (Nat.lt_of_lt_of_le h3 (Nat.le_trans h1 hc)) (Nat.lt_irrefl _)
  · by_contra hcon
    have hge : lb + 1 + N ≤ la := by omega
    have hp : 2 ^ (lb + 1 + N) ≤ 2 ^ la := Nat.pow_le_pow_right (by decide) hge
    rw [Nat.pow_add] at hp
    have h1 : 2 ^ N * b < 2 ^ N * 2 ^ (lb + 1) :=
      Nat.mul_lt_mul_of_pos_left b2 (Nat.two_pow_pos _)
    rw [Nat.mul_comm (2 ^ N) (2 ^ (lb + 1))] at h1
    exact absurd (Nat.lt_of_lt_of_le (Nat.lt_trans h h1) (Nat.le_trans hp a1))
      (Nat.lt_irrefl _)

theorem roundHalfEven_intCast (M : Int) : roundHalfEven (M : ℚ) = M := by
  unfold roundHalfEven
  simp

theorem twoPow_neg (e : Int) (h : e < 0) : twoPow e = 1 / ((2 ^ (-e).toNat : Nat) : ℚ) := by
  unfold twoPow
  rw [if_neg (by omega)]

theorem twoPow_nonneg (e : Int) (h : 0 ≤ e) : twoPow e = ((2 ^ e.toNat : Nat) : ℚ) := by
  unfold twoPow
  rw [if_pos h]

/-- A value whose quotient by the spacing is an integer is not changed by rounding. -/
theorem roundFloat_of_int_quotient (q : ℚ) (hq : q ≠ 0) (M : Int)
    (h : q / twoPow (max (binaryExponent q) (-126) - 23) = (M : ℚ))
    (hpos : twoPow (max (binaryExponent q) (-126) - 23) ≠ 0) : roundFloat q = q := by
  unfold roundFloat
  rw [if_neg hq, h, roundHalfEven_intCast, ← h]
  field_simp

theorem twoPow_ne_zero (e : Int) : twoPow e ≠ 0 := by
  unfold twoPow
  split
  · exact_mod_cast (Nat.two_pow_pos _).ne'
  · have : ((2 ^ (-e).toNat : Nat) : ℚ) ≠ 0 := by
      exact_mod_cast (Nat.two_pow_pos _).ne'
    exact one_div_ne_zero this

theorem natAbs_num_lt (q : ℚ) (N : Nat) (h : |q| < (2 : ℚ) ^ N) :
    q.num.natAbs < 2 ^ N * q.den := by
  have hden : (0 : ℚ) < (q.den : ℚ) := by exact_mod_cast q.den_pos
  have habs : ((q.num.natAbs : Nat) : ℚ) = |q| * (q.den : ℚ) := by
    have h1 : ((q.num.natAbs : Nat) : ℚ) = |(q.num : ℚ)| := by
      rw [Nat.cast_natAbs, Int.cast_abs]
    have h2 : |q| = |(q.num : ℚ)| / (q.den : ℚ) := by
      conv_lhs => rw [← Rat.num_div_den q]
      rw [abs_div, abs_of_pos hden]
    rw [h1, h2]
    field_simp
  have hlt : ((q.num.natAbs : Nat) : ℚ) < ((2 ^ N * q.den : Nat) : ℚ) := by
    rw [habs]
    push_cast
    exact mul_lt_mul_of_pos_right h hden
  exact_mod_cast hlt

/-- Every half-integer below `2 ^ 23` in absolute value is a `float`. -/
theorem roundFloat_half (n : Int) (hn : n.natAbs < 2 ^ 24) :
    roundFloat ((n : ℚ) / 2) = (n : ℚ) / 2 := by
  by_cases hq : (n : ℚ) / 2 = 0
  · rw [hq]; rfl
  · have habs : |(n : ℚ) / 2| < (2 : ℚ) ^ 23 := by
      have h1 : |(n : ℚ)| < (2 : ℚ) ^ 24 := by
        have : ((n.natAbs : Nat) : ℚ) < ((2 ^ 24 : Nat) : ℚ) := by exact_mod_cast hn
        rw [Nat.cast_natAbs, Int.cast_abs] at this
        exact_mod_cast this
      rw [abs_div, abs_of_pos (by norm_num : (0 : ℚ) < 2)]
      norm_num at h1 ⊢
      linarith
    have hlt : binaryExponent ((n : ℚ) / 2) < ((23 : Nat) : Int) :=
      binaryExponent_lt _ hq 23 (natAbs_num_lt _ 23 habs)
    have hneg : max (binaryExponent ((n : ℚ) / 2)) (-126) - 23 < 0 := by omega
    obtain ⟨k, hk⟩ : ∃ k : Nat,
        (-(max (binaryExponent ((n : ℚ) / 2)) (-126) - 23)).toNat = k + 1 :=
      ⟨(-(max (binaryExponent ((n : ℚ) / 2)) (-126) - 23)).toNat - 1, by omega⟩
    have htp := twoPow_neg _ hneg
    rw [hk] at htp
    refine roundFloat_of_int_quotient _ hq (n * 2 ^ k) ?_ (twoPow_ne_zero _)
    rw [htp]
    push_cast
    rw [pow_succ]
    field_simp
    ring

/-- Every integer below `2 ^ 23` in absolute value is a `float`. -/
theorem roundFloat_int (n : Int) (hn : n.natAbs < 2 ^ 23) : roundFloat (n : ℚ) = (n : ℚ) := by
  have h := roundFloat_half (2 * n) (by rw [Int.natAbs_mul]; simp; omega)
  have e : (((2 * n : Int) : ℚ)) / 2 = (n : ℚ) := by push_cast; ring
  rw [e] at h
  exact h

/-- Rounding an integer gives an integer. -/
theorem roundFloat_isInt (n : Int) : ∃ m : Int, roundFloat (n : ℚ) = (m : ℚ) := by
  by_cases hq : (n : ℚ) = 0
  · exact ⟨0, by rw [hq]; rfl⟩
  · by_cases hneg : max (binaryExponent (n : ℚ)) (-126) - 23 < 0
    · obtain ⟨k, hk⟩ : ∃ k : Nat,
          (-(max (binaryExponent (n : ℚ)) (-126) - 23)).toNat = k := ⟨_, rfl⟩
      have htp := twoPow_neg _ hneg
      rw [hk] at htp
      refine ⟨n, roundFloat_of_int_quotient _ hq (n * 2 ^ k) ?_ (twoPow_ne_zero _)⟩
      rw [htp]
      push_cast
      field_simp
    · have htp := twoPow_nonneg _ (by omega : 0 ≤ max (binaryExponent (n : ℚ)) (-126) - 23)
      refine ⟨roundHalfEven ((n : ℚ) / twoPow (max (binaryExponent (n : ℚ)) (-126) - 23))
        * (2 ^ (max (binaryExponent (n : ℚ)) (-126) - 23).toNat : Nat), ?_⟩
      unfold roundFloat
      rw [if_neg hq, htp]
      push_cast
      rfl

/-! ## `AddUnique` and the corner loop -/

theorem AddUnique_extends (xs : List FVector) (v : FVector) : xs <+: (AddUnique xs v).1 := by
  unfold AddUnique
  split
  · exact List.prefix_refl _
  · exact List.prefix_append _ _

theorem AddUnique_nodup (xs : List FVector) (v : FVector) (h : xs.Nodup) :
    (AddUnique xs v).1.Nodup := by
  unfold AddUnique
  split
  · exact h
  · next hv =>
    refine List.Nodup.append h (List.nodup_singleton _) ?_
    intro a ha hk
    rw [List.mem_singleton] at hk
    exact hv (hk ▸ ha)

theorem AddUnique_get (xs : List FVector) (v : FVector) :
    (AddUnique xs v).1[(AddUnique xs v).2]? = some v := by
  unfold AddUnique
  split
  · next hv =>
    have hlt : List.indexOf v xs < xs.length := List.indexOf_lt_length.mpr hv
    simp only
    rw [List.getElem?_eq_getElem hlt, List.getElem_indexOf]
  · simp

theorem AddUnique_mem (xs : List FVector) (v p : FVector) (h : p ∈ (AddUnique xs v).1) :
    p ∈ xs ∨ p = v := by
  unfold AddUnique at h
  split at h
  · exact Or.inl h
  · simpa using h

theorem getElem?_lt_length {α : Type} (xs : List α) (i : Nat) (a : α) (h : xs[i]? = some a) :
    i < xs.length := by
  by_contra hc
  rw [List.getElem?_eq_none (Nat.le_of_not_lt hc)] at h
  exact Option.noConfusion h

theorem extends_getElem? {α : Type} (xs ys : List α) (h : xs <+: ys) (i : Nat)
    (hi : i < xs.length) : ys[i]? = xs[i]? := by
  obtain ⟨t, rfl⟩ := h
  exact List.getElem?_append_left hi

theorem extends_map_getElem? {α : Type} (xs ys : List α) (h : xs <+: ys) (is : List Nat)
    (hi : ∀ i ∈ is, i < xs.length) :
    is.map (fun i => ys[i]?) = is.map (fun i => xs[i]?) := by
  refine List.map_congr_left ?_
  intro i hmem
  exact extends_getElem? xs ys h i (hi i hmem)

/-- The corner loop from any state: the old positions stay where they are, no position
is duplicated, and the recorded indices point at the corners in order. -/
theorem cornerLoop_spec (Origin : FVector) (f : Fin 6) (ks : List (Fin 4)) :
    ∀ (xs : List FVector) (is : List Nat), (∀ i ∈ is, i < xs.length) →
      xs <+: (ks.foldl (addCorner Origin f) (xs, is)).1 ∧
      (xs.Nodup → (ks.foldl (addCorner Origin f) (xs, is)).1.Nodup) ∧
      (∀ i ∈ (ks.foldl (addCorner Origin f) (xs, is)).2,
        i < (ks.foldl (addCorner Origin f) (xs, is)).1.length) ∧
      (ks.foldl (addCorner Origin f) (xs, is)).2.map
          (fun i => (ks.foldl (addCorner Origin f) (xs, is)).1[i]?)
        = is.map (fun i => xs[i]?) ++ ks.map (fun k => some (Origin + Vertexes (Faces f k))) ∧
      (∀ p ∈ (ks.foldl (addCorner Origin f) (xs, is)).1,
        p ∈ xs ∨ ∃ k ∈ ks, p = Origin + Vertexes (Faces f k)) ∧
      (ks.foldl (addCorner Origin f) (xs, is)).2.length = is.length + ks.length := by
  induction ks with
  | nil =>
    intro xs is his
    refine ⟨List.prefix_refl _, id, his, by simp, fun p hp => Or.inl hp, by simp⟩
  | cons k ks ih =>
    intro xs is his
    have hpre := AddUnique_extends xs (Origin + Vertexes (Faces f k))
    have hget := AddUnique_get xs (Origin + Vertexes (Faces f k))
    have his' : ∀ i ∈ is ++ [(AddUnique xs (Origin + Vertexes (Faces f k))).2],
        i < (AddUnique xs (Origin + Vertexes (Faces f k))).1.length := by
      intro i hi
      rcases List.mem_append.mp hi with h1 | h1
      · exact Nat.lt_of_lt_of_le (his i h1) hpre.length_le
      · rw [List.mem_singleton] at h1
        rw [h1]
        exact getElem?_lt_length _ _ _ hget
    obtain ⟨h1, h2, h3, h4, h5, h6⟩ := ih _ _ his'
    have hstep : (k :: ks).foldl (addCorner Origin f) (xs, is)
        = ks.foldl (addCorner Origin f)
            ((AddUnique xs (Origin + Vertexes (Faces f k))).1,
              is ++ [(AddUnique xs (Origin + Vertexes (Faces f k))).2]) := rfl
    rw [hstep]
    refine ⟨hpre.trans h1, fun hn => h2 (AddUnique_nodup _ _ hn), h3, ?_, ?_, ?_⟩
    · rw [h4, List.map_append, List.map_singleton, hget,
        extends_map_getElem? _ _ hpre is his]
      simp
    · intro p hp
      rcases h5 p hp with h | ⟨k', hk', rfl⟩
      · rcases AddUnique_mem _ _ _ h with h | rfl
        · exact Or.inl h
        · exact Or.inr ⟨k, List.mem_cons_self _ _, rfl⟩
      · exact Or.inr ⟨k', List.mem_cons_of_mem _ hk', rfl⟩
    · rw [h6]; simp; omega

theorem list_length_four {α : Type} (l : List α) (h : l.length = 4) :
    ∃ a b c d, l = [a, b, c, d] := by
  match l, h with
  | [a, b, c, d], _ => exact ⟨a, b, c, d, rfl⟩

/-- The four indices recorded for a face point at its four corners. -/
theorem faceLoop_indices (Key : FIntVector) (f : Fin 6) (xs : List FVector) :
    ∃ a b c d,
      (vertexIndices.foldl (addCorner (FVector.ofInts Key.X Key.Y Key.Z) f) (xs, [])).2
        = [a, b, c, d] ∧
      (vertexIndices.foldl (addCorner (FVector.ofInts Key.X Key.Y Key.Z) f) (xs, [])).1[a]?
        = some (faceCorner Key f 0) ∧
      (vertexIndices.foldl (addCorner (FVector.ofInts Key.X Key.Y Key.Z) f) (xs, [])).1[b]?
        = some (faceCorner Key f 1) ∧
      (vertexIndices.foldl (addCorner (FVector.ofInts Key.X Key.Y Key.Z) f) (xs, [])).1[c]?
        = some (faceCorner Key f 2) ∧
      (vertexIndices.foldl (addCorner (FVector.ofInts Key.X Key.Y Key.Z) f) (xs, [])).1[d]?
        = some (faceCorner Key f 3) := by
  obtain ⟨-, -, -, h4, -, h6⟩ :=
    cornerLoop_spec (FVector.ofInts Key.X Key.Y Key.Z) f vertexIndices xs []
      (by intro i hi; simp at hi)
  obtain ⟨a, b, c, d, habcd⟩ := list_length_four _ (by rw [h6]; rfl)
  rw [habcd] at h4
  simp only [vertexIndices, List.map_cons, List.map_nil, List.nil_append, List.cons.injEq,
    and_true] at h4
  exact ⟨a, b, c, d, habcd, h4.1, h4.2.1, h4.2.2.1, h4.2.2.2⟩

theorem Polygons_val :
    (Polygons 0 0).val = 0 ∧ (Polygons 0 1).val = 1 ∧ (Polygons 0 2).val = 2 ∧
    (Polygons 1 0).val = 2 ∧ (Polygons 1 1).val = 3 ∧ (Polygons 1 2).val = 0 := by
  decide

theorem ColorIndex_lt (v : Nat) : ColorIndex v < 256 := by
  unfold ColorIndex
  omega

/-- An exposed face whose colour index is inside the palette is emitted without failure,
and the buffer becomes `emitFace`. -/
theorem addFace_exposed (V : FVoxel) (Cell : FIntVector × Nat) (Out : FRawMesh) (f : Fin 6)
    (hf : (V.Voxel.Find (Cell.1 + Vectors f)).isNone = true)
    (hc : ColorIndex Cell.2 < V.Palette.length) :
    addFace V Cell Out f = some (emitFace V.Palette Out (Cell, f)) := by
  obtain ⟨a, b, c, d, habcd, -⟩ := faceLoop_indices Cell.1 f Out.VertexPositions
  have hnone : (V.Voxel.Find (Cell.1 + Vectors f)).isSome = false := by
    cases hh : V.Voxel.Find (Cell.1 + Vectors f) with
    | none => rfl
    | some w => rw [hh] at hf; exact absurd hf (by simp)
  obtain ⟨p00, p01, p02, p10, p11, p12⟩ := Polygons_val
  unfold addFace emitFace
  simp only [hnone, Bool.false_eq_true, if_false]
  rw [habcd]
  simp only [polygonIndices, List.foldlM_cons, List.foldlM_nil, addPolygon, p00, p01, p02, p10,
    p11, p12, List.getElem?_eq_getElem hc]
  simp [List.getD_eq_getElem?_getD, List.getElem?_eq_getElem hc]

theorem addFace_hidden (V : FVoxel) (Cell : FIntVector × Nat) (Out : FRawMesh) (f : Fin 6)
    (hf : (V.Voxel.Find (Cell.1 + Vectors f)).isNone = false) :
    addFace V Cell Out f = some Out := by
  have hsome : (V.Voxel.Find (Cell.1 + Vectors f)).isSome = true := by
    cases hh : V.Voxel.Find (Cell.1 + Vectors f) with
    | none => rw [hh] at hf; exact absurd hf (by simp)
    | some w => rfl
  unfold addFace
  simp [hsome]

/-- The faces of one cell: the exposed ones are emitted in order. -/
theorem faceLoop_eq (V : FVoxel) (Cell : FIntVector × Nat)
    (hc : ColorIndex Cell.2 < V.Palette.length) (fs : List (Fin 6)) :
    ∀ Out : FRawMesh, fs.foldlM (addFace V Cell) Out =
      some (((fs.filter (fun f => (V.Voxel.Find (Cell.1 + Vectors f)).isNone)).map
        (fun f => (Cell, f))).foldl (emitFace V.Palette) Out) := by
  induction fs with
  | nil => intro Out; rfl
  | cons f fs ih =>
    intro Out
    rw [List.foldlM_cons]
    cases hf : (V.Voxel.Find (Cell.1 + Vectors f)).isNone with
    | true =>
      rw [addFace_exposed V Cell Out f hf hc, List.filter_cons_of_pos (by simpa using hf)]
      simp only [Option.some_bind, Option.bind_eq_bind, List.map_cons, List.foldl_cons]
      exact ih _
    | false =>
      rw [addFace_hidden V Cell Out f hf, List.filter_cons_of_neg (by simp [hf])]
      simp only [Option.some_bind, Option.bind_eq_bind]
      exact ih _

/-- The cell loop over any list of cells whose colour indices are inside the palette. -/
theorem cellLoop_eq (V : FVoxel) (es : List (FIntVector × Nat))
    (hc : ∀ e ∈ es, ColorIndex e.2 < V.Palette.length) :
    ∀ Out : FRawMesh, es.foldlM (addCell V) Out =
      some ((es.flatMap (fun Cell =>
        (faceIndices.filter (fun f => (V.Voxel.Find (Cell.1 + Vectors f)).isNone)).map
          (fun f => (Cell, f)))).foldl (emitFace V.Palette) Out) := by
  induction es with
  | nil => intro Out; rfl
  | cons e es ih =>
    intro Out
    rw [List.foldlM_cons]
    unfold addCell
    rw [faceLoop_eq V e (hc e (List.mem_cons_self _ _)) faceIndices Out]
    simp only [Option.some_bind, Option.bind_eq_bind, List.flatMap_cons, List.foldl_append]
    exact ih (fun e' he' => hc e' (List.mem_cons_of_mem _ he')) _

theorem Built_colorIndex (V : FVoxel) (hV : V.Built) :
    ∀ e ∈ V.Voxel.entries, ColorIndex e.2 < V.Palette.length := by
  intro e he
  rcases hV with h | h
  · rw [h] at he; simp at he
  · rw [h]; exact ColorIndex_lt _

/-- The cell loop of `CreateRawMesh` on a built volume. -/
theorem cellLoop_built (V : FVoxel) (hV : V.Built) (Out : FRawMesh) :
    V.Voxel.entries.foldlM (addCell V) Out
      = some ((exposedFaces V).foldl (emitFace V.Palette) Out) :=
  cellLoop_eq V V.Voxel.entries (Built_colorIndex V hV) Out

/-! ## The pure face emission -/

theorem quadWedges_eq (Key : FIntVector) (f : Fin 6) :
    quadWedges Key f =
      [faceCorner Key f 0, faceCorner Key f 1, faceCorner Key f 2,
       faceCorner Key f 2, faceCorner Key f 3, faceCorner Key f 0] := by
  have h00 : Polygons 0 0 = 0 := by decide
  have h01 : Polygons 0 1 = 1 := by decide
  have h02 : Polygons 0 2 = 2 := by decide
  have h10 : Polygons 1 0 = 2 := by decide
  have h11 : Polygons 1 1 = 3 := by decide
  have h12 : Polygons 1 2 = 0 := by decide
  simp [quadWedges, polygonIndices, h00, h01, h02, h10, h11, h12]

/-- One emitted face: geometry. -/
theorem emitFace_geometry (P : List FColor) (Out : FRawMesh) (x : (FIntVector × Nat) × Fin 6)
    (hb : ∀ i ∈ Out.WedgeIndices, i < Out.VertexPositions.length) :
    Out.VertexPositions <+: (emitFace P Out x).VertexPositions ∧
    (Out.VertexPositions.Nodup → (emitFace P Out x).VertexPositions.Nodup) ∧
    (∀ i ∈ (emitFace P Out x).WedgeIndices, i < (emitFace P Out x).VertexPositions.length) ∧
    wedgePositions (emitFace P Out x)
      = wedgePositions Out ++ (quadWedges x.1.1 x.2).map some ∧
    (∀ p ∈ (emitFace P Out x).VertexPositions,
      p ∈ Out.VertexPositions ∨ ∃ k, p = faceCorner x.1.1 x.2 k) := by
  obtain ⟨h1, h2, -, -, h5, -⟩ :=
    cornerLoop_spec (FVector.ofInts x.1.1.X x.1.1.Y x.1.1.Z) x.2 vertexIndices
      Out.VertexPositions [] (by intro i hi; simp at hi)
  obtain ⟨a, b, c, d, habcd, ha, hb', hc, hd⟩ := faceLoop_indices x.1.1 x.2 Out.VertexPositions
  have hVP : (emitFace P Out x).VertexPositions
      = (vertexIndices.foldl (addCorner (FVector.ofInts x.1.1.X x.1.1.Y x.1.1.Z) x.2)
          (Out.VertexPositions, [])).1 := rfl
  have hWI : (emitFace P Out x).WedgeIndices = Out.WedgeIndices ++ [a, b, c, c, d, a] := by
    show Out.WedgeIndices ++ _ = _
    rw [habcd]
    rfl
  refine ⟨hVP ▸ h1, fun hn => hVP ▸ h2 hn, ?_, ?_, ?_⟩
  · intro i hi
    rw [hWI] at hi
    rw [hVP]
    rcases List.mem_append.mp hi with h | h
    · exact Nat.lt_of_lt_of_le (hb i h) h1.length_le
    · simp only [List.mem_cons, List.mem_singleton, List.not_mem_nil, or_false] at h
      rcases h with rfl | rfl | rfl | rfl | rfl | rfl
      · exact getElem?_lt_length _ _ _ ha
      · exact getElem?_lt_length _ _ _ hb'
      · exact getElem?_lt_length _ _ _ hc
      · exact getElem?_lt_length _ _ _ hc
      · exact getElem?_lt_length _ _ _ hd
      · exact getElem?_lt_length _ _ _ ha
  · unfold wedgePositions
    rw [hWI, hVP, List.map_append, extends_map_getElem? _ _ h1 _ hb, quadWedges_eq]
    simp only [List.map_cons, List.map_nil, ha, hb', hc, hd]
  · intro p hp
    rw [hVP] at hp
    rcases h5 p hp with h | ⟨k, -, rfl⟩
    · exact Or.inl h
    · exact Or.inr ⟨k, rfl⟩

/-- One emitted face: the per-wedge and per-face attributes. -/
theorem emitFace_attributes (P : List FColor) (Out : FRawMesh)
    (x : (FIntVector × Nat) × Fin 6) :
    (emitFace P Out x).FaceMaterialIndices = Out.FaceMaterialIndices ++ [0, 0] ∧
    (emitFace P Out x).FaceSmoothingMasks = Out.FaceSmoothingMasks ++ [0, 0] ∧
    (emitFace P Out x).WedgeIndices.length = Out.WedgeIndices.length + 6 ∧
    (emitFace P Out x).WedgeColors
      = Out.WedgeColors ++ List.replicate 6 (P.getD (ColorIndex x.1.2) ⟨0, 0, 0, 0⟩) ∧
    (emitFace P Out x).WedgeTexCoords
      = Out.WedgeTexCoords ++ List.replicate 6 (wedgeUV (ColorIndex x.1.2)) := by
  refine ⟨rfl, rfl, ?_, rfl, rfl⟩
  show (Out.WedgeIndices ++ _).length = _
  simp

/-- All emitted faces: geometry. -/
theorem emitFold_geometry (P : List FColor) (xs : List ((FIntVector × Nat) × Fin 6)) :
    ∀ Out : FRawMesh, (∀ i ∈ Out.WedgeIndices, i < Out.VertexPositions.length) →
      Out.VertexPositions <+: (xs.foldl (emitFace P) Out).VertexPositions ∧
      (Out.VertexPositions.Nodup → (xs.foldl (emitFace P) Out).VertexPositions.Nodup) ∧
      (∀ i ∈ (xs.foldl (emitFace P) Out).WedgeIndices,
        i < (xs.foldl (emitFace P) Out).VertexPositions.length) ∧
      wedgePositions (xs.foldl (emitFace P) Out)
        = wedgePositions Out ++ xs.flatMap (fun x => (quadWedges x.1.1 x.2).map some) ∧
      (∀ p ∈ (xs.foldl (emitFace P) Out).VertexPositions,
        p ∈ Out.VertexPositions ∨ ∃ x ∈ xs, ∃ k, p = faceCorner x.1.1 x.2 k) := by
  induction xs with
  | nil =>
    intro Out hb
    exact ⟨List.prefix_refl _, id, hb, by simp, fun p hp => Or.inl hp⟩
  | cons x xs ih =>
    intro Out hb
    obtain ⟨g1, g2, g3, g4, g5⟩ := emitFace_geometry P Out x hb
    obtain ⟨h1, h2, h3, h4, h5⟩ := ih (emitFace P Out x) g3
    rw [List.foldl_cons]
    refine ⟨g1.trans h1, fun hn => h2 (g2 hn), h3, ?_, ?_⟩
    · rw [h4, g4, List.flatMap_cons, List.append_assoc]
    · intro p hp
      rcases h5 p hp with h | ⟨y, hy, k, rfl⟩
      · rcases g5 p h with h | ⟨k, rfl⟩
        · exact Or.inl h
        · exact Or.inr ⟨x, List.mem_cons_self _ _, k, rfl⟩
      · exact Or.inr ⟨y, List.mem_cons_of_mem _ hy, k, rfl⟩

/-- All emitted faces: the per-wedge and per-face attributes. -/
theorem emitFold_attributes (P : List FColor) (xs : List ((FIntVector × Nat) × Fin 6)) :
    ∀ Out : FRawMesh,
      (xs.foldl (emitFace P) Out).FaceMaterialIndices
        = Out.FaceMaterialIndices ++ List.replicate (2 * xs.length) 0 ∧
      (xs.foldl (emitFace P) Out).FaceSmoothingMasks
        = Out.FaceSmoothingMasks ++ List.replicate (2 * xs.length) 0 ∧
      (xs.foldl (emitFace P) Out).WedgeIndices.length
        = Out.WedgeIndices.length + 6 * xs.length ∧
      (xs.foldl (emitFace P) Out).WedgeColors
        = Out.WedgeColors ++
          xs.flatMap (fun x => List.replicate 6 (P.getD (ColorIndex x.1.2) ⟨0, 0, 0, 0⟩)) ∧
      (xs.foldl (emitFace P) Out).WedgeTexCoords
        = Out.WedgeTexCoords ++
          xs.flatMap (fun x => List.replicate 6 (wedgeUV (ColorIndex x.1.2))) := by
  induction xs with
  | nil => intro Out; simp
  | cons x xs ih =>
    intro Out
    obtain ⟨g1, g2, g3, g4, g5⟩ := emitFace_attributes P Out x
    obtain ⟨h1, h2, h3, h4, h5⟩ := ih (emitFace P Out x)
    rw [List.foldl_cons]
    have hrep : ∀ {α : Type} (a : α), List.replicate (2 * (x :: xs).length) a
        = [a, a] ++ List.replicate (2 * xs.length) a := by
      intro α a
      rw [List.length_cons, Nat.mul_succ, Nat.add_comm, List.replicate_add]
      rfl
    refine ⟨?_, ?_, ?_, ?_, ?_⟩
    · rw [h1, g1, hrep, List.append_assoc]
    · rw [h2, g2, hrep, List.append_assoc]
    · rw [h3, g3, List.length_cons]; omega
    · rw [h4, g4, List.flatMap_cons, List.append_assoc]
    · rw [h5, g5, List.flatMap_cons, List.append_assoc]

/-! ## The end of `CreateRawMesh` -/

theorem flatMap_length_const {α β : Type} (f : α → List β) (c : Nat)
    (hf : ∀ a, (f a).length = c) (l : List α) : (l.flatMap f).length = c * l.length := by
  induction l with
  | nil => simp
  | cons a l ih => rw [List.flatMap_cons, List.length_append, ih, hf, List.length_cons]; ring

theorem Compact_zero (M : FRawMesh) (h : ∀ m ∈ M.FaceMaterialIndices, m = 0) :
    CompactMaterialIndices M = M := by
  unfold CompactMaterialIndices
  have hmap : M.FaceMaterialIndices.map (materialRank M.FaceMaterialIndices)
      = M.FaceMaterialIndices := by
    conv_rhs => rw [← List.map_id M.FaceMaterialIndices]
    refine List.map_congr_left ?_
    intro m hm
    have hm0 := h m hm
    subst hm0
    unfold materialRank
    have hnil : (M.FaceMaterialIndices.dedup).filter (fun k => decide (k < 0)) = [] := by
      rw [List.filter_eq_nil_iff]
      intro k hk
      have := h k (List.mem_dedup.mp hk)
      subst this
      simp
    rw [hnil]
    rfl
  rw [hmap]

theorem MeshInvariant_centered (V : FVoxel) (Out : FRawMesh) (h : MeshInvariant Out) :
    MeshInvariant (centered V Out) := by
  unfold MeshInvariant centered at *
  simpa using h

theorem finishMesh_eq (V : FVoxel) (Out : FRawMesh)
    (hz : ∀ m ∈ Out.FaceMaterialIndices, m = 0) (hinv : MeshInvariant Out) :
    finishMesh V Out = some (centered V Out) := by
  unfold finishMesh
  have hc : CompactMaterialIndices
      { Out with VertexPositions := Out.VertexPositions.map (fun p => p - centerOffset V) }
      = centered V Out := Compact_zero _ hz
  simp only [hc]
  have hv : IsValidOrFixable (centered V Out) = true := by
    unfold IsValidOrFixable
    exact decide_eq_true (MeshInvariant_centered V Out hinv)
  rw [hv]
  rfl

/-- The buffer the cell loop leaves from an empty buffer satisfies the invariant. -/
theorem emitFold_invariant (P : List FColor) (xs : List ((FIntVector × Nat) × Fin 6)) :
    MeshInvariant (xs.foldl (emitFace P) FRawMesh.empty) ∧
    ∀ m ∈ (xs.foldl (emitFace P) FRawMesh.empty).FaceMaterialIndices, m = 0 := by
  obtain ⟨a1, a2, a3, a4, a5⟩ := emitFold_attributes P xs FRawMesh.empty
  obtain ⟨-, -, g3, -, -⟩ := emitFold_geometry P xs FRawMesh.empty
    (by intro i hi; simp [FRawMesh.empty] at hi)
  have hF : (xs.foldl (emitFace P) FRawMesh.empty).FaceMaterialIndices.length
      = 2 * xs.length := by
    rw [a1]; simp [FRawMesh.empty]
  refine ⟨⟨?_, ?_, ?_, ?_, g3⟩, ?_⟩
  · rw [a3, hF]; simp [FRawMesh.empty]; omega
  · rw [a4, hF, List.length_append, flatMap_length_const _ 6 (by intro a; simp)]
    simp [FRawMesh.empty]; omega
  · rw [a5, hF, List.length_append, flatMap_length_const _ 6 (by intro a; simp)]
    simp [FRawMesh.empty]; omega
  · rw [a2, hF]; simp [FRawMesh.empty]
  · intro m hm
    rw [a1] at hm
    simp only [FRawMesh.empty, List.nil_append] at hm
    exact (List.mem_replicate.mp hm).2

/-- On a built volume and an empty buffer `CreateRawMesh` succeeds, and its buffer is the
centered fold of the exposed faces. -/
theorem CreateRawMesh_built (V : FVoxel) (hV : V.Built) :
    V.CreateRawMesh FRawMesh.empty
      = some (centered V ((exposedFaces V).foldl (emitFace V.Palette) FRawMesh.empty)) := by
  unfold FVoxel.CreateRawMesh
  rw [cellLoop_built V hV]
  obtain ⟨hinv, hz⟩ := emitFold_invariant V.Palette (exposedFaces V)
  simp only [Option.some_bind, Option.bind_eq_bind]
  exact finishMesh_eq V _ hz hinv

/-! ## Counting the exposed faces -/

theorem TMap.Find_isNone (m : TMap) (k : FIntVector) :
    (m.Find k).isNone = true ↔ k ∉ m.keys := by
  rw [← TMap.Find_isSome]
  cases m.Find k <;> simp

theorem faceIndices_nodup : faceIndices.Nodup := by decide

theorem mem_faceIndices (f : Fin 6) : f ∈ faceIndices := by
  revert f; decide

theorem mem_exposedFaces (V : FVoxel) (x : (FIntVector × Nat) × Fin 6) :
    x ∈ exposedFaces V ↔ x.1 ∈ V.Voxel.entries ∧ x.1.1 + Vectors x.2 ∉ V.Voxel.keys := by
  unfold exposedFaces
  simp only [List.mem_flatMap, List.mem_map, List.mem_filter, TMap.Find_isNone]
  constructor
  · rintro ⟨e, he, f, ⟨-, hf⟩, rfl⟩
    exact ⟨he, hf⟩
  · rintro ⟨he, hf⟩
    exact ⟨x.1, he, x.2, ⟨mem_faceIndices _, hf⟩, rfl⟩

theorem exposedFaces_keys_nodup (V : FVoxel) :
    ((exposedFaces V).map (fun x => (x.1.1, x.2))).Nodup := by
  unfold exposedFaces
  rw [List.map_flatMap, List.nodup_flatMap]
  constructor
  · intro e _
    rw [List.map_map]
    refine List.Nodup.map ?_ (faceIndices_nodup.filter _)
    intro a b hab
    exact (Prod.mk.inj hab).2
  · have hp : List.Pairwise (fun a b : FIntVector × Nat => a.1 ≠ b.1) V.Voxel.entries :=
      List.pairwise_map.mp V.Voxel.nodup
    refine hp.imp ?_
    intro a b hab
    show List.Disjoint _ _
    intro y hy1 hy2
    simp only [List.mem_map, List.mem_filter] at hy1 hy2
    obtain ⟨x1, ⟨f1, _, rfl⟩, rfl⟩ := hy1
    obtain ⟨x2, ⟨f2, _, rfl⟩, h2⟩ := hy2
    exact hab (Prod.mk.inj h2).1.symm

theorem exposedFaces_toFinset (V : FVoxel) :
    ((exposedFaces V).map (fun x => (x.1.1, x.2))).toFinset = exposedFaceSet V := by
  ext ⟨k, f⟩
  unfold exposedFaceSet
  simp only [List.mem_toFinset, List.mem_map, Finset.mem_filter, Finset.mem_product,
    Finset.mem_univ, and_true, mem_exposedFaces, TMap.keys]
  constructor
  · rintro ⟨x, ⟨hx, hn⟩, hxe⟩
    obtain ⟨rfl, rfl⟩ := Prod.mk.inj hxe
    exact ⟨⟨x.1, hx, rfl⟩, hn⟩
  · rintro ⟨⟨e, he, rfl⟩, hn⟩
    exact ⟨(e, f), ⟨he, hn⟩, rfl⟩

theorem exposedFaces_length (V : FVoxel) :
    (exposedFaces V).length = (exposedFaceSet V).card := by
  rw [← exposedFaces_toFinset, List.toFinset_card_of_nodup (exposedFaces_keys_nodup V),
    List.length_map]

/-! ## The constructor -/

/-- C3: the constructor stores the size `(sx, sy, sz)` and the coordinate
`(sx - x - 1, y, z)` of every decoded cell when `xForward` is off, and the size
`(sy, sx, sz)` and the coordinate `(sy - y - 1, sx - x - 1, z)` when it is on; the keys of
the cell map are exactly these coordinates, `z` is unchanged, and the cell `(0,0,0)` of a
4 x 3 x 2 volume goes to `(3,0,0)` or `(2,3,0)`. -/
theorem C3_ctor_remap (dp : Fin 256 → Nat) (vox : DecodedScene) (centerXY : Bool) (V W : FVoxel)
    (hV : FVoxel.ctor dp vox ⟨false, centerXY⟩ = some V)
    (hW : FVoxel.ctor dp vox ⟨true, centerXY⟩ = some W) :
    (V.Size = ⟨vox.size.X, vox.size.Y, vox.size.Z⟩ ∧
      ∀ q, q ∈ V.Voxel.keys ↔
        ∃ cell ∈ vox.voxels, q = ⟨vox.size.X - cell.x - 1, cell.y, cell.z⟩) ∧
    (W.Size = ⟨vox.size.Y, vox.size.X, vox.size.Z⟩ ∧
      ∀ q, q ∈ W.Voxel.keys ↔
        ∃ cell ∈ vox.voxels, q = ⟨vox.size.Y - cell.y - 1, vox.size.X - cell.x - 1, cell.z⟩) ∧
    (∀ (xf : Bool) (Size : FIntVector) (cell : VoxCell),
      (ctorVector xf Size cell).Z = cell.z) ∧
    ctorVector false (ctorSize false ⟨4, 3, 2⟩) ⟨0, 0, 0, 1⟩ = ⟨3, 0, 0⟩ ∧
    ctorVector true (ctorSize true ⟨4, 3, 2⟩) ⟨0, 0, 0, 1⟩ = ⟨2, 3, 0⟩ := by
  obtain ⟨hVs, hVv, -, -⟩ := ctor_eq_some dp vox _ V hV
  obtain ⟨hWs, hWv, -, -⟩ := ctor_eq_some dp vox _ W hW
  refine ⟨⟨hVs, ?_⟩, ⟨hWs, ?_⟩, ?_, by decide, by decide⟩
  · intro q
    rw [hVv, mem_keys_ctorVoxel]
    simp [TMap.empty, TMap.keys, ctorVector, ctorSize]
  · intro q
    rw [hWv, mem_keys_ctorVoxel]
    simp [TMap.empty, TMap.keys, ctorVector, ctorSize]
  · intro xf Size cell
    cases xf <;> rfl

/-- C3 at the scene of the literal example. -/
theorem C3_ctor_remap_witness :
    ∃ V W : FVoxel, FVoxel.ctor (fun _ => 0) exampleScene ⟨false, false⟩ = some V ∧
      FVoxel.ctor (fun _ => 0) exampleScene ⟨true, false⟩ = some W ∧
      V.Size = ⟨4, 3, 2⟩ ∧ W.Size = ⟨3, 4, 2⟩ ∧
      (∀ q, q ∈ V.Voxel.keys ↔
        ∃ cell ∈ exampleScene.voxels, q = ⟨exampleScene.size.X - cell.x - 1, cell.y, cell.z⟩) :=
  ⟨_, _, rfl, rfl,
    (C3_ctor_remap (fun _ => 0) exampleScene false _ _ rfl rfl).1.1,
    (C3_ctor_remap (fun _ => 0) exampleScene false _ _ rfl rfl).2.1.1,
    (C3_ctor_remap (fun _ => 0) exampleScene false _ _ rfl rfl).1.2⟩

/-- C4: when every decoded cell lies in the native box, every key of the constructed
cell map lies in the box of the stored size, for both values of `xForward`. -/
theorem C4_ctor_bounds (dp : Fin 256 → Nat) (vox : DecodedScene) (opt : UVoxImportOption)
    (V : FVoxel) (hV : FVoxel.ctor dp vox opt = some V)
    (hin : ∀ cell ∈ vox.voxels, inNativeBox vox.size cell) :
    ∀ q ∈ V.Voxel.keys, inBox V.Size q := by
  obtain ⟨hs, hv, -, -⟩ := ctor_eq_some dp vox opt V hV
  intro q hq
  rw [hv, mem_keys_ctorVoxel] at hq
  rcases hq with hq | ⟨cell, hc, rfl⟩
  · simp [TMap.empty, TMap.keys] at hq
  · have hb := hin cell hc
    rw [hs]
    unfold inNativeBox at hb
    unfold inBox ctorVector ctorSize
    cases opt.bImportXForward <;> simp <;> omega

/-- C4 at the scene of the literal example, with `xForward` on. -/
theorem C4_ctor_bounds_witness :
    ∃ V : FVoxel, FVoxel.ctor (fun _ => 0) exampleScene ⟨true, false⟩ = some V ∧
      (∀ cell ∈ exampleScene.voxels, inNativeBox exampleScene.size cell) ∧
      ∀ q ∈ V.Voxel.keys, inBox V.Size q :=
  ⟨_, rfl, by simp [exampleScene, inNativeBox],
    C4_ctor_bounds (fun _ => 0) exampleScene ⟨true, false⟩ _ rfl
      (by simp [exampleScene, inNativeBox])⟩

/-! ## The face count of `CreateRawMesh` -/

theorem volumeOf_Built (Size : FIntVector) (cells : List (FIntVector × Nat))
    (opt : UVoxImportOption) : (volumeOf Size cells opt).Built :=
  Or.inr (by simp [volumeOf, rampPalette])

theorem faceLoop_hidden (V : FVoxel) (Cell : FIntVector × Nat) (fs : List (Fin 6))
    (h : ∀ f ∈ fs, Cell.1 + Vectors f ∈ V.Voxel.keys) :
    ∀ Out : FRawMesh, fs.foldlM (addFace V Cell) Out = some Out := by
  induction fs with
  | nil => intro Out; rfl
  | cons f fs ih =>
    intro Out
    have hf : (V.Voxel.Find (Cell.1 + Vectors f)).isNone = false := by
      have := (TMap.Find_isSome V.Voxel _).mpr (h f (List.mem_cons_self _ _))
      cases hh : V.Voxel.Find (Cell.1 + Vectors f) with
      | none => rw [hh] at this; exact absurd this (by simp)
      | some w => rfl
    rw [List.foldlM_cons, addFace_hidden V Cell Out f hf]
    simp only [Option.some_bind, Option.bind_eq_bind]
    exact ih (fun g hg => h g (List.mem_cons_of_mem _ hg)) Out

/-- C1: on an empty buffer `CreateRawMesh` returns a buffer with exactly two triangles
(six wedge indices) per exposed face, an exposed face being a pair of an occupied cell and
one of the six pairwise different directions of `Vectors` whose neighbour is not
occupied; a cell whose six neighbours are all occupied leaves the buffer unchanged. -/
theorem C1_naive_face_count (V : FVoxel) (hV : V.Built) :
    (∃ R, V.CreateRawMesh FRawMesh.empty = some R ∧
      R.FaceMaterialIndices.length = 2 * (exposedFaceSet V).card ∧
      R.WedgeIndices.length = 3 * (2 * (exposedFaceSet V).card)) ∧
    Function.Injective Vectors ∧
    ∀ (Cell : FIntVector × Nat) (Out : FRawMesh),
      (∀ f, Cell.1 + Vectors f ∈ V.Voxel.keys) → addCell V Out Cell = some Out := by
  refine ⟨⟨_, CreateRawMesh_built V hV, ?_, ?_⟩, by decide, ?_⟩
  · obtain ⟨a1, -, -, -, -⟩ := emitFold_attributes V.Palette (exposedFaces V) FRawMesh.empty
    show ((exposedFaces V).foldl (emitFace V.Palette) FRawMesh.empty).FaceMaterialIndices.length
      = _
    rw [a1, ← exposedFaces_length]
    simp [FRawMesh.empty]
  · obtain ⟨-, -, a3, -, -⟩ := emitFold_attributes V.Palette (exposedFaces V) FRawMesh.empty
    show ((exposedFaces V).foldl (emitFace V.Palette) FRawMesh.empty).WedgeIndices.length = _
    rw [a3, ← exposedFaces_length]
    simp [FRawMesh.empty]
    omega
  · intro Cell Out h
    exact faceLoop_hidden V Cell faceIndices (fun f _ => h f) Out

/-- C1 at two adjacent cells: ten exposed faces, twenty triangles. -/
theorem C1_naive_face_count_witness :
    twoCells.Built ∧ (exposedFaceSet twoCells).card = 10 ∧
    ∃ R, twoCells.CreateRawMesh FRawMesh.empty = some R ∧
      R.FaceMaterialIndices.length = 2 * (exposedFaceSet twoCells).card ∧
      R.WedgeIndices.length = 3 * (2 * (exposedFaceSet twoCells).card) :=
  ⟨volumeOf_Built _ _ _, by decide!,
    (C1_naive_face_count twoCells (volumeOf_Built _ _ _)).1⟩

theorem FVector.sub_coords (a b : FVector) :
    a - b = ⟨roundFloat (a.X - b.X), roundFloat (a.Y - b.Y), roundFloat (a.Z - b.Z)⟩ := rfl

theorem FVector.add_coords (a b : FVector) :
    a + b = ⟨roundFloat (a.X + b.X), roundFloat (a.Y + b.Y), roundFloat (a.Z + b.Z)⟩ := rfl

theorem wedgePositions_centered (V : FVoxel) (Out : FRawMesh) :
    wedgePositions (centered V Out)
      = (wedgePositions Out).map (Option.map (fun p => p - centerOffset V)) := by
  unfold wedgePositions centered
  simp only [List.map_map]
  refine List.map_congr_left ?_
  intro i _
  simp [List.getElem?_map]

/-- Indexing into a concatenation of blocks of equal length. -/
theorem flatMap_block_getElem? {α β : Type} (f : α → List β) (c : Nat)
    (hf : ∀ a, (f a).length = c) (l : List α) :
    ∀ (j t : Nat), t < c → (l.flatMap f)[c * j + t]? = (l[j]?).bind (fun a => (f a)[t]?) := by
  induction l with
  | nil => intro j t _; simp
  | cons a l ih =>
    intro j t ht
    cases j with
    | zero =>
      rw [List.flatMap_cons, Nat.mul_zero, Nat.zero_add,
        List.getElem?_append_left (by rw [hf]; exact ht)]
      simp
    | succ j =>
      have hge : (f a).length ≤ c * (j + 1) + t := by rw [hf, Nat.mul_succ]; omega
      rw [List.flatMap_cons, List.getElem?_append_right hge, hf]
      have : c * (j + 1) + t - c = c * j + t := by rw [Nat.mul_succ]; omega
      rw [this, ih j t ht]
      simp

theorem quadWedges_getElem? (Key : FIntVector) (f : Fin 6) (p : Fin 2) (k : Fin 3) :
    (quadWedges Key f)[3 * p.val + k.val]? = some (faceCorner Key f (Polygons p k)) := by
  rw [quadWedges_eq]
  fin_cases p <;> fin_cases k <;> rfl

/-! ## `CreateRawMeshes` on a built volume -/

theorem cellMesh_eq (V : FVoxel) (Cell : FIntVector × Nat)
    (hc : ColorIndex Cell.2 < V.Palette.length) :
    cellMesh V Cell = some (cubeMesh V.Palette Cell) := by
  unfold cellMesh cubeMesh cubeWedgeIndices
  simp [faceIndices, polygonIndices, cubeFace, cubePolygon, List.getElem?_eq_getElem hc,
    List.getD_eq_getElem?_getD, FRawMesh.empty, List.replicate]

theorem cellMeshLoop_eq (V : FVoxel) (es : List (FIntVector × Nat))
    (hc : ∀ e ∈ es, ColorIndex e.2 < V.Palette.length) :
    ∀ Outs : List FRawMesh,
      es.foldlM (addCellMesh V) Outs = some (Outs ++ es.map (cubeMesh V.Palette)) := by
  induction es with
  | nil => intro Outs; simp
  | cons e es ih =>
    intro Outs
    have hstep : addCellMesh V Outs e = some (Outs ++ [cubeMesh V.Palette e]) := by
      unfold addCellMesh
      rw [cellMesh_eq V e (hc e (List.mem_cons_self _ _))]
      rfl
    rw [List.foldlM_cons, hstep]
    simp only [Option.some_bind, Option.bind_eq_bind]
    rw [ih (fun e' he' => hc e' (List.mem_cons_of_mem _ he'))]
    simp

theorem cubeMesh_invariant (P : List FColor) (Cell : FIntVector × Nat) :
    MeshInvariant (cubeMesh P Cell) ∧ ∀ m ∈ (cubeMesh P Cell).FaceMaterialIndices, m = 0 := by
  have hlen : cubeWedgeIndices.length = 36 := by decide
  refine ⟨⟨?_, by simp [cubeMesh], by simp [cubeMesh], by simp [cubeMesh], ?_⟩, ?_⟩
  · show cubeWedgeIndices.length = 3 * (List.replicate 12 (0 : Int)).length
    rw [hlen]; simp
  · show ∀ i ∈ cubeWedgeIndices, i < (cornerIndices.map _).length
    rw [List.length_map]
    decide
  · intro m hm
    exact (List.mem_replicate.mp hm).2

theorem finishAll_eq (V : FVoxel) (Ms : List FRawMesh)
    (h : ∀ M ∈ Ms, MeshInvariant M ∧ ∀ m ∈ M.FaceMaterialIndices, m = 0) :
    Ms.mapM (finishMesh V) = some (Ms.map (centered V)) := by
  induction Ms with
  | nil => rfl
  | cons M Ms ih =>
    obtain ⟨hinv, hz⟩ := h M (List.mem_cons_self _ _)
    rw [List.mapM_cons, finishMesh_eq V M hz hinv,
      ih (fun M' hM' => h M' (List.mem_cons_of_mem _ hM'))]
    rfl

/-- On a built volume and an empty list `CreateRawMeshes` succeeds with the centered cube
of each cell, in the order of the map. -/
theorem CreateRawMeshes_built (V : FVoxel) (hV : V.Built) :
    V.CreateRawMeshes []
      = some (V.Voxel.entries.map (fun Cell => centered V (cubeMesh V.Palette Cell))) := by
  unfold FVoxel.CreateRawMeshes
  rw [cellMeshLoop_eq V _ (Built_colorIndex V hV)]
  simp only [Option.some_bind, Option.bind_eq_bind, List.nil_append]
  rw [finishAll_eq, List.map_map]
  · rfl
  · intro M hM
    obtain ⟨Cell, -, rfl⟩ := List.mem_map.mp hM
    exact cubeMesh_invariant _ _

/-- C5: on an empty buffer (an empty list) the two voxel meshers return buffers in which
the wedge index, wedge colour and wedge UV arrays have three entries per triangle, the two
per-face arrays one entry per triangle, and every wedge index is below the number of
vertex positions; all material indices are zero, so compaction changes nothing. -/
theorem C5_mesh_invariant (V : FVoxel) (hV : V.Built) :
    (∃ R, V.CreateRawMesh FRawMesh.empty = some R ∧
      (R.WedgeIndices.length = 3 * R.FaceMaterialIndices.length ∧
        R.WedgeColors.length = 3 * R.FaceMaterialIndices.length ∧
        R.WedgeTexCoords.length = 3 * R.FaceMaterialIndices.length ∧
        R.FaceSmoothingMasks.length = R.FaceMaterialIndices.length ∧
        ∀ i ∈ R.WedgeIndices, i < R.VertexPositions.length) ∧
      (∀ m ∈ R.FaceMaterialIndices, m = 0) ∧ CompactMaterialIndices R = R) ∧
    (∃ Rs, V.CreateRawMeshes [] = some Rs ∧ ∀ R ∈ Rs,
      (R.WedgeIndices.length = 3 * R.FaceMaterialIndices.length ∧
        R.WedgeColors.length = 3 * R.FaceMaterialIndices.length ∧
        R.WedgeTexCoords.length = 3 * R.FaceMaterialIndices.length ∧
        R.FaceSmoothingMasks.length = R.FaceMaterialIndices.length ∧
        ∀ i ∈ R.WedgeIndices, i < R.VertexPositions.length) ∧
      (∀ m ∈ R.FaceMaterialIndices, m = 0) ∧ CompactMaterialIndices R = R) := by
  constructor
  · obtain ⟨hinv, hz⟩ := emitFold_invariant V.Palette (exposedFaces V)
    exact ⟨_, CreateRawMesh_built V hV, MeshInvariant_centered V _ hinv, hz,
      Compact_zero _ hz⟩
  · refine ⟨_, CreateRawMeshes_built V hV, ?_⟩
    intro R hR
    obtain ⟨Cell, -, rfl⟩ := List.mem_map.mp hR
    obtain ⟨hinv, hz⟩ := cubeMesh_invariant V.Palette Cell
    exact ⟨MeshInvariant_centered V _ hinv, hz, Compact_zero _ hz⟩

/-- C5 at two adjacent cells. -/
theorem C5_mesh_invariant_witness :
    twoCells.Built ∧
    (∃ R, twoCells.CreateRawMesh FRawMesh.empty = some R ∧ R.WedgeIndices.length = 60 ∧
      R.WedgeIndices.length = 3 * R.FaceMaterialIndices.length ∧
      ∀ i ∈ R.WedgeIndices, i < R.VertexPositions.length) ∧
    (∃ Rs, twoCells.CreateRawMeshes [] = some Rs ∧ Rs.length = 2 ∧ ∀ R ∈ Rs,
      R.WedgeIndices.length = 3 * R.FaceMaterialIndices.length ∧
      ∀ i ∈ R.WedgeIndices, i < R.VertexPositions.length) := by
  obtain ⟨⟨R, hR, hinv, -, -⟩, ⟨Rs, hRs, hall⟩⟩ :=
    C5_mesh_invariant twoCells (volumeOf_Built _ _ _)
  refine ⟨volumeOf_Built _ _ _, ⟨R, hR, ?_, hinv.1, hinv.2.2.2.2⟩, ⟨Rs, hRs, ?_, ?_⟩⟩
  · have h60 : (twoCells.CreateRawMesh FRawMesh.empty).map (fun M => M.WedgeIndices.length)
        = some 60 := by decide!
    rw [hR] at h60
    exact Option.some.inj h60
  · have h2 : (twoCells.CreateRawMeshes []).map List.length = some 2 := by decide!
    rw [hRs] at h2
    exact Option.some.inj h2
  · intro M hM
    exact ⟨(hall M hM).1.1, (hall M hM).1.2.2.2.2⟩

/-! ## Positions behind the wedge indices -/

theorem quadWedges_length (Key : FIntVector) (f : Fin 6) : (quadWedges Key f).length = 6 := by
  rw [quadWedges_eq]; rfl

/-- The positions behind the wedge indices of the returned buffer, face by face. -/
theorem naive_wedgePositions (V : FVoxel) :
    wedgePositions (centered V ((exposedFaces V).foldl (emitFace V.Palette) FRawMesh.empty))
      = (exposedFaces V).flatMap
          (fun x => (quadWedges x.1.1 x.2).map (fun p => some (p - centerOffset V))) := by
  obtain ⟨-, -, -, g4, -⟩ := emitFold_geometry V.Palette (exposedFaces V) FRawMesh.empty
    (by intro i hi; simp [FRawMesh.empty] at hi)
  rw [wedgePositions_centered, g4]
  simp only [wedgePositions, FRawMesh.empty, List.map_nil, List.nil_append, List.map_flatMap,
    List.map_map]
  rfl

theorem wedge_lookup (M : FRawMesh) (n : Nat) (v : FVector)
    (h : (wedgePositions M)[n]? = some (some v)) :
    (M.WedgeIndices[n]?).bind (fun i => M.VertexPositions[i]?) = some v := by
  unfold wedgePositions at h
  rw [List.getElem?_map] at h
  cases hw : M.WedgeIndices[n]? with
  | none => rw [hw] at h; exact Option.noConfusion h
  | some i =>
    rw [hw] at h
    simpa using h

theorem naive_wedge_corner (V : FVoxel) (j : Nat) (x : (FIntVector × Nat) × Fin 6)
    (hj : (exposedFaces V)[j]? = some x) (p : Fin 2) (k : Fin 3) :
    (wedgePositions
        (centered V ((exposedFaces V).foldl (emitFace V.Palette) FRawMesh.empty)))[
          6 * j + (3 * p.val + k.val)]?
      = some (some (faceCorner x.1.1 x.2 (Polygons p k) - centerOffset V)) := by
  have ht : 3 * p.val + k.val < 6 := by omega
  rw [naive_wedgePositions,
    flatMap_block_getElem? _ 6 (by intro a; rw [List.length_map, quadWedges_length]) _ j _ ht,
    hj]
  simp only [Option.some_bind, List.getElem?_map, quadWedges_getElem?, Option.map_some']

/-! ## Positions without rounding -/

theorem Vertexes_bits (i : Fin 8) :
    ((Vertexes i).X = 0 ∨ (Vertexes i).X = 1) ∧ ((Vertexes i).Y = 0 ∨ (Vertexes i).Y = 1) ∧
    ((Vertexes i).Z = 0 ∨ (Vertexes i).Z = 1) := by
  revert i
  decide!

/-- The sum of a small cell coordinate and a unit-cube coordinate is computed exactly. -/
theorem roundFloat_corner (k : Int) (hk : k.natAbs < 2 ^ 22) (b : ℚ) (hb : b = 0 ∨ b = 1) :
    roundFloat (roundFloat (k : ℚ) + b) = (k : ℚ) + b := by
  rw [roundFloat_int k (by omega)]
  rcases hb with rfl | rfl
  · rw [add_zero]; exact roundFloat_int k (by omega)
  · have h := roundFloat_int (k + 1) (by omega)
    push_cast at h
    exact h

/-- The centered position of a small coordinate in a small volume is computed exactly. -/
theorem roundFloat_centered (k t : Int) (hk : k.natAbs < 2 ^ 22) (ht : t.natAbs < 2 ^ 22)
    (b : ℚ) (hb : b = 0 ∨ b = 1) :
    roundFloat ((k : ℚ) + b - (t : ℚ) / 2) = (k : ℚ) + b - (t : ℚ) / 2 := by
  rcases hb with rfl | rfl
  · have h := roundFloat_half (2 * k - t) (by omega)
    have e : ((2 * k - t : Int) : ℚ) / 2 = (k : ℚ) + 0 - (t : ℚ) / 2 := by push_cast; ring
    rw [e] at h
    exact h
  · have h := roundFloat_half (2 * (k + 1) - t) (by omega)
    have e : ((2 * (k + 1) - t : Int) : ℚ) / 2 = (k : ℚ) + 1 - (t : ℚ) / 2 := by
      push_cast; ring
    rw [e] at h
    exact h

theorem roundFloat_halfSize (s : Int) (hs : s.natAbs < 2 ^ 22) :
    roundFloat (roundFloat (s : ℚ) * (1 / 2)) = (s : ℚ) / 2 := by
  rw [roundFloat_int s (by omega)]
  have h := roundFloat_half s (by omega)
  have e : (s : ℚ) * (1 / 2) = (s : ℚ) / 2 := by ring
  rw [e]
  exact h

/-- In a small volume the centering offset is computed exactly. -/
theorem centerOffset_exact (V : FVoxel) (hs : V.SmallCoords) : centerOffset V = exactOffset V := by
  unfold centerOffset exactOffset
  split
  · rw [roundFloat_halfSize _ hs.1.1, roundFloat_halfSize _ hs.1.2]
  · rfl

/-- The exact offset is a triple of half-integers below `2 ^ 21`. -/
theorem exactOffset_half (V : FVoxel) (hs : V.SmallCoords) :
    ∃ tx ty tz : Int, (tx.natAbs < 2 ^ 22 ∧ ty.natAbs < 2 ^ 22 ∧ tz.natAbs < 2 ^ 22) ∧
      exactOffset V = ⟨(tx : ℚ) / 2, (ty : ℚ) / 2, (tz : ℚ) / 2⟩ := by
  unfold exactOffset
  split
  · exact ⟨V.Size.X, V.Size.Y, 0, ⟨hs.1.1, hs.1.2, by decide⟩, by simp⟩
  · exact ⟨0, 0, 0, ⟨by decide, by decide, by decide⟩, by simp [FVector.ZeroVector]⟩

/-- The corner of a cell with small coordinates is computed exactly. -/
theorem corner_exact (Key : FIntVector)
    (hK : Key.X.natAbs < 2 ^ 22 ∧ Key.Y.natAbs < 2 ^ 22 ∧ Key.Z.natAbs < 2 ^ 22) (i : Fin 8) :
    FVector.ofInts Key.X Key.Y Key.Z + Vertexes i = exactCorner Key (Vertexes i) := by
  obtain ⟨bx, by', bz⟩ := Vertexes_bits i
  rw [FVector.add_coords]
  unfold FVector.ofInts exactCorner FVector.exactAdd
  simp only [FVector.mk.injEq]
  exact ⟨roundFloat_corner _ hK.1 _ bx, roundFloat_corner _ hK.2.1 _ by',
    roundFloat_corner _ hK.2.2 _ bz⟩

/-- In a small volume the centered corner of a cell is computed exactly. -/
theorem position_exact (V : FVoxel) (hs : V.SmallCoords) (Key : FIntVector)
    (hK : Key ∈ V.Voxel.keys) (i : Fin 8) :
    FVector.ofInts Key.X Key.Y Key.Z + Vertexes i - centerOffset V
      = exactPosition V Key (Vertexes i) := by
  obtain ⟨bx, by', bz⟩ := Vertexes_bits i
  obtain ⟨tx, ty, tz, ⟨hx, hy, hz⟩, ht⟩ := exactOffset_half V hs
  have hk := hs.2 Key hK
  rw [corner_exact Key hk i, centerOffset_exact V hs, FVector.sub_coords]
  unfold exactPosition FVector.exactSub
  rw [ht]
  unfold exactCorner FVector.exactAdd
  simp only [FVector.mk.injEq]
  exact ⟨roundFloat_centered _ _ hk.1 hx _ bx, roundFloat_centered _ _ hk.2.1 hy _ by',
    roundFloat_centered _ _ hk.2.2 hz _ bz⟩

/-! ## Vertex sharing -/

theorem FVector.exactSub_injective (o : FVector) :
    Function.Injective (fun p : FVector => FVector.exactSub p o) := by
  intro p q h
  simp only [FVector.exactSub, FVector.mk.injEq, sub_left_inj] at h
  cases p; cases q
  simp only [FVector.mk.injEq]
  exact h

theorem roundFloat_corner_isInt (k : Int) (b : ℚ) (hb : b = 0 ∨ b = 1) :
    ∃ m : Int, roundFloat (roundFloat (k : ℚ) + b) = (m : ℚ) := by
  obtain ⟨n, hn⟩ := roundFloat_isInt k
  rw [hn]
  rcases hb with rfl | rfl
  · rw [add_zero]; exact roundFloat_isInt n
  · have h := roundFloat_isInt (n + 1)
    push_cast at h
    exact h

/-- Before centering every corner has integer coordinates. -/
theorem faceCorner_lattice (Key : FIntVector) (f : Fin 6) (k : Fin 4) :
    ∃ x y z : Int, faceCorner Key f k = ⟨(x : ℚ), (y : ℚ), (z : ℚ)⟩ := by
  obtain ⟨bx, by', bz⟩ := Vertexes_bits (Faces f k)
  obtain ⟨x, hx⟩ := roundFloat_corner_isInt Key.X _ bx
  obtain ⟨y, hy⟩ := roundFloat_corner_isInt Key.Y _ by'
  obtain ⟨z, hz⟩ := roundFloat_corner_isInt Key.Z _ bz
  refine ⟨x, y, z, ?_⟩
  unfold faceCorner
  rw [FVector.add_coords]
  unfold FVector.ofInts
  simp only [FVector.mk.injEq]
  exact ⟨hx, hy, hz⟩

theorem farCell_eval :
    (farCell.CreateRawMesh FRawMesh.empty).map (fun R : FRawMesh =>
      (R.VertexPositions, (R.WedgeIndices[6 * 0 + (3 * 0 + 0)]?).bind
        (fun i => R.VertexPositions[i]?)))
      = some ([⟨16777216, 0, 1⟩, ⟨16777216, 1, 1⟩, ⟨16777216, 0, 0⟩, ⟨16777216, 1, 0⟩],
          some ⟨16777216, 0, 1⟩) := by
  decide!

theorem edgeCell_eval :
    (edgeCell.CreateRawMesh FRawMesh.empty).map (fun R : FRawMesh =>
      (R.VertexPositions[0]?, R.VertexPositions[1]?))
      = some (some ⟨16777214, -(1 / 2), 1⟩, some ⟨16777214, -(1 / 2), 1⟩) := by
  decide!

/-- C2 as stated fails in `float` arithmetic.  For the cell `(16777217, 0, 0)` the origin
is converted to `16777216` and the eight corners fall on four positions: the first wedge
of the face in direction 0 finds `(16777216, 0, 1)`, while the cell origin plus
`Vertexes[Faces[0][Polygons[0][0]]]` is `(16777218, 0, 1)`.  For the cell
`(16777214, 0, 0)` in a volume of size `(1, 1, 1)` with centering on, the positions 0 and 1
of the returned list are equal. -/
theorem C2_vertex_sharing_counterexample :
    (farCell.Built ∧
      (exposedFaces farCell)[0]? = some ((⟨16777217, 0, 0⟩, 3), 0) ∧
      ∃ R, farCell.CreateRawMesh FRawMesh.empty = some R ∧
        R.VertexPositions
          = [⟨16777216, 0, 1⟩, ⟨16777216, 1, 1⟩, ⟨16777216, 0, 0⟩, ⟨16777216, 1, 0⟩] ∧
        (R.WedgeIndices[6 * 0 + (3 * 0 + 0)]?).bind (fun i => R.VertexPositions[i]?)
          = some ⟨16777216, 0, 1⟩ ∧
        exactPosition farCell ⟨16777217, 0, 0⟩ (Vertexes (Faces 0 (Polygons 0 0)))
          = ⟨16777218, 0, 1⟩) ∧
    (edgeCell.Built ∧ ∃ R, edgeCell.CreateRawMesh FRawMesh.empty = some R ∧
      R.VertexPositions[0]? = R.VertexPositions[1]? ∧ R.VertexPositions[0]?.isSome ∧
      ¬ R.VertexPositions.Nodup) := by
  constructor
  · have h := farCell_eval
    simp only [Option.map_eq_some', Prod.mk.injEq] at h
    obtain ⟨R, hR, h1, h2⟩ := h
    exact ⟨volumeOf_Built _ _ _, by decide!, R, hR, h1, h2, by decide!⟩
  · have h := edgeCell_eval
    simp only [Option.map_eq_some', Prod.mk.injEq] at h
    obtain ⟨R, hR, h1, h2⟩ := h
    refine ⟨volumeOf_Built _ _ _, R, hR, by rw [h1, h2], by rw [h1]; rfl, ?_⟩
    intro hnd
    have h01 := (List.getElem?_inj (by
      have := h1
      rcases Nat.lt_or_ge 0 R.VertexPositions.length with hl | hl
      · exact hl
      · rw [List.getElem?_eq_none hl] at this; exact absurd this (by simp)) hnd
      (h1.trans h2.symm))
    exact absurd h01 (by decide)

/-- C2, amended.  For every volume: the positions before centering are pairwise different
and have integer coordinates, and the position found through the wedge index emitted for
an exposed face, triangle `p` and corner `k` is the `float` value of cell origin plus
`Vertexes[Faces[f][Polygons[p][k]]]` minus the centering offset.  For a volume whose sizes
and cell coordinates are below `2 ^ 22` in absolute value no operation rounds: the
returned positions are pairwise different and the position found is exactly the cell
origin plus `Vertexes[Faces[f][Polygons[p][k]]]` minus `(Size.X / 2, Size.Y / 2, 0)`. -/
theorem C2_vertex_sharing (V : FVoxel) (hV : V.Built) :
    ∃ Out R, V.Voxel.entries.foldlM (addCell V) FRawMesh.empty = some Out ∧
      V.CreateRawMesh FRawMesh.empty = some R ∧
      R.VertexPositions = Out.VertexPositions.map (fun q => q - centerOffset V) ∧
      Out.VertexPositions.Nodup ∧
      (∀ Cell ∈ V.Voxel.entries, ∀ f : Fin 6, Cell.1 + Vectors f ∉ V.Voxel.keys →
        ∃ j, (exposedFaces V)[j]? = some (Cell, f) ∧ ∀ (p : Fin 2) (k : Fin 3),
          (R.WedgeIndices[6 * j + (3 * p.val + k.val)]?).bind (fun i => R.VertexPositions[i]?)
            = some (FVector.ofInts Cell.1.X Cell.1.Y Cell.1.Z
                + Vertexes (Faces f (Polygons p k)) - centerOffset V)) ∧
      (∀ q ∈ Out.VertexPositions, ∃ x y z : Int, q = ⟨(x : ℚ), (y : ℚ), (z : ℚ)⟩) ∧
      (V.SmallCoords →
        R.VertexPositions.Nodup ∧
        ∀ Cell ∈ V.Voxel.entries, ∀ f : Fin 6, Cell.1 + Vectors f ∉ V.Voxel.keys →
          ∃ j, (exposedFaces V)[j]? = some (Cell, f) ∧ ∀ (p : Fin 2) (k : Fin 3),
            (R.WedgeIndices[6 * j + (3 * p.val + k.val)]?).bind
                (fun i => R.VertexPositions[i]?)
              = some (exactPosition V Cell.1 (Vertexes (Faces f (Polygons p k))))) := by
  obtain ⟨-, g2, -, -, g5⟩ := emitFold_geometry V.Palette (exposedFaces V) FRawMesh.empty
    (by intro i hi; simp [FRawMesh.empty] at hi)
  have hlook : ∀ Cell ∈ V.Voxel.entries, ∀ f : Fin 6, Cell.1 + Vectors f ∉ V.Voxel.keys →
      ∃ j, (exposedFaces V)[j]? = some (Cell, f) ∧ ∀ (p : Fin 2) (k : Fin 3),
        ((centered V ((exposedFaces V).foldl (emitFace V.Palette)
            FRawMesh.empty)).WedgeIndices[6 * j + (3 * p.val + k.val)]?).bind
          (fun i => (centered V ((exposedFaces V).foldl (emitFace V.Palette)
            FRawMesh.empty)).VertexPositions[i]?)
          = some (FVector.ofInts Cell.1.X Cell.1.Y Cell.1.Z
                + Vertexes (Faces f (Polygons p k)) - centerOffset V) := by
    intro Cell hCell f hf
    have hmem : (Cell, f) ∈ exposedFaces V := (mem_exposedFaces V (Cell, f)).mpr ⟨hCell, hf⟩
    obtain ⟨j, hj⟩ := List.getElem?_of_mem hmem
    exact ⟨j, hj, fun p k => wedge_lookup _ _ _ (naive_wedge_corner V j (Cell, f) hj p k)⟩
  refine ⟨_, _, cellLoop_built V hV FRawMesh.empty, CreateRawMesh_built V hV, rfl,
    g2 List.nodup_nil, hlook, ?_, ?_⟩
  · intro q hq
    rcases g5 q hq with h | ⟨x, -, k, rfl⟩
    · simp [FRawMesh.empty] at h
    · exact faceCorner_lattice _ _ _
  · intro hs
    constructor
    · have hmap : ((exposedFaces V).foldl (emitFace V.Palette)
            FRawMesh.empty).VertexPositions.map (fun q => q - centerOffset V)
          = ((exposedFaces V).foldl (emitFace V.Palette)
            FRawMesh.empty).VertexPositions.map (fun q => FVector.exactSub q (exactOffset V)) := by
        refine List.map_congr_left ?_
        intro q hq
        rcases g5 q hq with h | ⟨x, hx, k, rfl⟩
        · simp [FRawMesh.empty] at h
        · have hkey : x.1.1 ∈ V.Voxel.keys :=
            List.mem_map_of_mem Prod.fst ((mem_exposedFaces V x).mp hx).1
          show FVector.ofInts x.1.1.X x.1.1.Y x.1.1.Z + Vertexes (Faces x.2 k) - centerOffset V
            = FVector.exactSub (FVector.ofInts x.1.1.X x.1.1.Y x.1.1.Z + Vertexes (Faces x.2 k))
                (exactOffset V)
          rw [position_exact V hs _ hkey, corner_exact _ (hs.2 _ hkey)]
          rfl
      show (List.map _ _).Nodup
      rw [hmap]
      exact List.Nodup.map (FVector.exactSub_injective _) (g2 List.nodup_nil)
    · intro Cell hCell f hf
      obtain ⟨j, hj, h⟩ := hlook Cell hCell f hf
      refine ⟨j, hj, fun p k => ?_⟩
      rw [h p k, position_exact V hs _ (List.mem_map_of_mem Prod.fst hCell)]

/-- C2, amended, at two adjacent cells: twelve pairwise different positions. -/
theorem C2_vertex_sharing_witness :
    twoCells.Built ∧ twoCells.SmallCoords ∧
    ∃ Out R, twoCells.Voxel.entries.foldlM (addCell twoCells) FRawMesh.empty = some Out ∧
      twoCells.CreateRawMesh FRawMesh.empty = some R ∧
      R.VertexPositions.length = 12 ∧ R.VertexPositions.Nodup ∧
      (∀ q ∈ Out.VertexPositions, ∃ x y z : Int, q = ⟨(x : ℚ), (y : ℚ), (z : ℚ)⟩) := by
  obtain ⟨Out, R, hOut, hR, -, -, -, hlat, hsm⟩ :=
    C2_vertex_sharing twoCells (volumeOf_Built _ _ _)
  refine ⟨volumeOf_Built _ _ _, by decide, Out, R, hOut, hR, ?_, (hsm (by decide)).1, hlat⟩
  have h12 : (twoCells.CreateRawMesh FRawMesh.empty).map (fun M => M.VertexPositions.length)
      = some 12 := by decide!
  rw [hR] at h12
  exact Option.some.inj h12

/-! ## Occlusion -/

theorem FIntVector.add_components (a b : FIntVector) : a + b = ⟨a.X + b.X, a.Y + b.Y, a.Z + b.Z⟩ := rfl

/-- The `j`-th block of a concatenation of blocks of equal length. -/
theorem flatMap_block_take {α β : Type} (f : α → List β) (c : Nat)
    (hf : ∀ a, (f a).length = c) (l : List α) :
    ∀ (j : Nat) (a : α), l[j]? = some a → ((l.flatMap f).drop (c * j)).take c = f a := by
  induction l with
  | nil => intro j a h; simp at h
  | cons b l ih =>
    intro j a h
    cases j with
    | zero =>
      simp only [List.getElem?_cons_zero, Option.some.injEq] at h
      subst h
      rw [Nat.mul_zero, List.drop_zero, List.flatMap_cons, List.take_append_of_le_length
        (by rw [hf]), List.take_of_length_le (by rw [hf])]
    | succ j =>
      simp only [List.getElem?_cons_succ] at h
      have hdrop : ((b :: l).flatMap f).drop (c * (j + 1)) = (l.flatMap f).drop (c * j) := by
        rw [List.flatMap_cons, Nat.mul_succ, Nat.add_comm]
        have hb := hf b
        subst hb
        rw [List.drop_append]
      rw [hdrop]
      exact ih j a h

/-- The four corners of a face add up to four times its centre. -/
theorem faceCorners_sum (g : Fin 6) :
    (vertexIndices.map (fun k => (Vertexes (Faces g k)).X)).sum = 2 + 2 * ((Vectors g).X : ℚ) ∧
    (vertexIndices.map (fun k => (Vertexes (Faces g k)).Y)).sum = 2 + 2 * ((Vectors g).Y : ℚ) ∧
    (vertexIndices.map (fun k => (Vertexes (Faces g k)).Z)).sum = 2 + 2 * ((Vectors g).Z : ℚ) := by
  revert g
  decide!

/-! ## Faces in exact arithmetic -/

theorem exactFaceCorners_injective (V : FVoxel) (v : FIntVector) (f : Fin 6) :
    Function.Injective (fun k : Fin 4 => some (exactPosition V v (Vertexes (Faces f k)))) := by
  have hinj : ∀ g : Fin 6, Function.Injective (fun k : Fin 4 => Vertexes (Faces g k)) := by
    decide!
  intro a b hab
  simp only [Option.some.injEq] at hab
  have h2 := FVector.exactSub_injective (exactOffset V) hab
  unfold exactCorner at h2
  simp only [FVector.exactAdd, FVector.mk.injEq, add_right_inj] at h2
  apply hinj f
  show Vertexes (Faces f a) = Vertexes (Faces f b)
  cases hA : Vertexes (Faces f a)
  cases hB : Vertexes (Faces f b)
  rw [hA, hB] at h2
  simp only [FVector.mk.injEq]
  exact h2

theorem exactCornerSet_sum (V : FVoxel) (v : FIntVector) (f : Fin 6) (sel : FVector → ℚ)
    (hsel : ∀ a b : FVector, sel (FVector.exactAdd a b) = sel a + sel b)
    (hsub : ∀ a b : FVector, sel (FVector.exactSub a b) = sel a - sel b) :
    (exactFaceCornerSet V v f).sum (fun q => (q.map sel).getD 0)
      = 4 * sel ⟨(v.X : ℚ), (v.Y : ℚ), (v.Z : ℚ)⟩
        + (vertexIndices.map (fun k => sel (Vertexes (Faces f k)))).sum
        - 4 * sel (exactOffset V) := by
  unfold exactFaceCornerSet
  rw [List.sum_toFinset _
    ((List.nodup_map_iff (exactFaceCorners_injective V v f)).mpr (by decide))]
  simp only [vertexIndices, List.map_cons, List.map_nil, List.sum_cons, List.sum_nil,
    Option.map_some', Option.getD_some, exactPosition, exactCorner, hsel, hsub]
  ring

/-- Two faces with the same four exact corners are the two sides of one unit square. -/
theorem exactFaceCornerSet_eq (V : FVoxel) (c v : FIntVector) (g f : Fin 6)
    (h : exactFaceCornerSet V c g = exactFaceCornerSet V v f) :
    c + Vectors g = v + Vectors f ∨ c + Vectors g = v := by
  have hX := exactCornerSet_sum V c g FVector.X (fun _ _ => rfl) (fun _ _ => rfl)
  have hY := exactCornerSet_sum V c g FVector.Y (fun _ _ => rfl) (fun _ _ => rfl)
  have hZ := exactCornerSet_sum V c g FVector.Z (fun _ _ => rfl) (fun _ _ => rfl)
  rw [h, exactCornerSet_sum V v f FVector.X (fun _ _ => rfl) (fun _ _ => rfl)] at hX
  rw [h, exactCornerSet_sum V v f FVector.Y (fun _ _ => rfl) (fun _ _ => rfl)] at hY
  rw [h, exactCornerSet_sum V v f FVector.Z (fun _ _ => rfl) (fun _ _ => rfl)] at hZ
  rw [(faceCorners_sum f).1, (faceCorners_sum g).1] at hX
  rw [(faceCorners_sum f).2.1, (faceCorners_sum g).2.1] at hY
  rw [(faceCorners_sum f).2.2, (faceCorners_sum g).2.2] at hZ
  have eX : 2 * v.X + (Vectors f).X = 2 * c.X + (Vectors g).X := by
    have : ((2 * v.X + (Vectors f).X : Int) : ℚ) = ((2 * c.X + (Vectors g).X : Int) : ℚ) := by
      push_cast; linarith
    exact_mod_cast this
  have eY : 2 * v.Y + (Vectors f).Y = 2 * c.Y + (Vectors g).Y := by
    have : ((2 * v.Y + (Vectors f).Y : Int) : ℚ) = ((2 * c.Y + (Vectors g).Y : Int) : ℚ) := by
      push_cast; linarith
    exact_mod_cast this
  have eZ : 2 * v.Z + (Vectors f).Z = 2 * c.Z + (Vectors g).Z := by
    have : ((2 * v.Z + (Vectors f).Z : Int) : ℚ) = ((2 * c.Z + (Vectors g).Z : Int) : ℚ) := by
      push_cast; linarith
    exact_mod_cast this
  clear hX hY hZ h
  have key : ∀ e : Fin 6, Vectors e = ⟨0, 0, 1⟩ ∨ Vectors e = ⟨0, 0, -1⟩ ∨
      Vectors e = ⟨1, 0, 0⟩ ∨ Vectors e = ⟨-1, 0, 0⟩ ∨ Vectors e = ⟨0, 1, 0⟩ ∨
      Vectors e = ⟨0, -1, 0⟩ := by decide
  cases c with | mk cx cy cz =>
  cases v with | mk vx vy vz =>
  simp only [FIntVector.add_components, FIntVector.mk.injEq]
  rcases key f with hf | hf | hf | hf | hf | hf <;>
    rcases key g with hg | hg | hg | hg | hg | hg <;>
    simp only [hf, hg] at eX eY eZ ⊢ <;> omega

/-- In a small volume the corners of a face of an occupied cell are computed exactly. -/
theorem faceCornerSet_exact (V : FVoxel) (hs : V.SmallCoords) (v : FIntVector)
    (hv : v ∈ V.Voxel.keys) (f : Fin 6) : faceCornerSet V v f = exactFaceCornerSet V v f := by
  unfold faceCornerSet exactFaceCornerSet
  congr 1
  refine List.map_congr_left ?_
  intro k _
  unfold faceCorner
  rw [position_exact V hs v hv]

theorem quadWedges_cornerSet (V : FVoxel) (c : FIntVector) (g : Fin 6) :
    ((quadWedges c g).map (fun p => some (p - centerOffset V))).toFinset
      = faceCornerSet V c g := by
  unfold faceCornerSet
  rw [quadWedges_eq]
  ext q
  simp only [vertexIndices, List.map_cons, List.map_nil, List.mem_toFinset, List.mem_cons,
    List.mem_singleton, List.not_mem_nil, or_false]
  tauto

/-- The corners of the `j`-th quad of the returned buffer are those of the `j`-th
exposed face. -/
theorem naive_quadCornerSet (V : FVoxel) (j : Nat) (x : (FIntVector × Nat) × Fin 6)
    (hj : (exposedFaces V)[j]? = some x) :
    quadCornerSet (centered V ((exposedFaces V).foldl (emitFace V.Palette) FRawMesh.empty)) j
      = faceCornerSet V x.1.1 x.2 := by
  unfold quadCornerSet
  rw [naive_wedgePositions,
    flatMap_block_take _ 6 (by intro a; rw [List.length_map, quadWedges_length]) _ j x hj,
    quadWedges_cornerSet]

theorem twoCells_eval :
    (twoCells.CreateRawMesh FRawMesh.empty).map (fun R : FRawMesh =>
      (R.FaceMaterialIndices.length, R.WedgeIndices.length,
        decide (QuadsOffPlaneX R 10 1))) = some (20, 60, true) := by
  decide!

theorem farPair_eval :
    (farPair.CreateRawMesh FRawMesh.empty).map (fun R : FRawMesh =>
      (R.WedgeIndices.length, ((wedgePositions R).drop (6 * 2)).take 6))
      = some (60, [some ⟨16777220, 1, 1⟩, some ⟨16777220, 0, 1⟩, some ⟨16777220, 0, 0⟩,
          some ⟨16777220, 0, 0⟩, some ⟨16777220, 1, 0⟩, some ⟨16777220, 1, 1⟩]) := by
  decide!

/-- C6 as stated fails in `float` arithmetic.  The cells `(16777219, 0, 0)` and
`(16777220, 0, 0)` are both occupied; the origin of the first is converted to `16777220`,
so the quad emitted for its face in direction 3, `(-1, 0, 0)`, the third quad of the
buffer, has the corners `(16777220, y, z)` with `y` and `z` in `0 .. 1`, which are the four
corners of the unit face between the two cells. -/
theorem C6_occlusion_counterexample :
    farPair.Built ∧
    farPair.Voxel.keys = [⟨16777219, 0, 0⟩, ⟨16777219, 0, 0⟩ + Vectors 2] ∧
    (exposedFaces farPair)[2]? = some ((⟨16777219, 0, 0⟩, 3), 3) ∧
    vertexIndices.map (fun k => exactPosition farPair ⟨16777219, 0, 0⟩ (Vertexes (Faces 2 k)))
      = [⟨16777220, 0, 1⟩, ⟨16777220, 1, 1⟩, ⟨16777220, 1, 0⟩, ⟨16777220, 0, 0⟩] ∧
    ∃ R, farPair.CreateRawMesh FRawMesh.empty = some R ∧
      6 * 2 + 6 ≤ R.WedgeIndices.length ∧
      ((wedgePositions R).drop (6 * 2)).take 6
        = [some ⟨16777220, 1, 1⟩, some ⟨16777220, 0, 1⟩, some ⟨16777220, 0, 0⟩,
           some ⟨16777220, 0, 0⟩, some ⟨16777220, 1, 0⟩, some ⟨16777220, 1, 1⟩] ∧
      quadCornerSet R 2 = exactFaceCornerSet farPair ⟨16777219, 0, 0⟩ 2 := by
  have h := farPair_eval
  simp only [Option.map_eq_some', Prod.mk.injEq] at h
  obtain ⟨R, hR, h1, h2⟩ := h
  refine ⟨volumeOf_Built _ _ _, by decide, by decide!, by decide!, R, hR, by rw [h1]; decide,
    h2, ?_⟩
  unfold quadCornerSet
  rw [h2]
  decide!

/-- C6, amended.  For every volume, each quad of the buffer `CreateRawMesh` returns is the
quad of an exposed face, a face of an occupied cell whose neighbour is not occupied, and
its corners are the `float` corners of that face.  For a volume whose sizes and cell
coordinates are below `2 ^ 22` in absolute value and two occupied cells `v` and `v + d`,
`d` one of the six directions, no quad has as its corners the four corners of the unit face
between them.  For the two cells `(0,0,0)` and `(1,0,0)` the buffer has 10 quads
(20 triangles) and each of them has a corner off the plane `x = 1`. -/
theorem C6_occlusion (V : FVoxel) (hV : V.Built) :
    (∃ R, V.CreateRawMesh FRawMesh.empty = some R ∧
      (∀ j, 6 * j + 6 ≤ R.WedgeIndices.length →
        ∃ x, (exposedFaces V)[j]? = some x ∧ x.1.1 ∈ V.Voxel.keys ∧
          x.1.1 + Vectors x.2 ∉ V.Voxel.keys ∧
          quadCornerSet R j = faceCornerSet V x.1.1 x.2) ∧
      (V.SmallCoords →
        ∀ (v : FIntVector) (f : Fin 6), v ∈ V.Voxel.keys → v + Vectors f ∈ V.Voxel.keys →
          ∀ j, 6 * j + 6 ≤ R.WedgeIndices.length →
            quadCornerSet R j ≠ exactFaceCornerSet V v f)) ∧
    (twoCells.Voxel.keys = [⟨0, 0, 0⟩, ⟨1, 0, 0⟩] ∧
      ∃ R, twoCells.CreateRawMesh FRawMesh.empty = some R ∧
        R.FaceMaterialIndices.length = 20 ∧ R.WedgeIndices.length = 6 * 10 ∧
        ∀ j < 10, ∃ q ∈ ((wedgePositions R).drop (6 * j)).take 6,
          q.map FVector.X ≠ some (1 : ℚ)) := by
  constructor
  · have hquad : ∀ j, 6 * j + 6 ≤ (centered V ((exposedFaces V).foldl (emitFace V.Palette)
          FRawMesh.empty)).WedgeIndices.length →
        ∃ x, (exposedFaces V)[j]? = some x ∧ x.1.1 ∈ V.Voxel.keys ∧
          x.1.1 + Vectors x.2 ∉ V.Voxel.keys ∧
          quadCornerSet (centered V ((exposedFaces V).foldl (emitFace V.Palette)
            FRawMesh.empty)) j = faceCornerSet V x.1.1 x.2 := by
      intro j hj
      obtain ⟨-, -, a3, -, -⟩ := emitFold_attributes V.Palette (exposedFaces V) FRawMesh.empty
      have hlen : (centered V ((exposedFaces V).foldl (emitFace V.Palette)
          FRawMesh.empty)).WedgeIndices.length = 6 * (exposedFaces V).length := by
        show ((exposedFaces V).foldl (emitFace V.Palette) FRawMesh.empty).WedgeIndices.length
          = _
        rw [a3]; simp [FRawMesh.empty]
      rw [hlen] at hj
      have hjlt : j < (exposedFaces V).length := by omega
      have hget : (exposedFaces V)[j]? = some ((exposedFaces V)[j]) :=
        List.getElem?_eq_getElem hjlt
      have hx := (mem_exposedFaces V _).mp (List.getElem_mem hjlt)
      exact ⟨_, hget, List.mem_map_of_mem Prod.fst hx.1, hx.2, naive_quadCornerSet V j _ hget⟩
    refine ⟨_, CreateRawMesh_built V hV, hquad, ?_⟩
    intro hs v f hv hvf j hj heq
    obtain ⟨x, -, hxk, hxn, hq⟩ := hquad j hj
    rw [hq, faceCornerSet_exact V hs _ hxk] at heq
    rcases exactFaceCornerSet_eq V _ v _ f heq with h | h
    · exact hxn (h ▸ hvf)
    · exact hxn (h ▸ hv)
  · refine ⟨by decide, ?_⟩
    have h := twoCells_eval
    rw [CreateRawMesh_built twoCells (volumeOf_Built _ _ _)] at h ⊢
    simp only [Option.map_some', Option.some.injEq, Prod.mk.injEq, decide_eq_true_eq,
      QuadsOffPlaneX] at h
    exact ⟨_, rfl, h.1, h.2.1, h.2.2⟩

/-- C6, amended, at two adjacent cells: none of the ten quads is the face between them. -/
theorem C6_occlusion_witness :
    twoCells.Built ∧ twoCells.SmallCoords ∧
    ∃ R, twoCells.CreateRawMesh FRawMesh.empty = some R ∧
      ∀ j, 6 * j + 6 ≤ R.WedgeIndices.length →
        quadCornerSet R j ≠ exactFaceCornerSet twoCells ⟨0, 0, 0⟩ 2 := by
  obtain ⟨R, hR, -, h⟩ := (C6_occlusion twoCells (volumeOf_Built _ _ _)).1
  exact ⟨volumeOf_Built _ _ _, by decide, R, hR,
    h (by decide) ⟨0, 0, 0⟩ 2 (by decide) (by decide)⟩

/-! ## The single cube -/

theorem emitFold_geometry_eq (P : List FColor) (xs : List ((FIntVector × Nat) × Fin 6)) :
    ∀ Out : FRawMesh,
      ((xs.foldl (emitFace P) Out).VertexPositions, (xs.foldl (emitFace P) Out).WedgeIndices)
        = (xs.map (fun x => (x.1.1, x.2))).foldl emitGeometry
            (Out.VertexPositions, Out.WedgeIndices) := by
  induction xs with
  | nil => intro Out; rfl
  | cons x xs ih =>
    intro Out
    rw [List.foldl_cons, ih (emitFace P Out x)]
    rfl

theorem singleCell_exposedFaces (V : FVoxel) (m : Nat)
    (he : V.Voxel.entries = [(⟨0, 0, 0⟩, m)]) :
    exposedFaces V = faceIndices.map (fun f => ((⟨0, 0, 0⟩, m), f)) := by
  have hk : V.Voxel.keys = [⟨0, 0, 0⟩] := by unfold TMap.keys; rw [he]; rfl
  have hall : ∀ f ∈ faceIndices,
      (V.Voxel.Find ((⟨0, 0, 0⟩ : FIntVector) + Vectors f)).isNone = true := by
    intro f _
    rw [TMap.Find_isNone, hk, List.mem_singleton]
    revert f
    decide
  unfold exposedFaces
  rw [he, List.flatMap_singleton, List.filter_eq_self.mpr hall]

theorem singleCell_geometry :
    (faceIndices.map (fun f => ((⟨0, 0, 0⟩ : FIntVector), f))).foldl emitGeometry ([], [])
      = ([⟨1, 0, 1⟩, ⟨0, 0, 1⟩, ⟨0, 1, 1⟩, ⟨1, 1, 1⟩, ⟨0, 0, 0⟩, ⟨1, 0, 0⟩, ⟨1, 1, 0⟩, ⟨0, 1, 0⟩],
         [0, 1, 2, 2, 3, 0, 4, 5, 6, 6, 7, 4, 0, 3, 6, 6, 5, 0, 2, 1, 4, 4, 7, 2, 3, 2, 7, 7, 6,
          3, 1, 0, 5, 5, 4, 1]) := by
  decide!

theorem unitCube_sub_zero :
    ([⟨1, 0, 1⟩, ⟨0, 0, 1⟩, ⟨0, 1, 1⟩, ⟨1, 1, 1⟩, ⟨0, 0, 0⟩, ⟨1, 0, 0⟩, ⟨1, 1, 0⟩,
      ⟨0, 1, 0⟩] : List FVector).map (fun p => p - FVector.ZeroVector)
      = [⟨1, 0, 1⟩, ⟨0, 0, 1⟩, ⟨0, 1, 1⟩, ⟨1, 1, 1⟩, ⟨0, 0, 0⟩, ⟨1, 0, 0⟩, ⟨1, 1, 0⟩,
         ⟨0, 1, 0⟩] := by
  decide!

/-- C8: for a volume whose only cell is `(0,0,0)`, with centering off, `CreateRawMesh`
returns 12 triangles and 8 pairwise different vertex positions, the 8 corners of the unit
cube. -/
theorem C8_single_cube_geometry (V : FVoxel) (m : Nat) (hV : V.Built)
    (he : V.Voxel.entries = [(⟨0, 0, 0⟩, m)])
    (hc : V.ImportOption.bImportXYCenter = false) :
    ∃ R, V.CreateRawMesh FRawMesh.empty = some R ∧
      R.FaceMaterialIndices.length = 12 ∧ R.WedgeIndices.length = 3 * 12 ∧
      R.VertexPositions.length = 8 ∧ R.VertexPositions.Nodup ∧
      ∀ p : FVector, p ∈ R.VertexPositions ↔
        (p.X = 0 ∨ p.X = 1) ∧ (p.Y = 0 ∨ p.Y = 1) ∧ (p.Z = 0 ∨ p.Z = 1) := by
  have hgeo := emitFold_geometry_eq V.Palette (exposedFaces V) FRawMesh.empty
  obtain ⟨a1, -, -, -, -⟩ := emitFold_attributes V.Palette (exposedFaces V) FRawMesh.empty
  have hxs := singleCell_exposedFaces V m he
  have hmap : (exposedFaces V).map (fun x => (x.1.1, x.2))
      = faceIndices.map (fun f => ((⟨0, 0, 0⟩ : FIntVector), f)) := by
    rw [hxs, List.map_map]; rfl
  rw [hmap] at hgeo
  have hgeo2 := hgeo.trans singleCell_geometry
  obtain ⟨hVP, hWI⟩ := Prod.mk.inj hgeo2
  have hoff : centerOffset V = FVector.ZeroVector := by unfold centerOffset; simp [hc]
  have hR : (centered V ((exposedFaces V).foldl (emitFace V.Palette) FRawMesh.empty)).VertexPositions
      = [⟨1, 0, 1⟩, ⟨0, 0, 1⟩, ⟨0, 1, 1⟩, ⟨1, 1, 1⟩, ⟨0, 0, 0⟩, ⟨1, 0, 0⟩, ⟨1, 1, 0⟩,
         ⟨0, 1, 0⟩] := by
    show List.map _ _ = _
    rw [hVP, hoff]
    exact unitCube_sub_zero
  refine ⟨_, CreateRawMesh_built V hV, ?_, ?_, ?_, ?_, ?_⟩
  · show ((exposedFaces V).foldl (emitFace V.Palette) FRawMesh.empty).FaceMaterialIndices.length
      = 12
    rw [a1, hxs]
    rfl
  · show ((exposedFaces V).foldl (emitFace V.Palette) FRawMesh.empty).WedgeIndices.length = _
    rw [hWI]
    rfl
  · rw [hR]; rfl
  · rw [hR]; decide!
  · intro p
    rw [hR]
    cases p with | mk x y z =>
    simp only [List.mem_cons, FVector.mk.injEq, List.not_mem_nil, or_false]
    constructor
    · rintro (h | h | h | h | h | h | h | h) <;> simp [h.1, h.2.1, h.2.2]
    · rintro ⟨hx | hx, hy | hy, hz | hz⟩ <;> simp [hx, hy, hz]

/-- C8 at the one-cell volume of material 3. -/
theorem C8_single_cube_geometry_witness :
    oneCell.Built ∧ oneCell.Voxel.entries = [(⟨0, 0, 0⟩, 3)] ∧
    oneCell.ImportOption.bImportXYCenter = false ∧
    ∃ R, oneCell.CreateRawMesh FRawMesh.empty = some R ∧
      R.FaceMaterialIndices.length = 12 ∧ R.WedgeIndices.length = 3 * 12 ∧
      R.VertexPositions.length = 8 ∧ R.VertexPositions.Nodup ∧
      ∀ p : FVector, p ∈ R.VertexPositions ↔
        (p.X = 0 ∨ p.X = 1) ∧ (p.Y = 0 ∨ p.Y = 1) ∧ (p.Z = 0 ∨ p.Z = 1) :=
  ⟨volumeOf_Built _ _ _, rfl, rfl,
    C8_single_cube_geometry oneCell 3 (volumeOf_Built _ _ _) rfl rfl⟩

/-! ## Colours and texture coordinates -/

theorem ColorIndex_eq (m : Nat) (h1 : 1 ≤ m) (h2 : m ≤ 256) : ColorIndex m = m - 1 := by
  unfold ColorIndex
  omega

theorem palette_getD (P : List FColor) (i : Nat) (h : i < P.length) :
    some (P.getD i ⟨0, 0, 0, 0⟩) = P[i]? := by
  rw [List.getD_eq_getElem?_getD, List.getElem?_eq_getElem h]
  rfl

theorem wedgeUV_eq (m : Nat) (h1 : 1 ≤ m) (h2 : m ≤ 256) :
    wedgeUV (ColorIndex m) = ⟨((m : ℚ) - 1 + 1 / 2) / 256, 1 / 2⟩ := by
  rw [ColorIndex_eq m h1 h2]
  unfold wedgeUV
  rw [Nat.cast_sub h1]
  simp

theorem exposedFaces_entry (V : FVoxel) (j : Nat) (x : (FIntVector × Nat) × Fin 6)
    (hj : (exposedFaces V)[j]? = some x) : x.1 ∈ V.Voxel.entries := by
  have hmem : x ∈ exposedFaces V := List.getElem?_mem hj
  exact ((mem_exposedFaces V x).mp hmem).1

/-- C7: in the buffers of both voxel meshers every wedge emitted for a cell of material
index `m` in `1 .. 256` has the colour `Palette[m - 1]` and the UV
`((m - 1 + 0.5) / 256, 0.5)`, and this `u` lies strictly inside texel `m - 1` of a
256-wide texture: `(m - 1) / 256 < u < m / 256` and `floor (256 u) = m - 1`. -/
theorem C7_wedge_colour_uv (V : FVoxel) (hV : V.Built) :
    (∃ R, V.CreateRawMesh FRawMesh.empty = some R ∧
      ∀ (j : Nat) (Cell : FIntVector × Nat) (f : Fin 6),
        (exposedFaces V)[j]? = some (Cell, f) → 1 ≤ Cell.2 → Cell.2 ≤ 256 → ∀ t < 6,
          (V.Palette[Cell.2 - 1]?).isSome = true ∧
          R.WedgeColors[6 * j + t]? = V.Palette[Cell.2 - 1]? ∧
          R.WedgeTexCoords[6 * j + t]? = some ⟨((Cell.2 : ℚ) - 1 + 1 / 2) / 256, 1 / 2⟩) ∧
    (∃ Rs, V.CreateRawMeshes [] = some Rs ∧
      ∀ (n : Nat) (Cell : FIntVector × Nat),
        V.Voxel.entries[n]? = some Cell → 1 ≤ Cell.2 → Cell.2 ≤ 256 →
          ∃ M, Rs[n]? = some M ∧ (V.Palette[Cell.2 - 1]?).isSome = true ∧
            M.WedgeColors.length = 36 ∧ M.WedgeTexCoords.length = 36 ∧
            (∀ c ∈ M.WedgeColors, some c = V.Palette[Cell.2 - 1]?) ∧
            ∀ uv ∈ M.WedgeTexCoords, uv = ⟨((Cell.2 : ℚ) - 1 + 1 / 2) / 256, 1 / 2⟩) ∧
    (∀ m : Nat, 1 ≤ m → m ≤ 256 →
      (wedgeUV (ColorIndex m)).X = ((m : ℚ) - 1 + 1 / 2) / 256 ∧
      (wedgeUV (ColorIndex m)).Y = 1 / 2 ∧
      ((m : ℚ) - 1) / 256 < (wedgeUV (ColorIndex m)).X ∧
      (wedgeUV (ColorIndex m)).X < (m : ℚ) / 256 ∧
      ⌊256 * (wedgeUV (ColorIndex m)).X⌋ = (m : Int) - 1) := by
  refine ⟨⟨_, CreateRawMesh_built V hV, ?_⟩, ⟨_, CreateRawMeshes_built V hV, ?_⟩, ?_⟩
  · intro j Cell f hj h1 h2 t ht
    obtain ⟨-, -, -, a4, a5⟩ := emitFold_attributes V.Palette (exposedFaces V) FRawMesh.empty
    have hci : ColorIndex Cell.2 < V.Palette.length :=
      Built_colorIndex V hV Cell (exposedFaces_entry V j (Cell, f) hj)
    have hci' : Cell.2 - 1 < V.Palette.length := by
      rw [← ColorIndex_eq Cell.2 h1 h2]; exact hci
    refine ⟨by rw [List.getElem?_eq_getElem hci']; rfl, ?_, ?_⟩
    · show ((exposedFaces V).foldl (emitFace V.Palette) FRawMesh.empty).WedgeColors[6 * j + t]?
        = _
      rw [a4]
      simp only [FRawMesh.empty, List.nil_append]
      rw [flatMap_block_getElem? _ 6 (by intro a; simp) _ j t ht, hj]
      simp only [Option.some_bind]
      rw [List.getElem?_replicate, if_pos ht, palette_getD _ _ hci, ColorIndex_eq Cell.2 h1 h2]
    · show ((exposedFaces V).foldl (emitFace V.Palette)
          FRawMesh.empty).WedgeTexCoords[6 * j + t]? = _
      rw [a5]
      simp only [FRawMesh.empty, List.nil_append]
      rw [flatMap_block_getElem? _ 6 (by intro a; simp) _ j t ht, hj]
      simp only [Option.some_bind]
      rw [List.getElem?_replicate, if_pos ht, wedgeUV_eq Cell.2 h1 h2]
  · intro n Cell hn h1 h2
    have hci : ColorIndex Cell.2 < V.Palette.length :=
      Built_colorIndex V hV Cell (List.getElem?_mem hn)
    have hci' : Cell.2 - 1 < V.Palette.length := by
      rw [← ColorIndex_eq Cell.2 h1 h2]; exact hci
    refine ⟨centered V (cubeMesh V.Palette Cell), by rw [List.getElem?_map, hn]; rfl,
      by rw [List.getElem?_eq_getElem hci']; rfl, by simp [centered, cubeMesh],
      by simp [centered, cubeMesh], ?_, ?_⟩
    · intro c hc
      have hc' : c ∈ List.replicate 36 (V.Palette.getD (ColorIndex Cell.2) ⟨0, 0, 0, 0⟩) := hc
      rw [(List.mem_replicate.mp hc').2, palette_getD _ _ hci, ColorIndex_eq Cell.2 h1 h2]
    · intro uv huv
      have huv' : uv ∈ List.replicate 36 (wedgeUV (ColorIndex Cell.2)) := huv
      rw [(List.mem_replicate.mp huv').2, wedgeUV_eq Cell.2 h1 h2]
  · intro m h1 h2
    rw [wedgeUV_eq m h1 h2]
    have hm : (1 : ℚ) ≤ (m : ℚ) := by exact_mod_cast h1
    refine ⟨rfl, rfl, ?_, ?_, ?_⟩
    · show ((m : ℚ) - 1) / 256 < ((m : ℚ) - 1 + 1 / 2) / 256
      linarith
    · show ((m : ℚ) - 1 + 1 / 2) / 256 < (m : ℚ) / 256
      linarith
    · show ⌊256 * (((m : ℚ) - 1 + 1 / 2) / 256)⌋ = (m : Int) - 1
      rw [Int.floor_eq_iff]
      push_cast
      constructor <;> linarith

/-- C7 at two adjacent cells of material 3. -/
theorem C7_wedge_colour_uv_witness :
    twoCells.Built ∧ ∃ R, twoCells.CreateRawMesh FRawMesh.empty = some R ∧
      R.WedgeColors[6 * 1 + 2]? = some ⟨2, 0, 0, 255⟩ ∧
      R.WedgeTexCoords[6 * 1 + 2]? = some ⟨5 / 512, 1 / 2⟩ := by
  obtain ⟨R, hR, h⟩ := (C7_wedge_colour_uv twoCells (volumeOf_Built _ _ _)).1
  have hj : (exposedFaces twoCells)[1]? = some ((⟨0, 0, 0⟩, 3), 1) := by decide!
  obtain ⟨-, hc, huv⟩ := h 1 (⟨0, 0, 0⟩, 3) 1 hj (by decide) (by decide) 2 (by decide)
  refine ⟨volumeOf_Built _ _ _, R, hR, ?_, ?_⟩
  · rw [hc]; decide!
  · rw [huv]; norm_num

/-- C9 as stated fails at the one-cell volume of material 3: the wedge-colour array has
36 entries, not 24. -/
theorem C9_single_cube_colours_counterexample :
    ∃ R, oneCell.CreateRawMesh FRawMesh.empty = some R ∧ R.WedgeColors.length = 36 ∧
      ¬ (R.WedgeColors.length = 24 ∧ ∀ c ∈ R.WedgeColors, some c = oneCell.Palette[3 - 1]?) := by
  have h : (oneCell.CreateRawMesh FRawMesh.empty).map (fun M : FRawMesh => M.WedgeColors.length)
      = some 36 := by decide!
  rw [CreateRawMesh_built oneCell (volumeOf_Built _ _ _)] at h ⊢
  simp only [Option.map_some', Option.some.injEq] at h
  refine ⟨_, rfl, h, ?_⟩
  rintro ⟨h24, -⟩
  rw [h] at h24
  exact absurd h24 (by decide)

/-- C9, amended: for a volume whose only cell is `(0,0,0)` with material value `m`, the
wedge-colour array `CreateRawMesh` returns has exactly 36 entries (6 faces, 2 triangles
each, 3 wedges each), all equal to `Palette[(m - 1) mod 256]`, which is `Palette[m - 1]`
for `m` in `1 .. 256`. -/
theorem C9_single_cube_colours (V : FVoxel) (m : Nat) (hV : V.Built)
    (he : V.Voxel.entries = [(⟨0, 0, 0⟩, m)]) :
    ∃ R, V.CreateRawMesh FRawMesh.empty = some R ∧ R.WedgeColors.length = 36 ∧
      (V.Palette[ColorIndex m]?).isSome = true ∧
      (∀ c ∈ R.WedgeColors, some c = V.Palette[ColorIndex m]?) ∧
      (1 ≤ m → m ≤ 256 → ∀ c ∈ R.WedgeColors, some c = V.Palette[m - 1]?) := by
  obtain ⟨-, -, -, a4, -⟩ := emitFold_attributes V.Palette (exposedFaces V) FRawMesh.empty
  have hxs := singleCell_exposedFaces V m he
  have hci : ColorIndex m < V.Palette.length :=
    Built_colorIndex V hV (⟨0, 0, 0⟩, m) (by rw [he]; exact List.mem_singleton.mpr rfl)
  have hWC : (centered V ((exposedFaces V).foldl (emitFace V.Palette)
      FRawMesh.empty)).WedgeColors
      = List.replicate 36 (V.Palette.getD (ColorIndex m) ⟨0, 0, 0, 0⟩) := by
    show ((exposedFaces V).foldl (emitFace V.Palette) FRawMesh.empty).WedgeColors = _
    rw [a4, hxs]
    rfl
  have hall : ∀ c ∈ (centered V ((exposedFaces V).foldl (emitFace V.Palette)
      FRawMesh.empty)).WedgeColors, some c = V.Palette[ColorIndex m]? := by
    intro c hc
    rw [hWC] at hc
    rw [(List.mem_replicate.mp hc).2, palette_getD _ _ hci]
  refine ⟨_, CreateRawMesh_built V hV, by rw [hWC]; simp,
    by rw [List.getElem?_eq_getElem hci]; rfl, hall, ?_⟩
  intro h1 h2 c hc
  rw [← ColorIndex_eq m h1 h2]
  exact hall c hc

/-- C9, amended, at the one-cell volume of material 3. -/
theorem C9_single_cube_colours_witness :
    oneCell.Built ∧ oneCell.Voxel.entries = [(⟨0, 0, 0⟩, 3)] ∧
    ∃ R, oneCell.CreateRawMesh FRawMesh.empty = some R ∧ R.WedgeColors.length = 36 ∧
      ∀ c ∈ R.WedgeColors, some c = oneCell.Palette[3 - 1]? := by
  obtain ⟨R, hR, hlen, -, -, h⟩ :=
    C9_single_cube_colours oneCell 3 (volumeOf_Built _ _ _) rfl
  exact ⟨volumeOf_Built _ _ _, rfl, R, hR, hlen, h (by decide) (by decide)⟩

/-! ## The per-cell mesher -/

theorem cornerIndices_getElem? : ∀ i : Fin 8, cornerIndices[i.val]? = some i := by decide

theorem cubeWedgeIndices_getElem? : ∀ (f : Fin 6) (p : Fin 2) (k : Fin 3),
    cubeWedgeIndices[6 * f.val + 3 * p.val + k.val]? = some (Faces f (Polygons p k)).val := by
  decide

theorem wideCell_eval :
    (wideCell.CreateRawMeshes []).map (fun Rs : List FRawMesh =>
      Rs.map (fun M => M.VertexPositions[(0 : Fin 8).val]?))
      = some [some ⟨-8388608, -(1 / 2), 0⟩] := by
  decide!

/-- C10 as stated fails in `float` arithmetic.  In a volume of size `(16777217, 1, 1)` with
centering on, `(float)Size.X * 0.5f` is `8388608`, so position 0 of the mesh of the cell
`(0, 0, 0)` is `(-8388608, -1/2, 0)`, while cell origin plus `Vertexes[0]` minus half the
size is `(-16777217/2, -1/2, 0)`. -/
theorem C10_per_cell_mesher_counterexample :
    wideCell.Built ∧ wideCell.Voxel.entries = [(⟨0, 0, 0⟩, 3)] ∧
    centerOffset wideCell = ⟨8388608, 1 / 2, 0⟩ ∧
    exactPosition wideCell ⟨0, 0, 0⟩ (Vertexes 0) = ⟨-(16777217 / 2), -(1 / 2), 0⟩ ∧
    ∃ Rs, wideCell.CreateRawMeshes [] = some Rs ∧
      Rs.map (fun M => M.VertexPositions[(0 : Fin 8).val]?)
        = [some ⟨-8388608, -(1 / 2), 0⟩] := by
  have h := wideCell_eval
  simp only [Option.map_eq_some'] at h
  obtain ⟨Rs, hRs, h1⟩ := h
  exact ⟨volumeOf_Built _ _ _, by decide, by decide!, by decide!, Rs, hRs, h1⟩

/-- C10, amended.  From an empty list `CreateRawMeshes` returns one mesh per cell of the
map, in order and without any neighbour test; the mesh of a cell has 8 vertex positions,
the `float` values of cell origin + `Vertexes[i]` minus the centering offset, 12 triangles
with the wedge indices `Faces[f][Polygons[p][k]]` in loop order and 36 wedge colours
`Palette[(m - 1) mod 256]`, that is `Palette[m - 1]` for `m` in `1 .. 256`; two adjacent
cells of one material give 12 + 12 = 24 triangles.  For a volume whose sizes and cell
coordinates are below `2 ^ 22` in absolute value no operation rounds, and position `i` is
exactly cell origin + `Vertexes[i]` minus `(Size.X / 2, Size.Y / 2, 0)`. -/
theorem C10_per_cell_mesher (V : FVoxel) (hV : V.Built) :
    (∃ Rs, V.CreateRawMeshes [] = some Rs ∧ Rs.length = V.Voxel.entries.length ∧
      (Rs.map (fun M => M.FaceMaterialIndices.length)).sum = 12 * V.Voxel.entries.length ∧
      ∀ (n : Nat) (Cell : FIntVector × Nat), V.Voxel.entries[n]? = some Cell →
        ∃ M, Rs[n]? = some M ∧
          M.VertexPositions.length = 8 ∧
          (∀ i : Fin 8, M.VertexPositions[i.val]?
            = some (FVector.ofInts Cell.1.X Cell.1.Y Cell.1.Z + Vertexes i - centerOffset V)) ∧
          (V.SmallCoords → ∀ i : Fin 8, M.VertexPositions[i.val]?
            = some (exactPosition V Cell.1 (Vertexes i))) ∧
          M.FaceMaterialIndices.length = 12 ∧ M.WedgeIndices.length = 3 * 12 ∧
          (∀ (f : Fin 6) (p : Fin 2) (k : Fin 3),
            M.WedgeIndices[6 * f.val + 3 * p.val + k.val]?
              = some (Faces f (Polygons p k)).val) ∧
          M.WedgeColors.length = 3 * 12 ∧
          (∀ c ∈ M.WedgeColors, some c = V.Palette[ColorIndex Cell.2]?) ∧
          (1 ≤ Cell.2 → Cell.2 ≤ 256 → ∀ c ∈ M.WedgeColors, some c = V.Palette[Cell.2 - 1]?)) ∧
    (twoCells.Voxel.entries = [(⟨0, 0, 0⟩, 3), (⟨1, 0, 0⟩, 3)] ∧
      ∃ Rs, twoCells.CreateRawMeshes [] = some Rs ∧ Rs.length = 2 ∧
        (Rs.map (fun M => M.FaceMaterialIndices.length)).sum = 24) := by
  have hsum : ∀ (W : FVoxel) (es : List (FIntVector × Nat)),
      ((es.map (fun Cell => centered W (cubeMesh W.Palette Cell))).map
        (fun M => M.FaceMaterialIndices.length)).sum = 12 * es.length := by
    intro W es
    induction es with
    | nil => rfl
    | cons e es ih =>
      rw [List.map_cons, List.map_cons, List.sum_cons, ih, List.length_cons]
      show 12 + 12 * es.length = _
      omega
  constructor
  · refine ⟨_, CreateRawMeshes_built V hV, by rw [List.length_map], hsum V _, ?_⟩
    intro n Cell hn
    have hci : ColorIndex Cell.2 < V.Palette.length :=
      Built_colorIndex V hV Cell (List.getElem?_mem hn)
    have hall : ∀ c ∈ (centered V (cubeMesh V.Palette Cell)).WedgeColors,
        some c = V.Palette[ColorIndex Cell.2]? := by
      intro c hc
      have hc' : c ∈ List.replicate 36 (V.Palette.getD (ColorIndex Cell.2) ⟨0, 0, 0, 0⟩) := hc
      rw [(List.mem_replicate.mp hc').2, palette_getD _ _ hci]
    have hpos : ∀ i : Fin 8, (centered V (cubeMesh V.Palette Cell)).VertexPositions[i.val]?
        = some (FVector.ofInts Cell.1.X Cell.1.Y Cell.1.Z + Vertexes i - centerOffset V) := by
      intro i
      show ((cornerIndices.map _).map _)[i.val]? = _
      rw [List.getElem?_map, List.getElem?_map, cornerIndices_getElem?]
      rfl
    refine ⟨centered V (cubeMesh V.Palette Cell), by rw [List.getElem?_map, hn]; rfl,
      by simp [centered, cubeMesh, cornerIndices], hpos, ?_, by simp [centered, cubeMesh],
      (by decide : cubeWedgeIndices.length = 3 * 12),
      ?_, by simp [centered, cubeMesh], hall, ?_⟩
    · intro hs i
      rw [hpos i, position_exact V hs _
        (List.mem_map_of_mem Prod.fst (List.getElem?_mem hn))]
    · intro f p k
      exact cubeWedgeIndices_getElem? f p k
    · intro h1 h2 c hc
      rw [← ColorIndex_eq Cell.2 h1 h2]
      exact hall c hc
  · refine ⟨by decide, _, CreateRawMeshes_built twoCells (volumeOf_Built _ _ _), ?_, ?_⟩
    · rw [List.length_map]; decide
    · rw [hsum]; decide

/-- C10, amended, at two adjacent cells of material 3: two meshes of 12 triangles, the
first with position 0 at the exact corner `(0, 0, 0)`. -/
theorem C10_per_cell_mesher_witness :
    twoCells.Built ∧ twoCells.SmallCoords ∧
    ∃ Rs, twoCells.CreateRawMeshes [] = some Rs ∧
      Rs.length = twoCells.Voxel.entries.length ∧
      (Rs.map (fun M => M.FaceMaterialIndices.length)).sum
        = 12 * twoCells.Voxel.entries.length ∧
      ∃ M, Rs[0]? = some M ∧ ∀ i : Fin 8, M.VertexPositions[i.val]?
        = some (exactPosition twoCells ⟨0, 0, 0⟩ (Vertexes i)) := by
  obtain ⟨Rs, hRs, hlen, hs, hcell⟩ :=
    (C10_per_cell_mesher twoCells (volumeOf_Built _ _ _)).1
  obtain ⟨M, hM, -, -, hex, -⟩ := hcell 0 (⟨0, 0, 0⟩, 3) (by decide)
  exact ⟨volumeOf_Built _ _ _, by decide, Rs, hRs, hlen, hs, M, hM, hex (by decide)⟩

theorem withCenter_Built (V : FVoxel) (b : Bool) (hV : V.Built) : (V.withCenter b).Built := hV

theorem cubeMesh_positions (P : List FColor) (Cell : FIntVector × Nat) (i : Fin 8) :
    (cubeMesh P Cell).VertexPositions[i.val]?
      = some (FVector.ofInts Cell.1.X Cell.1.Y Cell.1.Z + Vertexes i) := by
  show (cornerIndices.map _)[i.val]? = _
  rw [List.getElem?_map, cornerIndices_getElem?]
  rfl

/-! ## Centering -/

theorem exactOffset_off (V : FVoxel) : exactOffset (V.withCenter false) = FVector.ZeroVector :=
  rfl

theorem exactOffset_on (V : FVoxel) :
    exactOffset (V.withCenter true) = ⟨(V.Size.X : ℚ) / 2, (V.Size.Y : ℚ) / 2, 0⟩ := rfl

/-- In a small volume the two centering passes are exact: with the option off a corner
stays where it is, with the option on it moves by `centerShift`. -/
theorem shift_exact (V : FVoxel) (hs : V.SmallCoords) (K : FIntVector) (hK : K ∈ V.Voxel.keys)
    (i : Fin 8) :
    FVector.ofInts K.X K.Y K.Z + Vertexes i - FVector.ZeroVector = exactCorner K (Vertexes i) ∧
    FVector.ofInts K.X K.Y K.Z + Vertexes i - centerOffset (V.withCenter true)
      = FVector.exactAdd (exactCorner K (Vertexes i)) (centerShift V) := by
  have h0 := position_exact (V.withCenter false) hs K hK i
  have h1 := position_exact (V.withCenter true) hs K hK i
  have hoff : centerOffset (V.withCenter false) = FVector.ZeroVector := rfl
  rw [hoff] at h0
  rw [h0, h1]
  unfold exactPosition
  rw [exactOffset_off, exactOffset_on]
  constructor
  · cases exactCorner K (Vertexes i)
    simp [FVector.exactSub, FVector.ZeroVector]
  · cases exactCorner K (Vertexes i)
    simp only [FVector.exactSub, FVector.exactAdd, centerShift, FVector.mk.injEq]
    refine ⟨by ring, by ring, by ring⟩

theorem centered_pair_exact (V : FVoxel) (hs : V.SmallCoords) (Ps : List FVector)
    (hPs : ∀ p ∈ Ps, ∃ K ∈ V.Voxel.keys, ∃ i : Fin 8,
      p = FVector.ofInts K.X K.Y K.Z + Vertexes i) :
    Ps.map (fun p => p - centerOffset (V.withCenter true))
      = (Ps.map (fun p => p - FVector.ZeroVector)).map
          (fun p => FVector.exactAdd p (centerShift V)) ∧
    ∀ q ∈ Ps.map (fun p => p - FVector.ZeroVector), ∃ K ∈ V.Voxel.keys, ∃ i : Fin 8,
      q = exactCorner K (Vertexes i) := by
  constructor
  · rw [List.map_map]
    refine List.map_congr_left ?_
    intro p hp
    obtain ⟨K, hK, i, rfl⟩ := hPs p hp
    obtain ⟨e0, e1⟩ := shift_exact V hs K hK i
    show _ = FVector.exactAdd (_ - FVector.ZeroVector) (centerShift V)
    rw [e0, e1]
  · intro q hq
    obtain ⟨p, hp, rfl⟩ := List.mem_map.mp hq
    obtain ⟨K, hK, i, rfl⟩ := hPs p hp
    exact ⟨K, hK, i, (shift_exact V hs K hK i).1⟩

theorem wideCell_center_eval :
    (((wideCell.withCenter false).CreateRawMesh FRawMesh.empty).map
        (fun R : FRawMesh => R.VertexPositions[0]?),
      ((wideCell.withCenter true).CreateRawMesh FRawMesh.empty).map
        (fun R : FRawMesh => R.VertexPositions[0]?))
      = (some (some ⟨1, 0, 1⟩), some (some ⟨-8388607, -(1 / 2), 1⟩)) := by
  decide!

/-- C11 as stated fails in `float` arithmetic.  In a volume of size `(16777217, 1, 1)` the
offset `(float)Size.X * 0.5f` is `8388608`, not `16777217 / 2`: position 0 is `(1, 0, 1)`
with the option off and `(-8388607, -1/2, 1)` with the option on, while `(1, 0, 1)` moved by
`(-Size.X / 2, -Size.Y / 2, 0)` is `(-16777215/2, -1/2, 1)`. -/
theorem C11_centering_translation_counterexample :
    wideCell.Built ∧ centerShift wideCell = ⟨-(16777217 / 2), -(1 / 2), 0⟩ ∧
    FVector.exactAdd ⟨1, 0, 1⟩ (centerShift wideCell) = ⟨-(16777215 / 2), -(1 / 2), 1⟩ ∧
    ∃ R0 R1, (wideCell.withCenter false).CreateRawMesh FRawMesh.empty = some R0 ∧
      (wideCell.withCenter true).CreateRawMesh FRawMesh.empty = some R1 ∧
      R0.VertexPositions[0]? = some ⟨1, 0, 1⟩ ∧
      R1.VertexPositions[0]? = some ⟨-8388607, -(1 / 2), 1⟩ ∧
      R1.VertexPositions
        ≠ R0.VertexPositions.map (fun p => FVector.exactAdd p (centerShift wideCell)) := by
  have h := wideCell_center_eval
  simp only [Prod.mk.injEq, Option.map_eq_some'] at h
  obtain ⟨⟨R0, hR0, h0⟩, ⟨R1, hR1, h1⟩⟩ := h
  refine ⟨volumeOf_Built _ _ _, by decide!, by decide!, R0, R1, hR0, hR1, h0, h1, ?_⟩
  intro heq
  have h2 : R1.VertexPositions[0]?
      = (R0.VertexPositions.map (fun p => FVector.exactAdd p (centerShift wideCell)))[0]? := by
    rw [heq]
  rw [List.getElem?_map, h0, h1] at h2
  revert h2
  decide!

/-- C11, amended.  For every volume, `CreateRawMesh` with the centering option on and with
the option off return buffers that agree in wedge indices, colours, UVs and the per-face
arrays, and whose positions come from one list of corners, cell origin plus `Vertexes[i]`,
by the `float` subtraction of the offset `((float)Size.X * 0.5f, (float)Size.Y * 0.5f, 0)`
and of zero.  For a volume whose sizes and cell coordinates are below `2 ^ 22` in absolute
value no operation rounds: every position with the option on is the position with the
option off moved by exactly `(-Size.X / 2, -Size.Y / 2, 0)`, and with the option off every
position is exactly a cell origin plus a unit-cube corner.  The same holds for each mesh
`CreateRawMeshes` returns. -/
theorem C11_centering_translation (V : FVoxel) (hV : V.Built) :
    (∃ R0 R1, (V.withCenter false).CreateRawMesh FRawMesh.empty = some R0 ∧
      (V.withCenter true).CreateRawMesh FRawMesh.empty = some R1 ∧
      SameButPositions R1 R0 ∧
      (∃ Ps : List FVector,
        R0.VertexPositions = Ps.map (fun p => p - FVector.ZeroVector) ∧
        R1.VertexPositions = Ps.map (fun p => p - centerOffset (V.withCenter true)) ∧
        ∀ p ∈ Ps, ∃ Cell ∈ V.Voxel.entries, ∃ i : Fin 8,
          p = FVector.ofInts Cell.1.X Cell.1.Y Cell.1.Z + Vertexes i) ∧
      (V.SmallCoords →
        R1.VertexPositions
          = R0.VertexPositions.map (fun p => FVector.exactAdd p (centerShift V)) ∧
        ∀ p ∈ R0.VertexPositions, ∃ Cell ∈ V.Voxel.entries, ∃ i : Fin 8,
          p = exactCorner Cell.1 (Vertexes i))) ∧
    (∃ Rs0 Rs1, (V.withCenter false).CreateRawMeshes [] = some Rs0 ∧
      (V.withCenter true).CreateRawMeshes [] = some Rs1 ∧
      Rs0.length = V.Voxel.entries.length ∧ Rs1.length = V.Voxel.entries.length ∧
      ∀ (n : Nat) (Cell : FIntVector × Nat), V.Voxel.entries[n]? = some Cell →
        ∃ M0 M1, Rs0[n]? = some M0 ∧ Rs1[n]? = some M1 ∧
          SameButPositions M1 M0 ∧
          (∀ i : Fin 8,
            M0.VertexPositions[i.val]?
              = some (FVector.ofInts Cell.1.X Cell.1.Y Cell.1.Z + Vertexes i
                  - FVector.ZeroVector) ∧
            M1.VertexPositions[i.val]?
              = some (FVector.ofInts Cell.1.X Cell.1.Y Cell.1.Z + Vertexes i
                  - centerOffset (V.withCenter true))) ∧
          (V.SmallCoords →
            M1.VertexPositions
              = M0.VertexPositions.map (fun p => FVector.exactAdd p (centerShift V)) ∧
            ∀ i : Fin 8, M0.VertexPositions[i.val]?
              = some (exactCorner Cell.1 (Vertexes i)))) := by
  constructor
  · obtain ⟨-, -, -, -, g5⟩ := emitFold_geometry V.Palette (exposedFaces V) FRawMesh.empty
      (by intro i hi; simp [FRawMesh.empty] at hi)
    have hPs : ∀ p ∈ ((exposedFaces V).foldl (emitFace V.Palette)
        FRawMesh.empty).VertexPositions, ∃ Cell ∈ V.Voxel.entries, ∃ i : Fin 8,
        p = FVector.ofInts Cell.1.X Cell.1.Y Cell.1.Z + Vertexes i := by
      intro p hp
      rcases g5 p hp with h | ⟨x, hx, k, rfl⟩
      · simp [FRawMesh.empty] at h
      · exact ⟨x.1, ((mem_exposedFaces V x).mp hx).1, Faces x.2 k, rfl⟩
    refine ⟨_, _, CreateRawMesh_built _ (withCenter_Built V false hV),
      CreateRawMesh_built _ (withCenter_Built V true hV), ⟨rfl, rfl, rfl, rfl, rfl⟩,
      ⟨((exposedFaces V).foldl (emitFace V.Palette) FRawMesh.empty).VertexPositions,
        rfl, rfl, hPs⟩, ?_⟩
    intro hs
    have hK : ∀ p ∈ ((exposedFaces V).foldl (emitFace V.Palette)
        FRawMesh.empty).VertexPositions, ∃ K ∈ V.Voxel.keys, ∃ i : Fin 8,
        p = FVector.ofInts K.X K.Y K.Z + Vertexes i := by
      intro p hp
      obtain ⟨Cell, hC, i, rfl⟩ := hPs p hp
      exact ⟨Cell.1, List.mem_map_of_mem Prod.fst hC, i, rfl⟩
    obtain ⟨e1, e2⟩ := centered_pair_exact V hs _ hK
    refine ⟨e1, ?_⟩
    intro p hp
    obtain ⟨K, hKk, i, rfl⟩ := e2 p hp
    obtain ⟨Cell, hC, rfl⟩ := List.mem_map.mp hKk
    exact ⟨Cell, hC, i, rfl⟩
  · refine ⟨_, _, CreateRawMeshes_built _ (withCenter_Built V false hV),
      CreateRawMeshes_built _ (withCenter_Built V true hV), by rw [List.length_map]; rfl,
      by rw [List.length_map]; rfl, ?_⟩
    intro n Cell hn
    have hn0 : (V.withCenter false).Voxel.entries[n]? = some Cell := hn
    have hn1 : (V.withCenter true).Voxel.entries[n]? = some Cell := hn
    have hkey : Cell.1 ∈ V.Voxel.keys := List.mem_map_of_mem Prod.fst (List.getElem?_mem hn)
    have hpos : ∀ (o : FVector) (i : Fin 8),
        ((cubeMesh V.Palette Cell).VertexPositions.map (fun p => p - o))[i.val]?
          = some (FVector.ofInts Cell.1.X Cell.1.Y Cell.1.Z + Vertexes i - o) := by
      intro o i
      rw [List.getElem?_map, cubeMesh_positions]
      rfl
    refine ⟨centered (V.withCenter false) (cubeMesh V.Palette Cell),
      centered (V.withCenter true) (cubeMesh V.Palette Cell),
      by rw [List.getElem?_map, hn0]; rfl, by rw [List.getElem?_map, hn1]; rfl,
      ⟨rfl, rfl, rfl, rfl, rfl⟩, fun i => ⟨hpos _ i, hpos _ i⟩, ?_⟩
    intro hs
    have hK : ∀ p ∈ (cubeMesh V.Palette Cell).VertexPositions, ∃ K ∈ V.Voxel.keys,
        ∃ i : Fin 8, p = FVector.ofInts K.X K.Y K.Z + Vertexes i := by
      intro p hp
      obtain ⟨i, -, rfl⟩ := List.mem_map.mp hp
      exact ⟨Cell.1, hkey, i, rfl⟩
    obtain ⟨e1, -⟩ := centered_pair_exact V hs _ hK
    refine ⟨e1, fun i => ?_⟩
    have h := hpos FVector.ZeroVector i
    rw [(shift_exact V hs Cell.1 hkey i).1] at h
    exact h

/-- C11, amended, at two adjacent cells in a volume of size `(2, 1, 1)`: the shift is
exactly `(-1, -1/2, 0)`. -/
theorem C11_centering_translation_witness :
    twoCells.Built ∧ twoCells.SmallCoords ∧ centerShift twoCells = ⟨-1, -(1 / 2), 0⟩ ∧
    ∃ R0 R1, (twoCells.withCenter false).CreateRawMesh FRawMesh.empty = some R0 ∧
      (twoCells.withCenter true).CreateRawMesh FRawMesh.empty = some R1 ∧
      R1.VertexPositions
        = R0.VertexPositions.map (fun p => FVector.exactAdd p (centerShift twoCells)) ∧
      SameButPositions R1 R0 := by
  obtain ⟨R0, R1, h0, h1, hs, -, hex⟩ :=
    (C11_centering_translation twoCells (volumeOf_Built _ _ _)).1
  exact ⟨volumeOf_Built _ _ _, by decide, by decide!, R0, R1, h0, h1, (hex (by decide)).1, hs⟩

/-- C12: for each direction index `f` with `d = Vectors[f]`, the four corners
`Vertexes[Faces[f][0..3]]` are pairwise different, lie on the side `d` of the unit cube and
are listed in cyclic order (neighbours in the list, the last and the first included, differ
in exactly one coordinate); for both triangles `(0,1,2)` and `(2,3,0)` the engine normal
`(P1 - P2) x (P0 - P2)` is `d` and the right-handed product `(P1 - P0) x (P2 - P0)` is `-d`;
the two triangles share the diagonal from corner 0 to corner 2, use all four corners, and
the quad is a parallelogram, so the two triangles of area 1/2 cover it. -/
theorem C12_face_tables :
    (∀ f : Fin 6, Function.Injective (fun k : Fin 4 => Vertexes (Faces f k))) ∧
    (∀ (f : Fin 6) (k : Fin 4), onCubeSide (Vectors f) (Vertexes (Faces f k))) ∧
    (∀ (f : Fin 6) (k : Fin 4),
      coordDiffCount (Vertexes (Faces f k)) (Vertexes (Faces f (k + 1))) = 1) ∧
    (∀ (f : Fin 6) (p : Fin 2),
      engineNormal f p = FVector.ofInts (Vectors f).X (Vectors f).Y (Vectors f).Z) ∧
    (∀ (f : Fin 6) (p : Fin 2),
      rightHandedNormal f p
        = FVector.ofInts (-(Vectors f).X) (-(Vectors f).Y) (-(Vectors f).Z)) ∧
    (Polygons 0 = ![0, 1, 2] ∧ Polygons 1 = ![2, 3, 0]) ∧
    (Polygons 1 0 = Polygons 0 2 ∧ Polygons 1 2 = Polygons 0 0) ∧
    (∀ f : Fin 6, coordDiffCount (Vertexes (Faces f 0)) (Vertexes (Faces f 2)) = 2) ∧
    (∀ k : Fin 4, ∃ (p : Fin 2) (j : Fin 3), Polygons p j = k) ∧
    (∀ f : Fin 6, Vertexes (Faces f 0) + Vertexes (Faces f 2)
      = Vertexes (Faces f 1) + Vertexes (Faces f 3)) := by
  refine ⟨by decide!, by decide!, by decide!, by decide!, by decide!, by decide!, by decide,
    by decide!, by decide, by decide!⟩

/-- C13 as stated fails: the unit-cube template emits no wedge colour, so the wedge-colour
array has 0 entries against 36 wedge indices (3 per triangle, 12 triangles). -/
theorem C13_unit_cube_template_counterexample :
    templateMesh.WedgeColors.length = 0 ∧ templateMesh.WedgeIndices.length = 36 ∧
    3 * templateMesh.FaceMaterialIndices.length = 36 ∧
    ¬ (templateMesh.WedgeIndices.length = 3 * templateMesh.FaceMaterialIndices.length ∧
      3 * templateMesh.FaceMaterialIndices.length = templateMesh.WedgeColors.length ∧
      templateMesh.WedgeColors.length = templateMesh.WedgeTexCoords.length) := by
  decide!

/-- C13, amended: from an empty buffer the static `CreateMesh` leaves 8 vertex positions
`Vertexes[i] - (0.5, 0.5, 0.5)` (each coordinate `+0.5` or `-0.5`), 12 triangles with the
wedge indices `Faces[f][Polygons[p][k]]` and the UVs `TextureCoord[p][k]`, and no wedge
colour at all; the wedge index and wedge UV arrays have 3 entries per triangle, the
per-face arrays one, and every wedge index is below the number of vertex positions. -/
theorem C13_unit_cube_template :
    templateMesh.WedgeColors = [] ∧
    templateMesh.FaceMaterialIndices.length = 12 ∧
    templateMesh.FaceSmoothingMasks.length = templateMesh.FaceMaterialIndices.length ∧
    templateMesh.WedgeIndices.length = 3 * templateMesh.FaceMaterialIndices.length ∧
    templateMesh.WedgeTexCoords.length = 3 * templateMesh.FaceMaterialIndices.length ∧
    (∀ i ∈ templateMesh.WedgeIndices, i < templateMesh.VertexPositions.length) ∧
    templateMesh.VertexPositions.length = 8 ∧
    (∀ i : Fin 8, templateMesh.VertexPositions[i.val]?
      = some (Vertexes i - ⟨1 / 2, 1 / 2, 1 / 2⟩)) ∧
    (∀ q ∈ templateMesh.VertexPositions,
      (q.X = 1 / 2 ∨ q.X = -(1 / 2)) ∧ (q.Y = 1 / 2 ∨ q.Y = -(1 / 2)) ∧
        (q.Z = 1 / 2 ∨ q.Z = -(1 / 2))) ∧
    (∀ (f : Fin 6) (p : Fin 2) (k : Fin 3),
      templateMesh.WedgeIndices[6 * f.val + 3 * p.val + k.val]?
        = some (Faces f (Polygons p k)).val ∧
      templateMesh.WedgeTexCoords[6 * f.val + 3 * p.val + k.val]?
        = some (TextureCoord p k)) ∧
    (∀ m ∈ templateMesh.FaceMaterialIndices, m = 0) := by
  refine ⟨by decide!, by decide!, by decide!, by decide!, by decide!, by decide!, by decide!,
    by decide!, by decide!, by decide!, by decide!⟩

/-! ## The palette of the constructor -/

theorem mapM_all_some {α β : Type} (f : α → Option β) (g : α → β) (l : List α)
    (h : ∀ a ∈ l, f a = some (g a)) : l.mapM f = some (l.map g) := by
  induction l with
  | nil => rfl
  | cons a l ih =>
    rw [List.mapM_cons, h a (List.mem_cons_self _ _),
      ih (fun b hb => h b (List.mem_cons_of_mem _ hb))]
    rfl

theorem mapM_some_length {α β : Type} (f : α → Option β) (l : List α) :
    ∀ r : List β, l.mapM f = some r → r.length = l.length := by
  induction l with
  | nil =>
    intro r h
    simp only [List.mapM_nil, Option.pure_def, Option.some.injEq] at h
    subst h
    rfl
  | cons a l ih =>
    intro r h
    rw [List.mapM_cons] at h
    cases hfa : f a with
    | none => rw [hfa] at h; exact Option.noConfusion h
    | some b =>
      cases hl : l.mapM f with
      | none => rw [hfa, hl] at h; exact Option.noConfusion h
      | some r' =>
        rw [hfa, hl] at h
        simp only [Option.pure_def, Option.bind_eq_bind, Option.some_bind,
          Option.some.injEq] at h
        rw [← h, List.length_cons, List.length_cons, ih r' hl]

theorem finRange_getElem? (n : Nat) (i : Fin n) : (List.finRange n)[i.val]? = some i := by
  have hlt : i.val < (List.finRange n).length := by rw [List.length_finRange]; exact i.isLt
  rw [List.getElem?_eq_getElem hlt, List.getElem_finRange]
  rfl

theorem ctorPalette_length (dp : Fin 256 → Nat) (palettes : List VoxColor) (P : List FColor)
    (h : ctorPalette dp palettes = some P) : P.length = 256 := by
  unfold ctorPalette at h
  split at h
  · rw [mapM_some_length _ _ P h, List.length_range]
  · simp only [Option.some.injEq] at h
    rw [← h, List.length_map, List.length_finRange]

theorem ctorPalette_default (dp : Fin 256 → Nat) (palettes : List VoxColor)
    (h : palettes.length = 0) :
    ∃ P, ctorPalette dp palettes = some P ∧
      ∀ i : Fin 256, P[i.val]? = some (FColor.ofDWord (dp i)) := by
  refine ⟨(List.finRange 256).map (fun i => FColor.ofDWord (dp i)), ?_, ?_⟩
  · unfold ctorPalette
    rw [if_neg (by simp [h])]
  · intro i
    rw [List.getElem?_map, finRange_getElem?]
    rfl

theorem ctorPalette_supplied (dp : Fin 256 → Nat) (palettes : List VoxColor)
    (h : 256 ≤ palettes.length) :
    ∃ P, ctorPalette dp palettes = some P ∧
      ∀ i : Fin 256, ∃ c, palettes[i.val]? = some c ∧ P[i.val]? = some ⟨c.r, c.g, c.b, c.a⟩ := by
  refine ⟨(List.range 256).map (fun i =>
      FColor.mk (palettes.getD i ⟨0, 0, 0, 0⟩).r (palettes.getD i ⟨0, 0, 0, 0⟩).g
        (palettes.getD i ⟨0, 0, 0, 0⟩).b (palettes.getD i ⟨0, 0, 0, 0⟩).a), ?_, ?_⟩
  · unfold ctorPalette
    rw [if_pos (by omega)]
    refine mapM_all_some _ _ _ ?_
    intro i hi
    have hlt : i < palettes.length := Nat.lt_of_lt_of_le (List.mem_range.mp hi) h
    rw [List.getD_eq_getElem?_getD, List.getElem?_eq_getElem hlt]
    rfl
  · intro i
    have hlt : i.val < palettes.length := Nat.lt_of_lt_of_le i.isLt h
    refine ⟨palettes[i.val], List.getElem?_eq_getElem hlt, ?_⟩
    rw [List.getElem?_map, List.getElem?_range i.isLt]
    simp only [Option.map_some', List.getD_eq_getElem?_getD, List.getElem?_eq_getElem hlt,
      Option.getD_some]

theorem ctor_of_palette (dp : Fin 256 → Nat) (vox : DecodedScene) (opt : UVoxImportOption)
    (P : List FColor) (h : ctorPalette dp vox.palettes = some P) :
    FVoxel.ctor dp vox opt
      = some ⟨ctorSize opt.bImportXForward vox.size,
          ctorVoxel opt.bImportXForward (ctorSize opt.bImportXForward vox.size) vox.voxels
            TMap.empty, P, opt⟩ := by
  unfold FVoxel.ctor
  rw [h]
  rfl

/-- C14: a constructed volume has exactly 256 palette entries; from a scene without palette
records entry `i` is the colour of entry `i` of the built-in table; from a scene with 256
palette records entry `i` has the `(r, g, b, a)` of record `i`. -/
theorem C14_palette_construction (dp : Fin 256 → Nat) (vox : DecodedScene)
    (opt : UVoxImportOption) :
    (∀ V, FVoxel.ctor dp vox opt = some V → V.Palette.length = 256) ∧
    (vox.palettes.length = 0 → ∃ V, FVoxel.ctor dp vox opt = some V ∧
      V.Palette.length = 256 ∧
      ∀ i : Fin 256, V.Palette[i.val]? = some (FColor.ofDWord (dp i))) ∧
    (vox.palettes.length = 256 → ∃ V, FVoxel.ctor dp vox opt = some V ∧
      V.Palette.length = 256 ∧
      ∀ i : Fin 256, ∃ c, vox.palettes[i.val]? = some c ∧
        V.Palette[i.val]? = some ⟨c.r, c.g, c.b, c.a⟩) := by
  refine ⟨?_, ?_, ?_⟩
  · intro V hV
    exact ctorPalette_length dp vox.palettes V.Palette (ctor_eq_some dp vox opt V hV).2.2.2
  · intro h0
    obtain ⟨P, hP, hPi⟩ := ctorPalette_default dp vox.palettes h0
    exact ⟨_, ctor_of_palette dp vox opt P hP, ctorPalette_length dp _ P hP, hPi⟩
  · intro h256
    obtain ⟨P, hP, hPi⟩ := ctorPalette_supplied dp vox.palettes (by omega)
    exact ⟨_, ctor_of_palette dp vox opt P hP, ctorPalette_length dp _ P hP, hPi⟩

/-- C14 at a scene without palette records and at a scene with 256 of them. -/
theorem C14_palette_construction_witness :
    (exampleScene.palettes.length = 0 ∧
      ∃ V, FVoxel.ctor (fun i => i.val) exampleScene ⟨false, false⟩ = some V ∧
        V.Palette.length = 256 ∧
        ∀ i : Fin 256, V.Palette[i.val]? = some (FColor.ofDWord i.val)) ∧
    (paletteScene.palettes.length = 256 ∧
      ∃ V, FVoxel.ctor (fun i => i.val) paletteScene ⟨false, false⟩ = some V ∧
        V.Palette.length = 256 ∧ V.Palette[7]? = some ⟨7, 1, 2, 3⟩) := by
  have hlen256 : paletteScene.palettes.length = 256 := by simp [paletteScene]
  refine ⟨⟨rfl, (C14_palette_construction (fun i => i.val) exampleScene ⟨false, false⟩).2.1 rfl⟩,
    ⟨hlen256, ?_⟩⟩
  obtain ⟨V, hV, hlen, h⟩ :=
    (C14_palette_construction (fun i => i.val) paletteScene ⟨false, false⟩).2.2 hlen256
  obtain ⟨c, hc, hV7⟩ := h 7
  refine ⟨V, hV, hlen, ?_⟩
  have hc7 : paletteScene.palettes[7]? = some ⟨7, 1, 2, 3⟩ := by
    simp [paletteScene, List.getElem?_range]
  have hc' : paletteScene.palettes[(7 : Fin 256).val]? = some c := hc
  have e : (7 : Fin 256).val = 7 := rfl
  rw [e, hc7] at hc'
  have hcc := Option.some.inj hc'
  subst hcc
  exact hV7

/-! ## The volume without cells -/

/-- C16: for a volume without any cell, whatever its size, palette and options,
`CreateRawMesh` on an empty buffer returns the empty buffer and `CreateRawMeshes` on an
empty list returns the empty list. -/
theorem C16_empty_volume (V : FVoxel) (he : V.Voxel.entries = []) :
    V.CreateRawMesh FRawMesh.empty = some FRawMesh.empty ∧
    V.CreateRawMeshes [] = some [] := by
  have hV : V.Built := Or.inl he
  have hx : exposedFaces V = [] := by unfold exposedFaces; rw [he]; rfl
  constructor
  · rw [CreateRawMesh_built V hV, hx]
    rfl
  · rw [CreateRawMeshes_built V hV, he]
    rfl

/-- C16 at the default-constructed volume and at a sized volume without cells. -/
theorem C16_empty_volume_witness :
    ((FVoxel.default ⟨false, true⟩).Voxel.entries = [] ∧
      (FVoxel.default ⟨false, true⟩).CreateRawMesh FRawMesh.empty = some FRawMesh.empty ∧
      (FVoxel.default ⟨false, true⟩).CreateRawMeshes [] = some []) ∧
    (emptyVolume.Voxel.entries = [] ∧
      emptyVolume.CreateRawMesh FRawMesh.empty = some FRawMesh.empty ∧
      emptyVolume.CreateRawMeshes [] = some []) :=
  ⟨⟨rfl, C16_empty_volume (FVoxel.default ⟨false, true⟩) rfl⟩,
    ⟨rfl, C16_empty_volume emptyVolume rfl⟩⟩

/-! ## Malformed input -/

theorem ctor_Built (dp : Fin 256 → Nat) (vox : DecodedScene) (opt : UVoxImportOption)
    (V : FVoxel) (h : FVoxel.ctor dp vox opt = some V) : V.Built :=
  Or.inr (ctorPalette_length dp vox.palettes V.Palette (ctor_eq_some dp vox opt V h).2.2.2)

theorem ctor_succeeds (dp : Fin 256 → Nat) (vox : DecodedScene) (opt : UVoxImportOption)
    (hp : vox.palettes.length = 0 ∨ vox.palettes.length = 256) :
    ∃ V, FVoxel.ctor dp vox opt = some V := by
  rcases hp with h | h
  · obtain ⟨P, hP, -⟩ := ctorPalette_default dp vox.palettes h
    exact ⟨_, ctor_of_palette dp vox opt P hP⟩
  · obtain ⟨P, hP, -⟩ := ctorPalette_supplied dp vox.palettes (by omega)
    exact ⟨_, ctor_of_palette dp vox opt P hP⟩

theorem badScene_eval :
    ((FVoxel.ctor (fun _ => 0) badScene ⟨false, false⟩).map (fun V : FVoxel =>
      (V.Size, V.Voxel.entries,
        (V.CreateRawMesh FRawMesh.empty).map (fun R : FRawMesh => R.FaceMaterialIndices.length),
        (V.CreateRawMeshes []).map (fun Rs : List FRawMesh => Rs.length))))
      = some (⟨1, 1, 1⟩, [(⟨-5, 0, 0⟩, 0)], some 12, some 1) := by
  decide!

/-- C17 as stated fails at a scene of size `(1, 1, 1)` whose only cell is `(5, 0, 0)` with
material index 0: the constructor stores the cell at `(-5, 0, 0)`, outside the stored box,
and both meshers return geometry for it. -/
theorem C17_malformed_input_counterexample :
    ∃ V, FVoxel.ctor (fun _ => 0) badScene ⟨false, false⟩ = some V ∧
      V.Voxel.entries = [(⟨-5, 0, 0⟩, 0)] ∧ ¬ inBox V.Size ⟨-5, 0, 0⟩ ∧
      (∃ R, V.CreateRawMesh FRawMesh.empty = some R ∧ R.FaceMaterialIndices.length = 12) ∧
      (∃ Rs, V.CreateRawMeshes [] = some Rs ∧ Rs.length = 1) := by
  have h := badScene_eval
  obtain ⟨V, hV⟩ := ctor_succeeds (fun _ => 0) badScene ⟨false, false⟩ (Or.inl rfl)
  rw [hV] at h
  simp only [Option.map_some', Option.some.injEq, Prod.mk.injEq, Option.map_eq_some'] at h
  obtain ⟨hs, he, ⟨R, hR, hRl⟩, ⟨Rs, hRs, hRsl⟩⟩ := h
  refine ⟨V, hV, he, ?_, ⟨R, hR, hRl⟩, ⟨Rs, hRs, hRsl⟩⟩
  rw [hs]
  unfold inBox
  decide

/-- C17, amended: no input is rejected.  For every decoded scene with 0 or 256 palette
records the constructor succeeds and stores every decoded cell under its remapped
coordinate, whatever its coordinate and material index; on the constructed volume
`CreateRawMesh` succeeds with two triangles per exposed face and `CreateRawMeshes` succeeds
with one mesh per stored cell. -/
theorem C17_malformed_input (dp : Fin 256 → Nat) (vox : DecodedScene) (opt : UVoxImportOption)
    (hp : vox.palettes.length = 0 ∨ vox.palettes.length = 256) :
    ∃ V, FVoxel.ctor dp vox opt = some V ∧
      (∀ cell ∈ vox.voxels, ctorVector opt.bImportXForward V.Size cell ∈ V.Voxel.keys) ∧
      (∃ R, V.CreateRawMesh FRawMesh.empty = some R ∧
        R.FaceMaterialIndices.length = 2 * (exposedFaceSet V).card) ∧
      (∃ Rs, V.CreateRawMeshes [] = some Rs ∧ Rs.length = V.Voxel.entries.length) := by
  obtain ⟨V, hV⟩ := ctor_succeeds dp vox opt hp
  obtain ⟨hs, hv, -, -⟩ := ctor_eq_some dp vox opt V hV
  have hB := ctor_Built dp vox opt V hV
  refine ⟨V, hV, ?_, ⟨_, CreateRawMesh_built V hB, ?_⟩,
    ⟨_, CreateRawMeshes_built V hB, by rw [List.length_map]⟩⟩
  · intro cell hc
    rw [hv, hs, mem_keys_ctorVoxel]
    exact Or.inr ⟨cell, hc, rfl⟩
  · obtain ⟨a1, -, -, -, -⟩ := emitFold_attributes V.Palette (exposedFaces V) FRawMesh.empty
    show ((exposedFaces V).foldl (emitFace V.Palette) FRawMesh.empty).FaceMaterialIndices.length
      = _
    rw [a1, ← exposedFaces_length]
    simp [FRawMesh.empty]

/-- C17, amended, at the malformed scene. -/
theorem C17_malformed_input_witness :
    (badScene.palettes.length = 0 ∨ badScene.palettes.length = 256) ∧
    ∃ V, FVoxel.ctor (fun _ => 0) badScene ⟨false, false⟩ = some V ∧
      (∀ cell ∈ badScene.voxels, ctorVector false V.Size cell ∈ V.Voxel.keys) ∧
      (∃ R, V.CreateRawMesh FRawMesh.empty = some R ∧
        R.FaceMaterialIndices.length = 2 * (exposedFaceSet V).card) ∧
      (∃ Rs, V.CreateRawMeshes [] = some Rs ∧ Rs.length = V.Voxel.entries.length) :=
  ⟨Or.inl rfl, C17_malformed_input (fun _ => 0) badScene ⟨false, false⟩ (Or.inl rfl)⟩

/-! ## The remap as a bijection -/

theorem Vectors_cases (e : Fin 6) :
    Vectors e = ⟨0, 0, 1⟩ ∨ Vectors e = ⟨0, 0, -1⟩ ∨ Vectors e = ⟨1, 0, 0⟩ ∨
      Vectors e = ⟨-1, 0, 0⟩ ∨ Vectors e = ⟨0, 1, 0⟩ ∨ Vectors e = ⟨0, -1, 0⟩ := by
  revert e
  decide

theorem adjacent_iff (a b : FIntVector) :
    adjacent a b ↔
      (b.X - a.X).natAbs + (b.Y - a.Y).natAbs + (b.Z - a.Z).natAbs = 1 := by
  cases a with | mk ax ay az =>
  cases b with | mk bx b_y bz =>
  unfold adjacent
  simp only [FIntVector.add_components, FIntVector.mk.injEq]
  constructor
  · rintro ⟨f, hx, hy, hz⟩
    rcases Vectors_cases f with h | h | h | h | h | h <;> simp only [h] at hx hy hz <;> omega
  · intro h
    have hx : bx - ax = 0 ∨ bx - ax = 1 ∨ bx - ax = -1 := by omega
    have hy : b_y - ay = 0 ∨ b_y - ay = 1 ∨ b_y - ay = -1 := by omega
    have hz : bz - az = 0 ∨ bz - az = 1 ∨ bz - az = -1 := by omega
    have v0 : Vectors 0 = ⟨0, 0, 1⟩ := by decide
    have v1 : Vectors 1 = ⟨0, 0, -1⟩ := by decide
    have v2 : Vectors 2 = ⟨1, 0, 0⟩ := by decide
    have v3 : Vectors 3 = ⟨-1, 0, 0⟩ := by decide
    have v4 : Vectors 4 = ⟨0, 1, 0⟩ := by decide
    have v5 : Vectors 5 = ⟨0, -1, 0⟩ := by decide
    rcases hx with hx | hx | hx <;> rcases hy with hy | hy | hy <;>
      rcases hz with hz | hz | hz <;>
      first
      | (exfalso; omega)
      | exact ⟨0, by rw [v0]; dsimp only; omega⟩
      | exact ⟨1, by rw [v1]; dsimp only; omega⟩
      | exact ⟨2, by rw [v2]; dsimp only; omega⟩
      | exact ⟨3, by rw [v3]; dsimp only; omega⟩
      | exact ⟨4, by rw [v4]; dsimp only; omega⟩
      | exact ⟨5, by rw [v5]; dsimp only; omega⟩

theorem ctorVector_injective (xf : Bool) (S : FIntVector) (c c' : VoxCell)
    (h : ctorVector xf S c = ctorVector xf S c') : c.coord = c'.coord := by
  unfold ctorVector at h
  unfold VoxCell.coord
  cases xf <;> simp only [Bool.false_eq_true, if_false, if_true, FIntVector.mk.injEq] at h ⊢ <;>
    omega

theorem TMap.entries_Add_new (m : TMap) (k : FIntVector) (v : Nat) (h : k ∉ m.keys) :
    (m.Add k v).entries = m.entries ++ [(k, v)] := by
  have h' : k ∉ m.entries.map Prod.fst := h
  unfold TMap.Add
  rw [dif_neg h']

theorem ctorVoxel_entries (xf : Bool) (S : FIntVector) (voxels : List VoxCell) :
    ∀ m : TMap, (voxels.map VoxCell.coord).Nodup →
      (∀ c ∈ voxels, ctorVector xf S c ∉ m.keys) →
      (ctorVoxel xf S voxels m).entries
        = m.entries ++ voxels.map (fun c => (ctorVector xf S c, c.i)) := by
  induction voxels with
  | nil => intro m _ _; simp [ctorVoxel]
  | cons c cs ih =>
    intro m hnd hnew
    have step : ctorVoxel xf S (c :: cs) m
        = ctorVoxel xf S cs (m.Add (ctorVector xf S c) c.i) := rfl
    rw [List.map_cons, List.nodup_cons] at hnd
    have hc : ctorVector xf S c ∉ m.keys := hnew c (List.mem_cons_self _ _)
    rw [step, ih _ hnd.2, TMap.entries_Add_new m _ _ hc]
    · simp
    · intro c' hc' hmem
      rw [TMap.mem_keys_Add] at hmem
      rcases hmem with hmem | hmem
      · exact hnew c' (List.mem_cons_of_mem _ hc') hmem
      · exact hnd.1 (List.mem_map.mpr ⟨c', hc', ctorVector_injective xf S c' c hmem⟩)

/-- C18: for either value of `xForward` and every native size the remap is injective on
all integer coordinates and maps the native box onto the box of the stored size; so
decoded cells with pairwise different coordinates are stored without collision, in order,
one map entry per cell, and two decoded cells are 6-neighbours exactly when their stored
coordinates are. -/
theorem C18_remap_bijection (xf : Bool) (size : FIntVector) :
    (∀ c c' : VoxCell, ctorVector xf (ctorSize xf size) c = ctorVector xf (ctorSize xf size) c' →
      c.x = c'.x ∧ c.y = c'.y ∧ c.z = c'.z) ∧
    (∀ q : FIntVector, inBox (ctorSize xf size) q ↔
      ∃ cell : VoxCell, inNativeBox size cell ∧ ctorVector xf (ctorSize xf size) cell = q) ∧
    (∀ voxels : List VoxCell, (voxels.map VoxCell.coord).Nodup →
      (ctorVoxel xf (ctorSize xf size) voxels TMap.empty).entries
          = voxels.map (fun c => (ctorVector xf (ctorSize xf size) c, c.i)) ∧
        (ctorVoxel xf (ctorSize xf size) voxels TMap.empty).entries.length = voxels.length) ∧
    (∀ c c' : VoxCell, adjacent c.coord c'.coord ↔
      adjacent (ctorVector xf (ctorSize xf size) c) (ctorVector xf (ctorSize xf size) c')) := by
  refine ⟨?_, ?_, ?_, ?_⟩
  · intro c c' h
    have := ctorVector_injective xf _ c c' h
    unfold VoxCell.coord at this
    simpa using this
  · intro q
    cases q with | mk qx qy qz =>
    cases size with | mk sx sy sz =>
    unfold inBox inNativeBox ctorVector ctorSize
    cases xf
    · simp only [Bool.false_eq_true, if_false, FIntVector.mk.injEq]
      constructor
      · intro h
        exact ⟨⟨sx - qx - 1, qy, qz, 0⟩, by dsimp only; omega, by dsimp only; omega⟩
      · rintro ⟨cell, hb, hx, hy, hz⟩
        omega
    · simp only [if_true, FIntVector.mk.injEq]
      constructor
      · intro h
        exact ⟨⟨sx - qy - 1, sy - qx - 1, qz, 0⟩, by dsimp only; omega, by dsimp only; omega⟩
      · rintro ⟨cell, hb, hx, hy, hz⟩
        omega
  · intro voxels hnd
    have he := ctorVoxel_entries xf (ctorSize xf size) voxels TMap.empty hnd
      (by intro c _ hmem; simp [TMap.empty, TMap.keys] at hmem)
    have he' : (ctorVoxel xf (ctorSize xf size) voxels TMap.empty).entries
        = voxels.map (fun c => (ctorVector xf (ctorSize xf size) c, c.i)) := by
      rw [he]; rfl
    exact ⟨he', by rw [he', List.length_map]⟩
  · intro c c'
    rw [adjacent_iff, adjacent_iff]
    unfold VoxCell.coord ctorVector
    cases xf <;> simp only [Bool.false_eq_true, if_false, if_true] <;> omega

/-- C18 at two neighbouring cells in a volume of native size `(4, 3, 2)`, `xForward` on. -/
theorem C18_remap_bijection_witness :
    (pairScene.voxels.map VoxCell.coord).Nodup ∧
    (ctorVoxel true (ctorSize true pairScene.size) pairScene.voxels TMap.empty).entries
      = [(⟨2, 3, 0⟩, 1), (⟨2, 2, 0⟩, 2)] ∧
    (ctorVoxel true (ctorSize true pairScene.size) pairScene.voxels TMap.empty).entries.length
      = pairScene.voxels.length ∧
    adjacent (⟨2, 3, 0⟩ : FIntVector) ⟨2, 2, 0⟩ := by
  have hnd : (pairScene.voxels.map VoxCell.coord).Nodup := by decide
  obtain ⟨-, -, h3, h4⟩ := C18_remap_bijection true pairScene.size
  refine ⟨hnd, ?_, (h3 pairScene.voxels hnd).2, ?_⟩
  · rw [(h3 pairScene.voxels hnd).1]
    decide
  · exact (h4 ⟨0, 0, 0, 1⟩ ⟨1, 0, 0, 2⟩).mp ⟨2, by decide⟩

/-! ## The two orientations -/

/-- C19: if `(a, b, c)` is the coordinate stored with `xForward` off, the coordinate stored
with `xForward` on is `(sy - 1 - b, a, c)`; each remap is a linear map of determinant `-1`
followed by a translation, and the linear part of the map between the two, the quarter
turn `(a, b) -> (-b, a)` about Z, has determinant `+1`. -/
theorem C19_orientations (size : FIntVector) (cell : VoxCell) :
    ctorVector true (ctorSize true size) cell
      = ⟨size.Y - 1 - (ctorVector false (ctorSize false size) cell).Y,
          (ctorVector false (ctorSize false size) cell).X,
          (ctorVector false (ctorSize false size) cell).Z⟩ ∧
    (∀ (xf : Bool) (S : FIntVector),
      (ctorVector xf S cell).toVec
        = (remapLinear xf).mulVec ![cell.x, cell.y, cell.z] + remapOffset xf S) ∧
    (remapLinear false).det = -1 ∧ (remapLinear true).det = -1 ∧
    remapLinear true = quarterTurn * remapLinear false ∧
    quarterTurn.det = 1 ∧
    (!![0, -1; 1, 0] : Matrix (Fin 2) (Fin 2) Int).det = 1 ∧
    (∀ a b c : Int, quarterTurn.mulVec ![a, b, c] = ![-b, a, c]) := by
  refine ⟨?_, ?_, ?_, ?_, ?_, ?_, ?_, ?_⟩
  · unfold ctorVector ctorSize
    simp only [Bool.false_eq_true, if_false, if_true, FIntVector.mk.injEq, and_true]
    ring
  · intro xf S
    cases xf
    · funext i
      fin_cases i <;>
        (simp [FIntVector.toVec, ctorVector, remapLinear, remapOffset, Matrix.mulVec,
          Matrix.dotProduct, Fin.sum_univ_three]; try ring)
    · funext i
      fin_cases i <;>
        simp [FIntVector.toVec, ctorVector, remapLinear, remapOffset, Matrix.mulVec,
          Matrix.dotProduct, Fin.sum_univ_three] <;> ring
  · simp [remapLinear, Matrix.det_fin_three]
  · simp [remapLinear, Matrix.det_fin_three]
  · decide
  · simp [quarterTurn, Matrix.det_fin_three]
  · simp [Matrix.det_fin_two]
  · intro a b c
    funext i
    fin_cases i <;>
      simp [quarterTurn, Matrix.mulVec, Matrix.dotProduct, Fin.sum_univ_three]

/-! ## The palette lookup -/

/-- The colour and the UV of every wedge `CreateRawMesh` emits for an exposed face. -/
theorem naive_wedge_attributes (V : FVoxel) (hV : V.Built) (j : Nat)
    (x : (FIntVector × Nat) × Fin 6) (hj : (exposedFaces V)[j]? = some x) (t : Nat)
    (ht : t < 6) :
    (centered V ((exposedFaces V).foldl (emitFace V.Palette) FRawMesh.empty)).WedgeColors[
        6 * j + t]? = V.Palette[ColorIndex x.1.2]? ∧
    (centered V ((exposedFaces V).foldl (emitFace V.Palette) FRawMesh.empty)).WedgeTexCoords[
        6 * j + t]? = some (wedgeUV (ColorIndex x.1.2)) := by
  obtain ⟨-, -, -, a4, a5⟩ := emitFold_attributes V.Palette (exposedFaces V) FRawMesh.empty
  have hci : ColorIndex x.1.2 < V.Palette.length :=
    Built_colorIndex V hV x.1 (exposedFaces_entry V j x hj)
  constructor
  · show ((exposedFaces V).foldl (emitFace V.Palette) FRawMesh.empty).WedgeColors[6 * j + t]?
      = _
    rw [a4]
    simp only [FRawMesh.empty, List.nil_append]
    rw [flatMap_block_getElem? _ 6 (by intro a; simp) _ j t ht, hj]
    simp only [Option.some_bind]
    rw [List.getElem?_replicate, if_pos ht, palette_getD _ _ hci]
  · show ((exposedFaces V).foldl (emitFace V.Palette)
        FRawMesh.empty).WedgeTexCoords[6 * j + t]? = _
    rw [a5]
    simp only [FRawMesh.empty, List.nil_append]
    rw [flatMap_block_getElem? _ 6 (by intro a; simp) _ j t ht, hj]
    simp only [Option.some_bind]
    rw [List.getElem?_replicate, if_pos ht]

/-- C20: the colour index `(value - 1) mod 2 ^ 8` is below 256 for every stored value, so
in a constructed volume, whose palette has 256 entries, every lookup `Palette[ColorIndex]`
is in range and both meshers run to the end; a cell of material index 0 is kept and meshed
with `Palette[255]` and `u = 255.5 / 256`. -/
theorem C20_palette_lookup (dp : Fin 256 → Nat) (vox : DecodedScene) (opt : UVoxImportOption)
    (V : FVoxel) (hV : FVoxel.ctor dp vox opt = some V) :
    (∀ v : Nat, ColorIndex v < 256 ∧ (ColorIndex v : Int) = ((v : Int) - 1) % 2 ^ 8) ∧
    V.Palette.length = 256 ∧
    (∀ v : Nat, (V.Palette[ColorIndex v]?).isSome = true) ∧
    (ColorIndex 0 = 255 ∧ wedgeUV (ColorIndex 0) = ⟨(255 + 1 / 2) / 256, 1 / 2⟩) ∧
    (∀ cell ∈ vox.voxels, cell.i = 0 →
      ctorVector opt.bImportXForward V.Size cell ∈ V.Voxel.keys) ∧
    (∃ R, V.CreateRawMesh FRawMesh.empty = some R ∧
      ∀ (j : Nat) (Cell : FIntVector × Nat) (f : Fin 6),
        (exposedFaces V)[j]? = some (Cell, f) → ∀ t < 6,
          R.WedgeColors[6 * j + t]? = V.Palette[ColorIndex Cell.2]? ∧
          R.WedgeTexCoords[6 * j + t]? = some (wedgeUV (ColorIndex Cell.2)) ∧
          (Cell.2 = 0 → R.WedgeColors[6 * j + t]? = V.Palette[255]? ∧
            R.WedgeTexCoords[6 * j + t]? = some ⟨(255 + 1 / 2) / 256, 1 / 2⟩)) ∧
    (∃ Rs, V.CreateRawMeshes [] = some Rs ∧
      ∀ (n : Nat) (Cell : FIntVector × Nat), V.Voxel.entries[n]? = some Cell →
        ∃ M, Rs[n]? = some M ∧
          (∀ c ∈ M.WedgeColors, some c = V.Palette[ColorIndex Cell.2]?) ∧
          (∀ uv ∈ M.WedgeTexCoords, uv = wedgeUV (ColorIndex Cell.2)) ∧
          (Cell.2 = 0 → (∀ c ∈ M.WedgeColors, some c = V.Palette[255]?) ∧
            ∀ uv ∈ M.WedgeTexCoords, uv = ⟨(255 + 1 / 2) / 256, 1 / 2⟩)) := by
  have hB := ctor_Built dp vox opt V hV
  obtain ⟨hs, hv, -, hP⟩ := ctor_eq_some dp vox opt V hV
  have hlen : V.Palette.length = 256 := ctorPalette_length dp vox.palettes V.Palette hP
  have h0 : ColorIndex 0 = 255 := by decide
  have huv0 : wedgeUV 255 = ⟨(255 + 1 / 2) / 256, 1 / 2⟩ := by
    unfold wedgeUV
    norm_num
  refine ⟨?_, hlen, ?_, ⟨h0, by rw [h0]; exact huv0⟩, ?_, ⟨_, CreateRawMesh_built V hB, ?_⟩,
    ⟨_, CreateRawMeshes_built V hB, ?_⟩⟩
  · intro v
    refine ⟨ColorIndex_lt v, ?_⟩
    unfold ColorIndex
    omega
  · intro v
    rw [List.getElem?_eq_getElem (by rw [hlen]; exact ColorIndex_lt v)]
    rfl
  · intro cell hc _
    rw [hv, hs, mem_keys_ctorVoxel]
    exact Or.inr ⟨cell, hc, rfl⟩
  · intro j Cell f hj t ht
    obtain ⟨hc, hu⟩ := naive_wedge_attributes V hB j (Cell, f) hj t ht
    refine ⟨hc, hu, ?_⟩
    intro hz
    have hci : ColorIndex (Cell, f).1.2 = 255 := by
      show ColorIndex Cell.2 = 255
      rw [hz]; exact h0
    rw [hci] at hc hu
    exact ⟨hc, by rw [hu, huv0]⟩
  · intro n Cell hn
    have hci : ColorIndex Cell.2 < V.Palette.length :=
      Built_colorIndex V hB Cell (List.getElem?_mem hn)
    have hcol : ∀ c ∈ (centered V (cubeMesh V.Palette Cell)).WedgeColors,
        some c = V.Palette[ColorIndex Cell.2]? := by
      intro c hc
      have hc' : c ∈ List.replicate 36 (V.Palette.getD (ColorIndex Cell.2) ⟨0, 0, 0, 0⟩) := hc
      rw [(List.mem_replicate.mp hc').2, palette_getD _ _ hci]
    have huv : ∀ uv ∈ (centered V (cubeMesh V.Palette Cell)).WedgeTexCoords,
        uv = wedgeUV (ColorIndex Cell.2) := by
      intro uv h
      have h' : uv ∈ List.replicate 36 (wedgeUV (ColorIndex Cell.2)) := h
      exact (List.mem_replicate.mp h').2
    refine ⟨centered V (cubeMesh V.Palette Cell), by rw [List.getElem?_map, hn]; rfl,
      hcol, huv, ?_⟩
    intro hz
    have hci0 : ColorIndex Cell.2 = 255 := by rw [hz]; exact h0
    rw [hci0] at hcol huv
    exact ⟨hcol, fun uv h => by rw [huv uv h, huv0]⟩

/-- C20 at the scene whose only cell has material index 0: the cell is stored and its
wedges carry entry 255 of the palette. -/
theorem C20_palette_lookup_witness :
    ∃ V, FVoxel.ctor (fun _ => 0) badScene ⟨false, false⟩ = some V ∧
      V.Palette.length = 256 ∧ V.Voxel.entries = [(⟨-5, 0, 0⟩, 0)] ∧
      ∃ Rs, V.CreateRawMeshes [] = some Rs ∧
        ∃ M, Rs[0]? = some M ∧ ∀ c ∈ M.WedgeColors, some c = V.Palette[255]? := by
  obtain ⟨V, hV⟩ := ctor_succeeds (fun _ => 0) badScene ⟨false, false⟩ (Or.inl rfl)
  have he : V.Voxel.entries = [(⟨-5, 0, 0⟩, 0)] := by
    have h := badScene_eval
    rw [hV] at h
    simp only [Option.map_some', Option.some.injEq, Prod.mk.injEq] at h
    exact h.2.1
  obtain ⟨-, hlen, -, -, -, -, Rs, hRs, h⟩ :=
    C20_palette_lookup (fun _ => 0) badScene ⟨false, false⟩ V hV
  obtain ⟨M, hM, -, -, hz⟩ := h 0 (⟨-5, 0, 0⟩, 0) (by rw [he]; rfl)
  exact ⟨V, hV, hlen, he, Rs, hRs, M, hM, (hz rfl).1⟩

/-! ## The greedy scan of one layer -/

theorem runLength_spec (ok : Nat → Bool) :
    ∀ (n s : Nat), runLength ok s n ≤ n ∧ ∀ i, i < runLength ok s n → ok (s + i) = true := by
  intro n
  induction n with
  | zero => intro s; exact ⟨Nat.le_refl _, fun i hi => absurd hi (Nat.not_lt_zero _)⟩
  | succ n ih =>
    intro s
    unfold runLength
    split
    · next hok =>
      obtain ⟨h1, h2⟩ := ih (s + 1)
      refine ⟨Nat.succ_le_succ h1, ?_⟩
      intro i hi
      cases i with
      | zero => exact hok
      | succ i =>
        have := h2 i (Nat.lt_of_succ_lt_succ hi)
        rw [Nat.add_assoc, Nat.add_comm 1 i] at this
        exact this
    · exact ⟨Nat.zero_le _, fun i hi => absurd hi (Nat.not_lt_zero _)⟩

theorem runLength_pos (ok : Nat → Bool) (s n : Nat) (hn : 0 < n) (hs : ok s = true) :
    0 < runLength ok s n := by
  cases n with
  | zero => exact absurd hn (Nat.lt_irrefl _)
  | succ n =>
    unfold runLength
    rw [if_pos hs]
    exact Nat.succ_pos _

theorem mem_Rect_cells (r : Rect) (p : Nat × Nat) : p ∈ r.cells ↔ r.covers p := by
  unfold Rect.cells Rect.covers
  simp only [List.mem_flatMap, List.mem_map, List.mem_range]
  constructor
  · rintro ⟨j, hj, i, hi, rfl⟩
    dsimp only
    omega
  · rintro ⟨h1, h2, h3, h4⟩
    refine ⟨p.2 - r.v, by omega, p.1 - r.u, by omega, ?_⟩
    ext
    · dsimp only; omega
    · dsimp only; omega

theorem Rect_cells_nodup (r : Rect) : r.cells.Nodup := by
  unfold Rect.cells
  rw [List.nodup_flatMap]
  constructor
  · intro j _
    refine List.Nodup.map ?_ (List.nodup_range _)
    intro a b hab
    have := (Prod.mk.inj hab).1
    omega
  · refine (List.nodup_range r.h).imp ?_
    intro a b hab
    show List.Disjoint _ _
    intro p hp1 hp2
    simp only [List.mem_map, List.mem_range] at hp1 hp2
    obtain ⟨i1, _, rfl⟩ := hp1
    obtain ⟨i2, _, h2⟩ := hp2
    have := (Prod.mk.inj h2).2
    omega

theorem isVisited_iff (rs : List Rect) (p : Nat × Nat) :
    isVisited rs p = true ↔ ∃ r ∈ rs, r.covers p := by
  unfold isVisited
  simp only [List.any_eq_true, decide_eq_true_eq]

theorem isFree_iff (mask : Nat × Nat → Option Nat) (rs : List Rect) (m : Nat) (p : Nat × Nat) :
    isFree mask rs m p = true ↔ mask p = some m ∧ ∀ r ∈ rs, ¬ r.covers p := by
  unfold isFree
  rw [Bool.and_eq_true, decide_eq_true_eq, Bool.not_eq_true', ← Bool.not_eq_true,
    isVisited_iff]
  simp only [not_exists, not_and]

/-- The rectangle grown at a free cell of the layer: every cell it covers is free, lies in
the layer, and the starting cell is covered. -/
theorem grown_rect (W H : Nat) (mask : Nat × Nat → Option Nat) (rs : List Rect) (m : Nat)
    (q : Nat × Nat) (hq1 : q.1 < W) (hq2 : q.2 < H) (hfree : isFree mask rs m q = true)
    (w h : Nat)
    (hw : w = runLength (fun i => isFree mask rs m (i, q.2)) q.1 (W - q.1))
    (hh : h = runLength
      (fun j => (List.range w).all (fun i => isFree mask rs m (q.1 + i, j))) q.2 (H - q.2)) :
    (∀ p, (Rect.mk q.1 q.2 w h m).covers p →
      isFree mask rs m p = true ∧ p.1 < W ∧ p.2 < H) ∧
    (Rect.mk q.1 q.2 w h m).covers q := by
  obtain ⟨hwle, hwok⟩ := runLength_spec (fun i => isFree mask rs m (i, q.2)) (W - q.1) q.1
  obtain ⟨hhle, hhok⟩ := runLength_spec
    (fun j => (List.range w).all (fun i => isFree mask rs m (q.1 + i, j))) (H - q.2) q.2
  rw [← hw] at hwle hwok
  rw [← hh] at hhle hhok
  have hwpos : 0 < w := by
    rw [hw]
    exact runLength_pos _ _ _ (by omega) hfree
  have hrow : (List.range w).all (fun i => isFree mask rs m (q.1 + i, q.2)) = true := by
    rw [List.all_eq_true]
    intro i hi
    exact hwok i (List.mem_range.mp hi)
  have hhpos : 0 < h := by
    rw [hh]
    exact runLength_pos _ _ _ (by omega) hrow
  constructor
  · intro p hp
    unfold Rect.covers at hp
    dsimp only at hp
    obtain ⟨h1, h2, h3, h4⟩ := hp
    have hj := hhok (p.2 - q.2) (by omega)
    rw [List.all_eq_true] at hj
    have hi := hj (p.1 - q.1) (List.mem_range.mpr (by omega))
    have e1 : q.1 + (p.1 - q.1) = p.1 := by omega
    have e2 : q.2 + (p.2 - q.2) = p.2 := by omega
    rw [e1, e2] at hi
    exact ⟨hi, by omega, by omega⟩
  · unfold Rect.covers
    dsimp only
    omega

theorem isVisited_append (rs : List Rect) (r : Rect) (p : Nat × Nat)
    (h : isVisited rs p = true) : isVisited (rs ++ [r]) p = true := by
  rw [isVisited_iff] at h ⊢
  obtain ⟨r', hr', hc⟩ := h
  exact ⟨r', List.mem_append_left _ hr', hc⟩

/-- One step of the scan keeps the rectangles sound and disjoint, never unvisits a cell,
and leaves the scanned cell visited when its mask entry is not empty. -/
theorem scanCell_spec (W H : Nat) (mask : Nat × Nat → Option Nat) (rs : List Rect)
    (q : Nat × Nat) (hq1 : q.1 < W) (hq2 : q.2 < H)
    (hS : LayerSound W H mask rs) (hD : LayerDisjoint rs) :
    LayerSound W H mask (scanCell W H mask rs q) ∧
    LayerDisjoint (scanCell W H mask rs q) ∧
    (∀ p, isVisited rs p = true → isVisited (scanCell W H mask rs q) p = true) ∧
    (mask q ≠ none → isVisited (scanCell W H mask rs q) q = true) := by
  unfold scanCell
  cases hm : mask q with
  | none => exact ⟨hS, hD, fun p hp => hp, fun h => absurd rfl h⟩
  | some m =>
    dsimp only
    cases hv : isVisited rs q with
    | true =>
      simp only [if_true]
      exact ⟨hS, hD, fun p hp => hp, fun _ => hv⟩
    | false =>
      simp only [Bool.false_eq_true, if_false]
      have hfree : isFree mask rs m q = true := by
        unfold isFree
        rw [hv, hm]
        simp
      obtain ⟨hall, hself⟩ := grown_rect W H mask rs m q hq1 hq2 hfree _ _ rfl rfl
      refine ⟨?_, ?_, fun p hp => isVisited_append rs _ p hp, ?_⟩
      · intro r hr p hp
        rcases List.mem_append.mp hr with h | h
        · exact hS r h p hp
        · rw [List.mem_singleton] at h
          subst h
          obtain ⟨hf, hb⟩ := hall p hp
          exact ⟨((isFree_iff mask rs m p).mp hf).1, hb⟩
      · unfold LayerDisjoint
        rw [List.pairwise_append]
        refine ⟨hD, List.pairwise_singleton _ _, ?_⟩
        intro r hr r' hr' p hp hp'
        rw [List.mem_singleton] at hr'
        subst hr'
        exact ((isFree_iff mask rs m p).mp (hall p hp').1).2 r hr hp
      · intro _
        rw [isVisited_iff]
        exact ⟨_, List.mem_append_right _ (List.mem_singleton.mpr rfl), hself⟩

theorem mem_gridCells (W H : Nat) (p : Nat × Nat) : p ∈ gridCells W H ↔ p.1 < W ∧ p.2 < H := by
  unfold gridCells
  simp only [List.mem_flatMap, List.mem_map, List.mem_range]
  constructor
  · rintro ⟨v, hv, u, hu, rfl⟩
    exact ⟨hu, hv⟩
  · rintro ⟨h1, h2⟩
    exact ⟨p.2, h2, p.1, h1, rfl⟩

/-- The scan over any list of cells of the layer. -/
theorem scanFold_spec (W H : Nat) (mask : Nat × Nat → Option Nat) (ps : List (Nat × Nat)) :
    ∀ rs : List Rect, (∀ p ∈ ps, p.1 < W ∧ p.2 < H) →
      LayerSound W H mask rs → LayerDisjoint rs →
      LayerSound W H mask (ps.foldl (scanCell W H mask) rs) ∧
      LayerDisjoint (ps.foldl (scanCell W H mask) rs) ∧
      (∀ p, isVisited rs p = true → isVisited (ps.foldl (scanCell W H mask) rs) p = true) ∧
      (∀ p ∈ ps, mask p ≠ none → isVisited (ps.foldl (scanCell W H mask) rs) p = true) := by
  induction ps with
  | nil => intro rs _ hS hD; exact ⟨hS, hD, fun p hp => hp, fun p hp => absurd hp (List.not_mem_nil _)⟩
  | cons q ps ih =>
    intro rs hin hS hD
    obtain ⟨hq1, hq2⟩ := hin q (List.mem_cons_self _ _)
    obtain ⟨s1, s2, s3, s4⟩ := scanCell_spec W H mask rs q hq1 hq2 hS hD
    obtain ⟨t1, t2, t3, t4⟩ := ih (scanCell W H mask rs q)
      (fun p hp => hin p (List.mem_cons_of_mem _ hp)) s1 s2
    rw [List.foldl_cons]
    refine ⟨t1, t2, fun p hp => t3 p (s3 p hp), ?_⟩
    intro p hp hm
    rcases List.mem_cons.mp hp with h | h
    · subst h
      exact t3 _ (s4 hm)
    · exact t4 p h hm

/-- The rectangles of a layer decompose into exactly the non-empty cells of its mask,
each once, and every rectangle has the material of the cells it covers. -/
theorem mergeLayer_spec (W H : Nat) (mask : Nat × Nat → Option Nat) :
    ((mergeLayer W H mask).flatMap Rect.cells).Nodup ∧
    (∀ p, p ∈ (mergeLayer W H mask).flatMap Rect.cells ↔
      (p.1 < W ∧ p.2 < H) ∧ mask p ≠ none) ∧
    (∀ r ∈ mergeLayer W H mask, ∀ p ∈ r.cells, mask p = some r.m) := by
  obtain ⟨hS, hD, -, hdone⟩ := scanFold_spec W H mask (gridCells W H) []
    (fun p hp => (mem_gridCells W H p).mp hp)
    (by intro r hr; exact absurd hr (List.not_mem_nil _)) List.Pairwise.nil
  refine ⟨?_, ?_, ?_⟩
  · rw [List.nodup_flatMap]
    refine ⟨fun r _ => Rect_cells_nodup r, ?_⟩
    refine List.Pairwise.imp ?_ hD
    intro r r' h
    show List.Disjoint _ _
    intro p hp hp'
    exact h p ((mem_Rect_cells r p).mp hp) ((mem_Rect_cells r' p).mp hp')
  · intro p
    rw [List.mem_flatMap]
    constructor
    · rintro ⟨r, hr, hp⟩
      obtain ⟨hm, hb⟩ := hS r hr p ((mem_Rect_cells r p).mp hp)
      exact ⟨hb, by rw [hm]; exact Option.some_ne_none _⟩
    · rintro ⟨hb, hm⟩
      obtain ⟨r, hr, hc⟩ := (isVisited_iff _ p).mp
        (hdone p ((mem_gridCells W H p).mpr hb) hm)
      exact ⟨r, hr, (mem_Rect_cells r p).mpr hc⟩
  · intro r hr p hp
    exact (hS r hr p ((mem_Rect_cells r p).mp hp)).1

/-! ## The layers of the volume -/

theorem layerCell_injective (f : Fin 6) (l l' : Nat) (p p' : Nat × Nat)
    (h : layerCell f l p = layerCell f l' p') : l = l' ∧ p = p' := by
  unfold layerCell at h
  obtain ⟨p1, p2⟩ := p
  obtain ⟨q1, q2⟩ := p'
  simp only [Prod.mk.injEq]
  split at h
  · simp only [FIntVector.mk.injEq] at h; omega
  · split at h
    · simp only [FIntVector.mk.injEq] at h; omega
    · simp only [FIntVector.mk.injEq] at h; omega

theorem layerMask_ne_none (V : FVoxel) (f : Fin 6) (l : Nat) (p : Nat × Nat) :
    layerMask V f l p ≠ none ↔
      layerCell f l p ∈ V.Voxel.keys ∧ layerCell f l p + Vectors f ∉ V.Voxel.keys := by
  unfold layerMask
  rw [← TMap.Find_isSome, ← TMap.Find_isNone]
  cases h1 : V.Voxel.Find (layerCell f l p) with
  | none => simp
  | some m =>
    cases h2 : V.Voxel.Find (layerCell f l p + Vectors f) with
    | none => simp
    | some m' => simp

theorem layerMask_some (V : FVoxel) (f : Fin 6) (l : Nat) (p : Nat × Nat) (m : Nat)
    (h : layerMask V f l p = some m) : V.Voxel.Find (layerCell f l p) = some m := by
  unfold layerMask at h
  cases h1 : V.Voxel.Find (layerCell f l p) with
  | none => rw [h1] at h; exact Option.noConfusion h
  | some m' =>
    rw [h1] at h
    dsimp only at h
    split at h
    · exact Option.noConfusion h
    · exact h

/-- Every cell of the box of the stored size is a cell of some layer. -/
theorem layerCell_surjective (S : FIntVector) (f : Fin 6) (c : FIntVector) (hc : inBox S c) :
    ∃ (l : Nat) (p : Nat × Nat), l < layerCount S f ∧
      (p.1 < layerWidth S f ∧ p.2 < layerHeight S f) ∧ c = layerCell f l p := by
  obtain ⟨cx, cy, cz⟩ := c
  obtain ⟨sx, sy, sz⟩ := S
  unfold inBox at hc
  dsimp only at hc
  unfold layerCount layerWidth layerHeight layerCell
  by_cases h2 : f.val < 2
  · refine ⟨cz.toNat, (cx.toNat, cy.toNat), ?_⟩
    simp only [h2, if_true, FIntVector.mk.injEq]
    omega
  · by_cases h4 : f.val < 4
    · refine ⟨cx.toNat, (cy.toNat, cz.toNat), ?_⟩
      simp only [h2, h4, if_true, if_false, FIntVector.mk.injEq]
      omega
    · refine ⟨cy.toNat, (cx.toNat, cz.toNat), ?_⟩
      simp only [h2, h4, if_false, FIntVector.mk.injEq]
      omega

/-- The unit faces of the greedy quads, layer by layer. -/
theorem greedyUnitFaces_eq (V : FVoxel) :
    greedyUnitFaces V = faceIndices.flatMap (fun f =>
      (List.range (layerCount V.Size f)).flatMap (fun l =>
        ((mergeLayer (layerWidth V.Size f) (layerHeight V.Size f)
          (layerMask V f l)).flatMap Rect.cells).map (fun p => (layerCell f l p, f)))) := by
  unfold greedyUnitFaces greedyQuads quadUnitFaces
  rw [List.flatMap_assoc]
  refine List.flatMap_congr ?_
  intro f _
  rw [List.flatMap_assoc]
  refine List.flatMap_congr ?_
  intro l _
  rw [List.flatMap_map, List.map_flatMap]

theorem mem_greedyUnitFaces (V : FVoxel) (hbox : ∀ k ∈ V.Voxel.keys, inBox V.Size k)
    (c : FIntVector) (f : Fin 6) :
    (c, f) ∈ greedyUnitFaces V ↔ c ∈ V.Voxel.keys ∧ c + Vectors f ∉ V.Voxel.keys := by
  rw [greedyUnitFaces_eq]
  simp only [List.mem_flatMap, List.mem_map, List.mem_range, Prod.mk.injEq]
  constructor
  · rintro ⟨f', -, l, -, p, hp, rfl, rfl⟩
    have hmem : p ∈ (mergeLayer (layerWidth V.Size f') (layerHeight V.Size f')
        (layerMask V f' l)).flatMap Rect.cells := List.mem_flatMap.mpr hp
    have := ((mergeLayer_spec _ _ _).2.1 p).mp hmem
    exact (layerMask_ne_none V f' l p).mp this.2
  · rintro ⟨hc, hn⟩
    obtain ⟨l, p, hl, hp, rfl⟩ := layerCell_surjective V.Size f c (hbox c hc)
    have hm : layerMask V f l p ≠ none := (layerMask_ne_none V f l p).mpr ⟨hc, hn⟩
    have hmem := ((mergeLayer_spec (layerWidth V.Size f) (layerHeight V.Size f)
      (layerMask V f l)).2.1 p).mpr ⟨hp, hm⟩
    exact ⟨f, mem_faceIndices f, l, hl, p, List.mem_flatMap.mp hmem, rfl, rfl⟩

theorem greedyUnitFaces_nodup (V : FVoxel) : (greedyUnitFaces V).Nodup := by
  rw [greedyUnitFaces_eq, List.nodup_flatMap]
  constructor
  · intro f _
    rw [List.nodup_flatMap]
    constructor
    · intro l _
      refine List.Nodup.map ?_ (mergeLayer_spec _ _ _).1
      intro p p' h
      exact (layerCell_injective f l l p p' (Prod.mk.inj h).1).2
    · refine (List.nodup_range _).imp ?_
      intro l l' hne
      show List.Disjoint _ _
      intro y hy hy'
      simp only [List.mem_map] at hy hy'
      obtain ⟨p, -, rfl⟩ := hy
      obtain ⟨p', -, h⟩ := hy'
      exact hne (layerCell_injective f l' l p' p (Prod.mk.inj h).1).1.symm
  · refine faceIndices_nodup.imp ?_
    intro f f' hne
    show List.Disjoint _ _
    intro y hy hy'
    simp only [List.mem_flatMap, List.mem_map] at hy hy'
    obtain ⟨l, -, p, -, rfl⟩ := hy
    obtain ⟨l', -, p', -, h⟩ := hy'
    exact hne (Prod.mk.inj h).2.symm

theorem scanFold_start (W H : Nat) (mask : Nat × Nat → Option Nat) (ps : List (Nat × Nat)) :
    ∀ rs : List Rect, (∀ p ∈ ps, p.1 < W ∧ p.2 < H) → (∀ r ∈ rs, r.covers (r.u, r.v)) →
      ∀ r ∈ ps.foldl (scanCell W H mask) rs, r.covers (r.u, r.v) := by
  induction ps with
  | nil => intro rs _ h; exact h
  | cons q ps ih =>
    intro rs hin h
    rw [List.foldl_cons]
    refine ih _ (fun p hp => hin p (List.mem_cons_of_mem _ hp)) ?_
    obtain ⟨hq1, hq2⟩ := hin q (List.mem_cons_self _ _)
    unfold scanCell
    cases hm : mask q with
    | none => exact h
    | some m =>
      dsimp only
      cases hv : isVisited rs q with
      | true => simp only [if_true]; exact h
      | false =>
        simp only [Bool.false_eq_true, if_false]
        have hfree : isFree mask rs m q = true := by
          unfold isFree
          rw [hv, hm]
          simp
        obtain ⟨-, hself⟩ := grown_rect W H mask rs m q hq1 hq2 hfree _ _ rfl rfl
        intro r hr
        rcases List.mem_append.mp hr with hr | hr
        · exact h r hr
        · rw [List.mem_singleton] at hr
          subst hr
          exact hself

theorem mergeLayer_nonempty (W H : Nat) (mask : Nat × Nat → Option Nat) :
    ∀ r ∈ mergeLayer W H mask, r.cells ≠ [] := by
  intro r hr
  have hc := scanFold_start W H mask (gridCells W H) []
    (fun p hp => (mem_gridCells W H p).mp hp)
    (by intro r hr; exact absurd hr (List.not_mem_nil _)) r hr
  exact List.ne_nil_of_mem ((mem_Rect_cells r _).mpr hc)

theorem length_le_flatMap {α β : Type} (g : α → List β) (l : List α)
    (h : ∀ a ∈ l, g a ≠ []) : l.length ≤ (l.flatMap g).length := by
  induction l with
  | nil => exact Nat.le_refl _
  | cons a l ih =>
    rw [List.flatMap_cons, List.length_append, List.length_cons]
    have h1 : 0 < (g a).length := List.length_pos.mpr (h a (List.mem_cons_self _ _))
    have h2 := ih (fun b hb => h b (List.mem_cons_of_mem _ hb))
    omega

theorem mem_greedyQuads (V : FVoxel) (q : Fin 6 × Nat × Rect) (hq : q ∈ greedyQuads V) :
    q.2.2 ∈ mergeLayer (layerWidth V.Size q.1) (layerHeight V.Size q.1)
      (layerMask V q.1 q.2.1) := by
  unfold greedyQuads at hq
  simp only [List.mem_flatMap, List.mem_map, List.mem_range] at hq
  obtain ⟨f, -, l, -, r, hr, rfl⟩ := hq
  exact hr

/-! ## The greedy mesher against the naive mesher -/

/-- Every unit face of a greedy quad is a face of an occupied cell whose neighbour is not
occupied. -/
theorem greedyUnitFaces_sound (V : FVoxel) (c : FIntVector) (f : Fin 6)
    (h : (c, f) ∈ greedyUnitFaces V) : c ∈ V.Voxel.keys ∧ c + Vectors f ∉ V.Voxel.keys := by
  rw [greedyUnitFaces_eq] at h
  simp only [List.mem_flatMap, List.mem_map, List.mem_range, Prod.mk.injEq] at h
  obtain ⟨f', -, l, -, p, hp, rfl, rfl⟩ := h
  have hmem : p ∈ (mergeLayer (layerWidth V.Size f') (layerHeight V.Size f')
      (layerMask V f' l)).flatMap Rect.cells := List.mem_flatMap.mpr hp
  have := ((mergeLayer_spec _ _ _).2.1 p).mp hmem
  exact (layerMask_ne_none V f' l p).mp this.2

theorem badScene_greedy_eval :
    (FVoxel.ctor (fun _ => 0) badScene ⟨false, false⟩).map (fun V : FVoxel =>
      (V.Size, V.Voxel.keys, greedyUnitFaces V))
      = some (⟨1, 1, 1⟩, [⟨-5, 0, 0⟩], []) := by
  decide!

theorem badScene_naive_eval :
    (FVoxel.ctor (fun _ => 0) badScene ⟨false, false⟩).map (fun V : FVoxel =>
      ((exposedFaces V).map (fun x => (x.1.1, x.2)),
        (V.CreateRawMesh FRawMesh.empty).map
          (fun R : FRawMesh => R.FaceMaterialIndices.length)))
      = some ([(⟨-5, 0, 0⟩, 0), (⟨-5, 0, 0⟩, 1), (⟨-5, 0, 0⟩, 2), (⟨-5, 0, 0⟩, 3),
           (⟨-5, 0, 0⟩, 4), (⟨-5, 0, 0⟩, 5)], some 12) := by
  decide!

end VOX4U
